import Mathlib

/-!
# Verification of the review-page background pipeline

A shallow embedding of the review-collection app's dirty-flag-driven
convergence pipeline:

* `src/app/api/batch/embeddings/run/route.ts` — the review-body embedding run
  (`runEmbeddings` below);
* `src/app/api/batch/rollups/run/route.ts` — the rollup run: stats, incremental
  summary, rollup-summary embedding (`runRollups` below);
* the review write path (`src/unnamed/part_001`) — `postCourseReview` below.

External effects are modelled explicitly:

* The persistent store (Supabase tables) is a record of lists (`Db`); each
  SQL statement of the source becomes a pure transformation of that record.
  Store writes are modelled as infallible except on the write path, where the
  source's compensating-delete logic is the object of study and each fallible
  statement gets an explicit failure switch in `WriteEnv`.
* External services (OpenAI summarization / embedding calls) and the SHA-256
  digest are oracles carried in `Env`: the pipeline's logic depends on them
  only through their pointwise values, so they are fields of the environment
  (`Env.summarize`, `Env.embedBatch`, `Env.embedSummary`, `Env.sha256Hex`).
  A failing service call is an `Except.error` carrying the error message.
* Timestamps (ISO strings in the source, compared chronologically) are
  modelled as integers; `Env.now` is the clock value of the run.

Each run is a single sequential bounded pass, exactly as the source performs
it (the source awaits each statement and sub-batch in order).
-/

namespace ReviewPage

/-! ## String utilities (JS `trim`, `replace(/\s+/g,' ')`, `slice`) -/

/-- JS `String.prototype.trim`: drop leading and trailing whitespace. -/
def jsTrim (s : String) : String :=
  ⟨((s.data.dropWhile Char.isWhitespace).reverse.dropWhile Char.isWhitespace).reverse⟩

/-- Helper for `collapseWs`: the flag records whether the previously read
character was whitespace (in which case the run was already replaced). -/
def collapseWsAux : Bool → List Char → List Char
  | _, [] => []
  | prevWs, c :: cs =>
    if c.isWhitespace then
      if prevWs then collapseWsAux true cs
      else ' ' :: collapseWsAux true cs
    else c :: collapseWsAux false cs

/-- JS `replace(/\s+/g, ' ')`: collapse every whitespace run to one space. -/
def collapseWs (s : String) : String := ⟨collapseWsAux false s.data⟩

/-- `MAX_BODY_CHARS_FOR_SUMMARY` of the rollups route. -/
def MAX_BODY_CHARS_FOR_SUMMARY : Nat := 1200

/-- `normalizeBodyForSummary` of the rollups route:
`body.trim().replace(/\s+/g,' ')`, truncated to 1200 chars plus an ellipsis. -/
def normalizeBodyForSummary (body : String) : String :=
  let t := collapseWs (jsTrim body)
  if t.data.length ≤ MAX_BODY_CHARS_FOR_SUMMARY then t
  else ⟨t.data.take MAX_BODY_CHARS_FOR_SUMMARY ++ ['…']⟩

/-- `normalizeSummaryForEmbedding` of the rollups route:
`summary.trim().replace(/\s+/g,' ')`. -/
def normalizeSummaryForEmbedding (summary : String) : String :=
  collapseWs (jsTrim summary)

/-! ## Generic list helpers shared by the routes -/

/-- Fuel-indexed worker for `chunkList`; the fuel is the input length, which
bounds the number of chunks whenever `size ≥ 1`. -/
def chunkFuel (size : Nat) : Nat → List α → List (List α)
  | _, [] => []
  | 0, l => [l]
  | fuel + 1, l => l.take size :: chunkFuel size fuel (l.drop size)

/-- The `chunk` helper of both batch routes: split a list into consecutive
slices of the given size. -/
def chunkList (size : Nat) (l : List α) : List (List α) :=
  chunkFuel size l.length l

/-- Insert into a sorted list, used by `sortListBy` (models the store's
`ORDER BY`). -/
def insertLe (le : α → α → Bool) (a : α) : List α → List α
  | [] => [a]
  | b :: bs => if le a b then a :: b :: bs else b :: insertLe le a bs

/-- Insertion sort; models the store's `ORDER BY key ASC` clauses. -/
def sortListBy (le : α → α → Bool) : List α → List α
  | [] => []
  | a :: as => insertLe le a (sortListBy le as)

/-- Association-list lookup by key, modelling a `SELECT ... WHERE id = _`
against a primary-key column (the source builds a `Map` from such a query). -/
def lookupBody (bodies : List (String × String)) (id : String) : Option String :=
  (bodies.find? (fun p => p.1 == id)).map (·.2)

/-! ## Data model -/

/-- `embedding_jobs.status` (the WorkItem state machine). -/
inductive JobStatus where
  | queued
  | processing
  | done
  | failed
  deriving DecidableEq, BEq, Repr

/-- A row of `embedding_jobs` (one WorkItem per review body). -/
structure JobRow where
  review_id : String
  status : JobStatus
  attempt_count : Nat
  locked_at : Option Int
  locked_by : Option String
  updated_at : Int
  last_error : Option String
  deriving DecidableEq, Repr

/-- A row of `course_reviews` (one immutable ReviewUnit). -/
structure ReviewRow where
  id : String
  subject_id : String
  user_id : String
  created_at : Int
  faculty : String
  department : Option String
  grade_at_take : Int
  teacher_names : Option (List String)
  academic_year : Int
  term : String
  credits_at_take : Option Int
  requirement_type_at_take : String
  performance_self : Int
  assignment_difficulty_4 : Int
  credit_ease : Int
  class_difficulty : Int
  assignment_load : Int
  attendance_strictness : Int
  satisfaction : Int
  recommendation : Int
  deriving DecidableEq, Repr

/-- A row of `course_review_embeddings` (EmbeddingRecord of a review body). -/
structure ReviewEmbRow where
  review_id : String
  embedding : List Int
  model : String
  content_hash : Option String
  updated_at : Int
  deriving DecidableEq, Repr

/-- A row of `subject_rollups` (the SubjectRollup of one subject). -/
structure RollupRow where
  subject_id : String
  review_count : Nat
  avg_credit_ease : Option Rat
  avg_class_difficulty : Option Rat
  avg_assignment_load : Option Rat
  avg_attendance_strictness : Option Rat
  avg_satisfaction : Option Rat
  avg_recommendation : Option Rat
  summary_1000 : String
  last_processed_review_id : Option String
  is_dirty : Bool
  updated_at : Int
  deriving DecidableEq, Repr

/-- A row of `subject_rollup_embeddings` (EmbeddingRecord of a rollup
summary; `embedding` is nullable by design for empty summaries). -/
structure RollupEmbeddingRow where
  subject_id : String
  embedding : Option (List Int)
  model : String
  content_hash : String
  deriving DecidableEq, Repr

/-- A row of `users`. -/
structure UserRow where
  id : String
  line_user_hash : String
  deriving DecidableEq, Repr

/-- A row of `universities`. -/
structure UniversityRow where
  id : String
  name : String
  deriving DecidableEq, Repr

/-- A row of `subjects`. -/
structure SubjectRow where
  id : String
  university_id : String
  name : String
  deriving DecidableEq, Repr

/-- A row of `user_affiliations` (latest affiliation only, keyed by user). -/
structure AffiliationRow where
  user_id : String
  university_id : String
  faculty : String
  department : Option String
  deriving DecidableEq, Repr

/-- The persistent store. -/
structure Db where
  users : List UserRow
  universities : List UniversityRow
  subjects : List SubjectRow
  user_affiliations : List AffiliationRow
  course_reviews : List ReviewRow
  course_review_bodies : List (String × String)
  embedding_jobs : List JobRow
  course_review_embeddings : List ReviewEmbRow
  subject_rollups : List RollupRow
  subject_rollup_embeddings : List RollupEmbeddingRow
  deriving DecidableEq, Repr

/-- Environment of a batch invocation: the clock, the runner identity, the
configured model names, and the external capabilities (digest, embedding
batch call, summarization call, rollup-summary embedding call). A service
failure is an `Except.error` with the error message the route would record. -/
structure Env where
  now : Int
  runner : String
  embeddingModel : String
  rollupEmbeddingModel : String
  sha256Hex : String → String
  embedBatch : List String → Except String (List (List Int))
  summarize : String → List String → Except String String
  embedSummary : String → Except String (List Int)

/-! ## The embeddings run (`src/app/api/batch/embeddings/run/route.ts`) -/

/-- `MAX_JOBS_PER_RUN`. -/
def MAX_JOBS_PER_RUN : Nat := 50

/-- `EMBEDDING_BATCH_SIZE`. -/
def EMBEDDING_BATCH_SIZE : Nat := 16

/-- `LOCK_STALE_MINUTES` expressed in clock units (milliseconds). -/
def LOCK_STALE_MS : Int := 15 * 60 * 1000

/-- `staleBefore` of the embeddings route: locks older than this instant are
considered stale. -/
def staleBefore (env : Env) : Int := env.now - LOCK_STALE_MS

/-- The row filter of the job-selection query:
`.in('status', ['queued','failed']).or('locked_at.is.null,locked_at.lt.staleBefore')`. -/
def jobSelectable (env : Env) (j : JobRow) : Bool :=
  (j.status == JobStatus.queued || j.status == JobStatus.failed) &&
    (match j.locked_at with
     | none => true
     | some t => decide (t < staleBefore env))

/-- The job-selection query: filter, order by `updated_at` ascending, limit
`MAX_JOBS_PER_RUN`. -/
def selectJobs (env : Env) (jobs : List JobRow) : List JobRow :=
  (sortListBy (fun a b => decide (a.updated_at ≤ b.updated_at))
      (jobs.filter (jobSelectable env))).take MAX_JOBS_PER_RUN

/-- The lock statement: set the picked rows (still in a claimable status) to
`processing`, stamping owner and timestamp. -/
def lockJobs (env : Env) (ids : List String) (jobs : List JobRow) : List JobRow :=
  jobs.map fun j =>
    if ids.contains j.review_id &&
        (j.status == JobStatus.queued || j.status == JobStatus.failed) then
      { j with status := JobStatus.processing, locked_at := some env.now,
               locked_by := some env.runner, updated_at := env.now }
    else j

/-- An entry of the route's `need` list: a unit that must be embedded. -/
structure NeedItem where
  review_id : String
  body : String
  hash : String
  attempt_count : Nat
  deriving DecidableEq, Repr

/-- An entry of the route's `toFailMissingBody` list. -/
structure FailItem where
  review_id : String
  error : String
  attempt_count : Nat
  deriving DecidableEq, Repr

/-- The stored hash of a review's embedding record
(`hashMap.get(id) ?? null` in the route). -/
def storedHashOf (embs : List ReviewEmbRow) (id : String) : Option String :=
  (embs.find? (fun m => m.review_id == id)).bind (·.content_hash)

/-- Step 6 of the embeddings route: walk the picked jobs and split them into
`need` (embedding required), `toDoneSkip` (hash already matches) and
`toFailMissingBody` (no usable body). -/
def classifyJobs (env : Env) (bodies : List (String × String))
    (embs : List ReviewEmbRow) :
    List JobRow → List NeedItem × List String × List FailItem
  | [] => ([], [], [])
  | j :: rest =>
    let cls := classifyJobs env bodies embs rest
    match lookupBody bodies j.review_id with
    | none =>
      (cls.1, cls.2.1,
       { review_id := j.review_id,
         error := "missing body_main in course_review_bodies",
         attempt_count := j.attempt_count } :: cls.2.2)
    | some body =>
      if (jsTrim body).data.length = 0 then
        (cls.1, cls.2.1,
         { review_id := j.review_id,
           error := "missing body_main in course_review_bodies",
           attempt_count := j.attempt_count } :: cls.2.2)
      else
        let h := env.sha256Hex body
        match storedHashOf embs j.review_id with
        | some existing =>
          if existing != "" && existing == h then
            (cls.1, j.review_id :: cls.2.1, cls.2.2)
          else
            ({ review_id := j.review_id, body := body, hash := h,
               attempt_count := j.attempt_count } :: cls.1, cls.2.1, cls.2.2)
        | none =>
          ({ review_id := j.review_id, body := body, hash := h,
             attempt_count := j.attempt_count } :: cls.1, cls.2.1, cls.2.2)

/-- Step 7: mark the hash-matching jobs `done` (attempt count untouched). -/
def markSkippedDone (env : Env) (ids : List String) (jobs : List JobRow) :
    List JobRow :=
  jobs.map fun j =>
    if ids.contains j.review_id then
      { j with status := JobStatus.done, last_error := none, locked_at := none,
               locked_by := some env.runner, updated_at := env.now }
    else j

/-- The payload of a job upsert row in steps 8 and 9 (the remaining columns
`locked_at = null`, `locked_by = runner`, `updated_at = now` are fixed). -/
structure JobWrite where
  review_id : String
  status : JobStatus
  attempt_count : Nat
  last_error : Option String
  deriving DecidableEq, Repr

/-- The full row a job upsert writes. -/
def jobWriteRow (env : Env) (w : JobWrite) : JobRow :=
  { review_id := w.review_id, status := w.status,
    attempt_count := w.attempt_count, locked_at := none,
    locked_by := some env.runner, updated_at := env.now,
    last_error := w.last_error }

/-- `upsert(..., { onConflict: 'review_id' })` for one row of `embedding_jobs`. -/
def upsertJob (env : Env) (w : JobWrite) (jobs : List JobRow) : List JobRow :=
  if jobs.any (fun j => j.review_id == w.review_id) then
    jobs.map fun j => if j.review_id == w.review_id then jobWriteRow env w else j
  else jobs ++ [jobWriteRow env w]

/-- Upsert a list of job rows, first to last. -/
def upsertJobs (env : Env) (ws : List JobWrite) (jobs : List JobRow) :
    List JobRow :=
  ws.foldl (fun acc w => upsertJob env w acc) jobs

/-- `upsert(..., { onConflict: 'review_id' })` for `course_review_embeddings`. -/
def upsertReviewEmb (row : ReviewEmbRow) (embs : List ReviewEmbRow) :
    List ReviewEmbRow :=
  if embs.any (fun m => m.review_id == row.review_id) then
    embs.map fun m => if m.review_id == row.review_id then row else m
  else embs ++ [row]

/-- State threaded through the per-batch loop of step 9. -/
structure EmbBatchState where
  jobs : List JobRow
  embs : List ReviewEmbRow
  embedCalls : List (List String)
  done : Nat
  failed : Nat
  deriving Repr

/-- The `done` job write of a successfully embedded unit (attempt + 1). -/
def doneWrite (x : NeedItem) : JobWrite :=
  { review_id := x.review_id, status := JobStatus.done,
    attempt_count := x.attempt_count + 1, last_error := none }

/-- The `failed` job write of a unit in a failed batch (attempt + 1, error
text recorded). -/
def failWrite (msg : String) (x : NeedItem) : JobWrite :=
  { review_id := x.review_id, status := JobStatus.failed,
    attempt_count := x.attempt_count + 1, last_error := some msg }

/-- The error text thrown on a mismatched vector count. -/
def mismatchMsg (got expected : Nat) : String :=
  "embedding response mismatch: got " ++ toString got ++ ", expected " ++
    toString expected

/-- The job write a batch produces for one of its units, as a function of the
external call's outcome: `done` on success with a matching vector count,
`failed` (with the recorded error text) otherwise. -/
def batchJobWrite (env : Env) (batch : List NeedItem) (x : NeedItem) :
    JobWrite :=
  match env.embedBatch (batch.map (·.body)) with
  | Except.ok vecs =>
    if vecs.length = batch.length then doneWrite x
    else failWrite (mismatchMsg vecs.length batch.length) x
  | Except.error msg => failWrite msg x

/-- Mark a whole sub-batch failed (the `catch` of step 9): every unit gets
`status = failed`, `attempt_count + 1` and the error text. -/
def failBatch (env : Env) (msg : String) (batch : List NeedItem)
    (st : EmbBatchState) (calls : List (List String)) : EmbBatchState :=
  { jobs := upsertJobs env (batch.map (failWrite msg)) st.jobs,
    embs := st.embs, embedCalls := calls, done := st.done,
    failed := st.failed + batch.length }

/-- One iteration of the per-batch loop of step 9: call the external
embedding capability on the whole batch; on success upsert the vectors and
mark the jobs done; a mismatched vector count or a service failure fails the
whole batch, and the loop continues. -/
def embBatchStep (env : Env) (st : EmbBatchState) (batch : List NeedItem) :
    EmbBatchState :=
  let inputs := batch.map (·.body)
  let calls := st.embedCalls ++ [inputs]
  match env.embedBatch inputs with
  | Except.ok vecs =>
    if vecs.length = batch.length then
      let embRows := (batch.zip vecs).map fun p =>
        { review_id := p.1.review_id, embedding := p.2,
          model := env.embeddingModel, content_hash := some p.1.hash,
          updated_at := env.now : ReviewEmbRow }
      { jobs := upsertJobs env (batch.map doneWrite) st.jobs,
        embs := embRows.foldl (fun acc r => upsertReviewEmb r acc) st.embs,
        embedCalls := calls, done := st.done + batch.length,
        failed := st.failed }
    else
      failBatch env (mismatchMsg vecs.length batch.length) batch st calls
  | Except.error msg => failBatch env msg batch st calls

/-- Lookup of a WorkItem by review id. -/
def jobOf (jobs : List JobRow) (id : String) : Option JobRow :=
  jobs.find? (fun j => j.review_id == id)

/-- Lookup of a review-embedding record by review id. -/
def reviewEmbOf (embs : List ReviewEmbRow) (id : String) : Option ReviewEmbRow :=
  embs.find? (fun m => m.review_id == id)

/-- Result of one embeddings run: the new store plus the route's counters
(`picked`, `done`, `skipped`, `failed`) and the log of external calls made. -/
structure EmbRunResult where
  db : Db
  picked : List JobRow
  embedCalls : List (List String)
  done : Nat
  skipped : Nat
  failed : Nat
  deriving Repr

/-- `POST /api/batch/embeddings/run` after authentication: select, lock,
classify, resolve skips and missing bodies, then process `need` in bounded
sub-batches. -/
def runEmbeddings (env : Env) (db : Db) : EmbRunResult :=
  let picked := selectJobs env db.embedding_jobs
  if picked.isEmpty then
    { db := db, picked := [], embedCalls := [], done := 0, skipped := 0,
      failed := 0 }
  else
    let ids := picked.map (·.review_id)
    let jobs1 := lockJobs env ids db.embedding_jobs
    let cls := classifyJobs env db.course_review_bodies
      db.course_review_embeddings picked
    let need := cls.1
    let toDoneSkip := cls.2.1
    let toFailMissingBody := cls.2.2
    let jobs2 := markSkippedDone env toDoneSkip jobs1
    let failWrites := toFailMissingBody.map fun x =>
      { review_id := x.review_id, status := JobStatus.failed,
        attempt_count := x.attempt_count + 1,
        last_error := some x.error : JobWrite }
    let jobs3 := upsertJobs env failWrites jobs2
    let st0 : EmbBatchState :=
      { jobs := jobs3, embs := db.course_review_embeddings, embedCalls := [],
        done := 0, failed := toFailMissingBody.length }
    let st := (chunkList EMBEDDING_BATCH_SIZE need).foldl (embBatchStep env) st0
    { db := { db with embedding_jobs := st.jobs,
                      course_review_embeddings := st.embs },
      picked := picked, embedCalls := st.embedCalls, done := st.done,
      skipped := toDoneSkip.length, failed := st.failed }

/-- The batch the run picks (`picked` in the route). -/
def pickedOf (env : Env) (db : Db) : List JobRow :=
  selectJobs env db.embedding_jobs

/-- The classification of the picked batch (`need`/`toDoneSkip`/
`toFailMissingBody` in the route). -/
def clsOf (env : Env) (db : Db) :
    List NeedItem × List String × List FailItem :=
  classifyJobs env db.course_review_bodies db.course_review_embeddings
    (pickedOf env db)

/-- The units the run must embed (`need`). -/
def needOf (env : Env) (db : Db) : List NeedItem := (clsOf env db).1

/-- The units whose stored hash already matches (`toDoneSkip`). -/
def skipOf (env : Env) (db : Db) : List String := (clsOf env db).2.1

/-- The units with no usable body (`toFailMissingBody`). -/
def failOf (env : Env) (db : Db) : List FailItem := (clsOf env db).2.2

/-- The `failed` job write of a unit with no usable body (step 8). -/
def failMissingWrite (f : FailItem) : JobWrite :=
  { review_id := f.review_id, status := JobStatus.failed,
    attempt_count := f.attempt_count + 1, last_error := some f.error }

/-- The state of the job/embedding tables after steps 3-8, before the
per-batch loop of step 9. -/
def embSt0 (env : Env) (db : Db) : EmbBatchState :=
  { jobs := upsertJobs env ((failOf env db).map (fun x =>
      { review_id := x.review_id, status := JobStatus.failed,
        attempt_count := x.attempt_count + 1, last_error := some x.error }))
      (markSkippedDone env (skipOf env db)
        (lockJobs env ((pickedOf env db).map (fun j : JobRow => j.review_id))
          db.embedding_jobs)),
    embs := db.course_review_embeddings, embedCalls := [], done := 0,
    failed := (failOf env db).length }

/-! ## The rollups run (`src/app/api/batch/rollups/run/route.ts`) -/

/-- `MAX_SUBJECTS_PER_RUN`. -/
def MAX_SUBJECTS_PER_RUN : Nat := 5

/-- `MAX_REVIEWS_PER_SUBJECT_FOR_STATS`. -/
def MAX_REVIEWS_PER_SUBJECT_FOR_STATS : Nat := 5000

/-- `MAX_NEW_REVIEWS_FOR_SUMMARY`. -/
def MAX_NEW_REVIEWS_FOR_SUMMARY : Nat := 30

/-- The `avg` helper of the rollups route: `null` on an empty list, else the
arithmetic mean. -/
def avgOf (values : List Int) : Option Rat :=
  if values.length = 0 then none
  else some (((values.foldl (fun a b => a + b) 0 : Int) : Rat) / (values.length : Rat))

/-- Step 2 of the rollups route: the dirty subjects, oldest `updated_at`
first, at most `MAX_SUBJECTS_PER_RUN`. -/
def selectDirtyRollups (db : Db) : List RollupRow :=
  (sortListBy (fun a b => decide (a.updated_at ≤ b.updated_at))
      (db.subject_rollups.filter (·.is_dirty))).take MAX_SUBJECTS_PER_RUN

/-- Step 3-A: a subject's reviews ordered by `created_at` ascending, capped at
`MAX_REVIEWS_PER_SUBJECT_FOR_STATS`. -/
def reviewsOf (db : Db) (sid : String) : List ReviewRow :=
  (sortListBy (fun a b => decide (a.created_at ≤ b.created_at))
      (db.course_reviews.filter (fun x => x.subject_id == sid))).take
    MAX_REVIEWS_PER_SUBJECT_FOR_STATS

/-- The subject's current rollup-embedding record
(`maybeSingle` on `subject_rollup_embeddings`). -/
def rollupEmbOf (db : Db) (sid : String) : Option RollupEmbeddingRow :=
  db.subject_rollup_embeddings.find? (fun m => m.subject_id == sid)

/-- The subject's rollup row. -/
def rollupOf (db : Db) (sid : String) : Option RollupRow :=
  db.subject_rollups.find? (fun x => x.subject_id == sid)

/-- Step 3-D of the rollups route: the review ids newer than the cursor
(all of them when there is no cursor or the cursor's review is gone). -/
def pendingIds (rows : List ReviewRow) (cursor : Option String) : List String :=
  match cursor with
  | some lastId =>
    match rows.findIdx? (fun x => x.id == lastId) with
    | some idx => (rows.drop (idx + 1)).map (·.id)
    | none => rows.map (·.id)
  | none => rows.map (·.id)

/-- The cap of step 3-D: `newIds.slice(-MAX_NEW_REVIEWS_FOR_SUMMARY)` keeps
the LAST (newest) `MAX_NEW_REVIEWS_FOR_SUMMARY` ids. -/
def cappedIds (ids : List String) : List String :=
  if ids.length > MAX_NEW_REVIEWS_FOR_SUMMARY then
    ids.drop (ids.length - MAX_NEW_REVIEWS_FOR_SUMMARY)
  else ids

/-- Step 3-E: resolve ids to bodies, drop missing or whitespace-only ones,
normalize the rest. -/
def newBodiesOf (bodies : List (String × String)) (ids : List String) :
    List String :=
  ((ids.filterMap (lookupBody bodies)).filter
      (fun x => decide ((jsTrim x).data.length > 0))).map normalizeBodyForSummary

/-- Step 3-F: the summary that will remain in the store: the external
summarization output (trimmed) when there are new bodies, the previous
(trimmed) summary otherwise; `Except.error` when the external call fails. -/
def finalSummaryOf (env : Env) (prevSummary : String) (newBodies : List String) :
    Except String String :=
  if newBodies.isEmpty then Except.ok prevSummary
  else (env.summarize prevSummary newBodies).map jsTrim

/-- The outcome of processing one dirty subject: the final state of its
rollup row, the rollup-embedding upsert it performed (if any), the route's
per-subject flags, and the external calls it made. -/
structure SubjectStep where
  newRollup : RollupRow
  embWrite : Option RollupEmbeddingRow
  ok : Bool
  keptDirty : Bool
  statsUpdated : Bool
  summaryUpdated : Bool
  rollupEmbeddingUpdated : Bool
  summaryCalls : List (String × List String)
  summaryEmbedCalls : List String
  deriving Repr

/-- The rollup row written by step 3-B (dirty subject with zero reviews). -/
def zeroedRollup (env : Env) (r : RollupRow) : RollupRow :=
  { r with
    review_count := 0,
    avg_credit_ease := none, avg_class_difficulty := none,
    avg_assignment_load := none, avg_attendance_strictness := none,
    avg_satisfaction := none, avg_recommendation := none,
    summary_1000 := "", last_processed_review_id := none,
    is_dirty := false, updated_at := env.now }

/-- The rollup row after step 3-C's stats update. -/
def statsRow (env : Env) (rows : List ReviewRow) (r : RollupRow) : RollupRow :=
  { r with
    review_count := rows.length,
    avg_credit_ease := avgOf (rows.map (fun x : ReviewRow => x.credit_ease)),
    avg_class_difficulty :=
      avgOf (rows.map (fun x : ReviewRow => x.class_difficulty)),
    avg_assignment_load :=
      avgOf (rows.map (fun x : ReviewRow => x.assignment_load)),
    avg_attendance_strictness :=
      avgOf (rows.map (fun x : ReviewRow => x.attendance_strictness)),
    avg_satisfaction := avgOf (rows.map (fun x : ReviewRow => x.satisfaction)),
    avg_recommendation :=
      avgOf (rows.map (fun x : ReviewRow => x.recommendation)),
    updated_at := env.now }

/-- Steps 3-A through 3-G of the rollups route for one dirty subject, given
the projections of the store the subject reads: its reviews (`rows`), the
bodies table, its current rollup-embedding record, and its rollup row `r` as
read at selection time. Each store write of the source updates the
corresponding fields of the row; a failed external call takes the `catch`
path, which re-sets `is_dirty` (the writes already performed remain). -/
def processSubjectCore (env : Env) (rows : List ReviewRow)
    (bodies : List (String × String)) (embRow : Option RollupEmbeddingRow)
    (r : RollupRow) : SubjectStep :=
  match rows.getLast? with
  | none =>
    -- 3-B: dirty but no reviews: zero the rollup, clear dirty, no embedding.
    { newRollup := zeroedRollup env r,
      embWrite := none, ok := true, keptDirty := false,
      statsUpdated := true, summaryUpdated := true,
      rollupEmbeddingUpdated := false, summaryCalls := [],
      summaryEmbedCalls := [] }
  | some lastRow =>
    -- 3-C: stats update.
    let r1 := statsRow env rows r
    -- 3-D / 3-E.
    let newIds := cappedIds (pendingIds rows r.last_processed_review_id)
    let newBodies := newBodiesOf bodies newIds
    let prevSummary := jsTrim r.summary_1000
    let latestId := lastRow.id
    let sCalls : List (String × List String) :=
      if newBodies.isEmpty then [] else [(prevSummary, newBodies)]
    -- 3-F.
    match finalSummaryOf env prevSummary newBodies with
    | Except.error _ =>
      { newRollup := { r1 with is_dirty := true, updated_at := env.now },
        embWrite := none, ok := false, keptDirty := true,
        statsUpdated := true, summaryUpdated := false,
        rollupEmbeddingUpdated := false, summaryCalls := sCalls,
        summaryEmbedCalls := [] }
    | Except.ok finalSummary =>
      let r2 :=
        if newBodies.isEmpty then
          { r1 with
            last_processed_review_id := some latestId,
            is_dirty := false, updated_at := env.now }
        else
          { r1 with
            summary_1000 := finalSummary,
            last_processed_review_id := some latestId,
            is_dirty := false, updated_at := env.now }
      -- 3-G: incremental rollup-summary embedding.
      let normalizedSummary := normalizeSummaryForEmbedding finalSummary
      let summaryHash := env.sha256Hex normalizedSummary
      let needsEmbedding :=
        match embRow with
        | none => true
        | some c => c.content_hash != summaryHash
      if needsEmbedding then
        if normalizedSummary.data.length = 0 then
          { newRollup := r2,
            embWrite := some {
              subject_id := r.subject_id, embedding := none,
              model := env.rollupEmbeddingModel, content_hash := summaryHash },
            ok := true, keptDirty := false, statsUpdated := true,
            summaryUpdated := !newBodies.isEmpty,
            rollupEmbeddingUpdated := true, summaryCalls := sCalls,
            summaryEmbedCalls := [] }
        else
          match env.embedSummary normalizedSummary with
          | Except.ok vec =>
            { newRollup := r2,
              embWrite := some {
                subject_id := r.subject_id,
                embedding := some vec, model := env.rollupEmbeddingModel,
                content_hash := summaryHash },
              ok := true, keptDirty := false, statsUpdated := true,
              summaryUpdated := !newBodies.isEmpty,
              rollupEmbeddingUpdated := true, summaryCalls := sCalls,
              summaryEmbedCalls := [normalizedSummary] }
          | Except.error _ =>
            { newRollup := { r2 with is_dirty := true, updated_at := env.now },
              embWrite := none, ok := false, keptDirty := true,
              statsUpdated := true, summaryUpdated := !newBodies.isEmpty,
              rollupEmbeddingUpdated := false, summaryCalls := sCalls,
              summaryEmbedCalls := [normalizedSummary] }
      else
        { newRollup := r2, embWrite := none, ok := true, keptDirty := false,
          statsUpdated := true, summaryUpdated := !newBodies.isEmpty,
          rollupEmbeddingUpdated := false, summaryCalls := sCalls,
          summaryEmbedCalls := [] }

/-- Processing of one dirty subject against the current store. -/
def processSubject (env : Env) (db : Db) (r : RollupRow) : SubjectStep :=
  processSubjectCore env (reviewsOf db r.subject_id) db.course_review_bodies
    (rollupEmbOf db r.subject_id) r

/-- `upsert(..., { onConflict: 'subject_id' })` for `subject_rollup_embeddings`. -/
def upsertRollupEmb (row : RollupEmbeddingRow) (l : List RollupEmbeddingRow) :
    List RollupEmbeddingRow :=
  if l.any (fun m => m.subject_id == row.subject_id) then
    l.map fun m => if m.subject_id == row.subject_id then row else m
  else l ++ [row]

/-- Commit one subject's outcome to the store: the subject's rollup row takes
its final state and the rollup-embedding upsert (if any) is applied. -/
def applySubjectStep (db : Db) (sid : String) (st : SubjectStep) : Db :=
  { db with
    subject_rollups := db.subject_rollups.map
      (fun x => if x.subject_id == sid then st.newRollup else x),
    subject_rollup_embeddings :=
      match st.embWrite with
      | none => db.subject_rollup_embeddings
      | some row => upsertRollupEmb row db.subject_rollup_embeddings }

/-- State threaded through the per-subject loop of the rollups run: the store
plus the route's counters and the log of external calls. -/
structure RollRunState where
  db : Db
  summaryCalls : List (String × List String)
  summaryEmbedCalls : List String
  statsUpdated : Nat
  summariesUpdated : Nat
  rollupEmbeddingsUpdated : Nat
  keptDirty : Nat
  deriving Repr

/-- One iteration of the per-subject loop. -/
def rollSubjectFold (env : Env) (st : RollRunState) (r : RollupRow) :
    RollRunState :=
  let step := processSubject env st.db r
  { db := applySubjectStep st.db r.subject_id step,
    summaryCalls := st.summaryCalls ++ step.summaryCalls,
    summaryEmbedCalls := st.summaryEmbedCalls ++ step.summaryEmbedCalls,
    statsUpdated := st.statsUpdated + (if step.statsUpdated then 1 else 0),
    summariesUpdated :=
      st.summariesUpdated + (if step.summaryUpdated then 1 else 0),
    rollupEmbeddingsUpdated :=
      st.rollupEmbeddingsUpdated + (if step.rollupEmbeddingUpdated then 1 else 0),
    keptDirty := st.keptDirty + (if step.keptDirty then 1 else 0) }

/-- `POST /api/batch/rollups/run` after authentication: pick the dirty
subjects oldest-first and process each in turn. -/
def runRollups (env : Env) (db : Db) : RollRunState :=
  (selectDirtyRollups db).foldl (rollSubjectFold env)
    { db := db, summaryCalls := [], summaryEmbedCalls := [],
      statsUpdated := 0, summariesUpdated := 0, rollupEmbeddingsUpdated := 0,
      keptDirty := 0 }

/-- Result of one full pipeline pass (embeddings run, then rollups run). -/
structure PipelineResult where
  db : Db
  embedCalls : List (List String)
  summaryCalls : List (String × List String)
  summaryEmbedCalls : List String
  deriving Repr

/-- One full pipeline pass: the review-embedding run followed by the rollup
run, with every external call logged. -/
def runPipeline (env : Env) (db : Db) : PipelineResult :=
  let e := runEmbeddings env db
  let r := runRollups env e.db
  { db := r.db, embedCalls := e.embedCalls, summaryCalls := r.summaryCalls,
    summaryEmbedCalls := r.summaryEmbedCalls }

/-! ## The review write path (`src/unnamed/part_001`, `POST /api/course-reviews`)

The incoming JSON is unvalidated, so every text field of the payload is an
`Option` (absent / `undefined`), and the numeric fields are plain integers.
The fallible store statements that the route compensates for get explicit
failure switches in `WriteEnv`; the `getOrCreate` helpers' unique-conflict
retry branch (code 23505) only arises under concurrent requests and is
unreachable in this single-request model. -/

/-- The request payload of the write path. -/
structure Payload where
  line_user_id : Option String
  university_name : Option String
  faculty : Option String
  department : Option String
  grade_at_take : Int
  subject_name : Option String
  teacher_names : Option (List (Option String))
  academic_year : Int
  term : String
  credits_at_take : Option Int
  requirement_type_at_take : String
  performance_self : Int
  assignment_difficulty_4 : Int
  credit_ease : Int
  class_difficulty : Int
  assignment_load : Int
  attendance_strictness : Int
  satisfaction : Int
  recommendation : Int
  body_main : Option String
  deriving Repr

/-- Environment of one write-path request: the HMAC user-hash oracle, the
clock, the fresh identifiers the store would mint, and a failure switch for
each fallible statement the route compensates for. -/
structure WriteEnv where
  lineUserIdToHash : String → String
  now : Int
  freshUserId : String
  freshUniversityId : String
  freshSubjectId : String
  freshReviewId : String
  affiliationUpsertFails : Bool
  reviewInsertFails : Bool
  bodyInsertFails : Bool
  jobUpsertFails : Bool
  rollupUpsertFails : Bool

/-- The response of the write path: `ok` with the review id, or an error
with the HTTP status and message. -/
inductive WriteResp where
  | ok (review_id : String)
  | err (status : Nat) (msg : String)
  deriving DecidableEq, Repr

/-- `getOrCreateUserId`: look up by hashed LINE user id, insert when absent. -/
def getOrCreateUserId (env : WriteEnv) (db : Db) (lineUserId : String) :
    String × Db :=
  let hash := env.lineUserIdToHash lineUserId
  match db.users.find? (fun u => u.line_user_hash == hash) with
  | some u => (u.id, db)
  | none =>
    (env.freshUserId,
     { db with users := db.users ++ [{ id := env.freshUserId,
                                       line_user_hash := hash }] })

/-- `getOrCreateUniversityId`: look up by name, insert when absent. -/
def getOrCreateUniversityId (env : WriteEnv) (db : Db) (name : String) :
    String × Db :=
  match db.universities.find? (fun u => u.name == name) with
  | some u => (u.id, db)
  | none =>
    (env.freshUniversityId,
     { db with universities :=
        db.universities ++ [{ id := env.freshUniversityId, name := name }] })

/-- `getOrCreateSubjectId`: look up by (university, name), insert when absent. -/
def getOrCreateSubjectId (env : WriteEnv) (db : Db) (universityId : String)
    (subjectName : String) : String × Db :=
  match db.subjects.find?
      (fun s => s.university_id == universityId && s.name == subjectName) with
  | some s => (s.id, db)
  | none =>
    (env.freshSubjectId,
     { db with subjects := db.subjects ++
        [{ id := env.freshSubjectId, university_id := universityId,
           name := subjectName }] })

/-- The compensating deletion of the review row
(`from('course_reviews').delete().eq('id', reviewId)`). -/
def deleteReview (db : Db) (reviewId : String) : Db :=
  { db with course_reviews :=
      db.course_reviews.filter (fun x => x.id != reviewId) }

/-- The `course_reviews` row step 5 inserts (`created_at` is the store's
insertion clock). -/
def insertedReviewRow (env : WriteEnv) (p : Payload) (userId subjectId : String)
    (faculty : String) (department : Option String)
    (teacherNames : List String) : ReviewRow :=
  { id := env.freshReviewId, subject_id := subjectId, user_id := userId,
    created_at := env.now, faculty := faculty, department := department,
    grade_at_take := p.grade_at_take,
    teacher_names := if teacherNames.length > 0 then some teacherNames else none,
    academic_year := p.academic_year, term := p.term,
    credits_at_take := p.credits_at_take,
    requirement_type_at_take := p.requirement_type_at_take,
    performance_self := p.performance_self,
    assignment_difficulty_4 := p.assignment_difficulty_4,
    credit_ease := p.credit_ease, class_difficulty := p.class_difficulty,
    assignment_load := p.assignment_load,
    attendance_strictness := p.attendance_strictness,
    satisfaction := p.satisfaction, recommendation := p.recommendation }

/-- Step 8's `subject_rollups` upsert `{ subject_id, is_dirty: true }`:
on conflict only `is_dirty` is updated; on insert the other columns take
their store defaults. -/
def upsertRollupDirty (env : WriteEnv) (db : Db) (subjectId : String) : Db :=
  if db.subject_rollups.any (fun x => x.subject_id == subjectId) then
    { db with subject_rollups :=
        db.subject_rollups.map fun x =>
          if x.subject_id == subjectId then { x with is_dirty := true } else x }
  else
    { db with subject_rollups := db.subject_rollups ++
        [{ subject_id := subjectId, review_count := 0,
           avg_credit_ease := none, avg_class_difficulty := none,
           avg_assignment_load := none, avg_attendance_strictness := none,
           avg_satisfaction := none, avg_recommendation := none,
           summary_1000 := "", last_processed_review_id := none,
           is_dirty := true, updated_at := env.now }] }

/-- Step 3's `user_affiliations` upsert (`onConflict: 'user_id'`). -/
def upsertAffiliation (db : Db) (userId universityId fac : String)
    (department : Option String) : Db :=
  if db.user_affiliations.any (fun a => a.user_id == userId) then
    { db with user_affiliations :=
        db.user_affiliations.map fun a =>
          if a.user_id == userId then
            { a with university_id := universityId, faculty := fac,
                     department := department }
          else a }
  else
    { db with user_affiliations := db.user_affiliations ++
        [{ user_id := userId, university_id := universityId, faculty := fac,
           department := department }] }

/-- Step 7's `embedding_jobs` upsert of a fresh `queued` WorkItem
(`onConflict: 'review_id'`). -/
def upsertQueuedJob (env : WriteEnv) (db : Db) : Db :=
  let jobRow : JobRow :=
    { review_id := env.freshReviewId, status := JobStatus.queued,
      attempt_count := 0, locked_at := none, locked_by := none,
      updated_at := env.now, last_error := none }
  if db.embedding_jobs.any (fun j => j.review_id == env.freshReviewId) then
    { db with embedding_jobs :=
        db.embedding_jobs.map fun j =>
          if j.review_id == env.freshReviewId then jobRow else j }
  else { db with embedding_jobs := db.embedding_jobs ++ [jobRow] }

/-- Steps 2-8 of the write path, after validation has passed: resolve
user/university/subject, insert the review and its body, queue the embedding
WorkItem and flag the subject dirty — compensating with a review delete when
a later step fails. -/
def createReviewCascade (env : WriteEnv) (db : Db) (p : Payload)
    (lid uname fac sname : String) (department : Option String)
    (teacherNames : List String) (c : String) : WriteResp × Db :=
  -- 2) user and university.
  let u := getOrCreateUserId env db lid
  let v := getOrCreateUniversityId env u.2 uname
  let userId := u.1
  let universityId := v.1
  -- 3) latest affiliation upsert.
  if env.affiliationUpsertFails then
    (WriteResp.err 500 "failed to upsert user_affiliations", v.2)
  else
    let db3 := upsertAffiliation v.2 userId universityId fac department
    -- 4) subject.
    let s := getOrCreateSubjectId env db3 universityId sname
    let subjectId := s.1
    -- 5) course_reviews insert.
    if env.reviewInsertFails then
      (WriteResp.err 400 "failed to insert course_reviews", s.2)
    else
      let row := insertedReviewRow env p userId subjectId fac department
        teacherNames
      let db5 := { s.2 with course_reviews := s.2.course_reviews ++ [row] }
      -- 6) course_review_bodies insert (compensate on failure).
      if env.bodyInsertFails then
        (WriteResp.err 400 "failed to insert course_review_bodies",
         deleteReview db5 env.freshReviewId)
      else
        let db6 := { db5 with course_review_bodies :=
          db5.course_review_bodies ++ [(env.freshReviewId, c)] }
        -- 7) embedding_jobs upsert (compensate on failure).
        if env.jobUpsertFails then
          (WriteResp.err 500 "failed to upsert embedding_jobs",
           deleteReview db6 env.freshReviewId)
        else
          let db7 := upsertQueuedJob env db6
          -- 8) subject_rollups dirty upsert (compensate on failure).
          if env.rollupUpsertFails then
            (WriteResp.err 500 "failed to upsert subject_rollups",
             deleteReview db7 env.freshReviewId)
          else
            (WriteResp.ok env.freshReviewId,
             upsertRollupDirty env db7 subjectId)

/-- `POST /api/course-reviews` on an already-parsed payload: trim the text
fields, run step 1's validation (before any store access), then perform the
store cascade. -/
def postCourseReview (env : WriteEnv) (db : Db) (p : Payload) :
    WriteResp × Db :=
  let universityName := p.university_name.map jsTrim
  let faculty := p.faculty.map jsTrim
  let department :=
    match p.department.map jsTrim with
    | some d => if d = "" then none else some d
    | none => none
  let subjectName := p.subject_name.map jsTrim
  let teacherNames :=
    ((p.teacher_names.getD []).map (fun s => jsTrim (s.getD ""))).filter
      (fun s => s != "")
  let comment := p.body_main.map jsTrim
  -- 1) minimal input validation, before any store access.
  if (match p.line_user_id with | none => true | some s => s = "") then
    (WriteResp.err 400 "line_user_id is required", db)
  else if (match universityName with | none => true | some s => s = "") ||
      (match faculty with | none => true | some s => s = "") ||
      (match subjectName with | none => true | some s => s = "") then
    (WriteResp.err 400 "missing required text", db)
  else
    match comment with
    | none => (WriteResp.err 400 "comment must be >= 30 chars", db)
    | some c =>
      if c.data.length < 30 then
        (WriteResp.err 400 "comment must be >= 30 chars", db)
      else
        createReviewCascade env db p (p.line_user_id.getD "")
          (universityName.getD "") (faculty.getD "") (subjectName.getD "")
          department teacherNames c

/-! ## Concrete fixtures used by witnesses and counterexamples -/

/-- A concrete environment with well-behaved external services. -/
def cEnv : Env :=
  { now := 10 * LOCK_STALE_MS, runner := "runner-1",
    embeddingModel := "text-embedding-3-small",
    rollupEmbeddingModel := "text-embedding-3-small",
    sha256Hex := fun s => String.append "#" s,
    embedBatch := fun l => Except.ok (l.map fun s => [(s.data.length : Int)]),
    summarize := fun p bs => Except.ok (String.intercalate "|" (p :: bs)),
    embedSummary := fun s => Except.ok [(s.data.length : Int)] }

/-- The empty store. -/
def emptyDb : Db :=
  { users := [], universities := [], subjects := [], user_affiliations := [],
    course_reviews := [], course_review_bodies := [], embedding_jobs := [],
    course_review_embeddings := [], subject_rollups := [],
    subject_rollup_embeddings := [] }

/-- A review row of subject `S` with id `r<i>` created at time `i`. -/
def mkReview (i : Nat) : ReviewRow :=
  { id := String.append "r" (toString i), subject_id := "S", user_id := "u1",
    created_at := (i : Int), faculty := "f", department := none,
    grade_at_take := 2, teacher_names := none, academic_year := 2024,
    term := "s1", credits_at_take := none,
    requirement_type_at_take := "unknown", performance_self := 2,
    assignment_difficulty_4 := 2, credit_ease := 3, class_difficulty := 3,
    assignment_load := 3, attendance_strictness := 3, satisfaction := 3,
    recommendation := 3 }

/-- A dirty rollup row of subject `S` with no cursor and empty summary. -/
def dirtyRollupS : RollupRow :=
  { subject_id := "S", review_count := 0, avg_credit_ease := none,
    avg_class_difficulty := none, avg_assignment_load := none,
    avg_attendance_strictness := none, avg_satisfaction := none,
    avg_recommendation := none, summary_1000 := "",
    last_processed_review_id := none, is_dirty := true, updated_at := 0 }

/-- A job stuck in `processing` whose lock is far older than the staleness
threshold. -/
def staleProcessingJob : JobRow :=
  { review_id := "r1", status := JobStatus.processing, attempt_count := 1,
    locked_at := some 0, locked_by := some "crashed-runner", updated_at := 0,
    last_error := none }

/-- A payload whose body is present but far shorter than 30 characters. -/
def shortPayload : Payload :=
  { line_user_id := some "L1", university_name := some "Uni",
    faculty := some "F", department := none, grade_at_take := 2,
    subject_name := some "Course", teacher_names := none,
    academic_year := 2024, term := "s1", credits_at_take := none,
    requirement_type_at_take := "elective", performance_self := 2,
    assignment_difficulty_4 := 2, credit_ease := 3, class_difficulty := 3,
    assignment_load := 3, attendance_strictness := 3, satisfaction := 3,
    recommendation := 3, body_main := some "  too short  " }

/-- A write-path environment in which every store statement succeeds. -/
def cWEnv : WriteEnv :=
  { lineUserIdToHash := fun s => String.append "hmac:" s, now := 5,
    freshUserId := "U1", freshUniversityId := "V1", freshSubjectId := "S1",
    freshReviewId := "R1", affiliationUpsertFails := false,
    reviewInsertFails := false, bodyInsertFails := false,
    jobUpsertFails := false, rollupUpsertFails := false }

/-- A fresh `queued` job for review `id`. -/
def mkQueuedJob (id : String) : JobRow :=
  { review_id := id, status := JobStatus.queued, attempt_count := 0,
    locked_at := none, locked_by := none, updated_at := 0,
    last_error := none }

/-- `cEnv` with an embedding service that always fails. -/
def cEnvFail : Env :=
  { cEnv with embedBatch := fun _ => Except.error "boom" }

/-- A store with one review, its body, and one queued embedding job. -/
def c6Db : Db :=
  { emptyDb with
    course_reviews := [mkReview 1],
    course_review_bodies := [("r1", "good body")],
    embedding_jobs := [mkQueuedJob "r1"] }

/-- The single `need` unit the run classifies out of `c6Db`. -/
def c6Need : NeedItem :=
  { review_id := "r1", body := "good body",
    hash := cEnv.sha256Hex "good body", attempt_count := 0 }

/-- A store with one review (body present), one queued job, and one dirty
rollup: one pipeline pass converges it. -/
def c3Db : Db :=
  { emptyDb with
    course_reviews := [mkReview 1],
    course_review_bodies := [("r1", "good body")],
    embedding_jobs := [mkQueuedJob "r1"],
    subject_rollups := [dirtyRollupS] }

/-- A payload like `shortPayload` but with a comment of ≥ 30 characters. -/
def okPayload : Payload :=
  { shortPayload with
    body_main := some "This course was great and I learned a lot from it." }

/-- A store holding only the dirty rollup of subject `S` and no reviews. -/
def c5Db : Db := { emptyDb with subject_rollups := [dirtyRollupS] }

/-- A store where subject `S` is dirty with two reviews whose bodies are
whitespace-only (`r1`) and missing (`r2`). -/
def c4Db : Db :=
  { emptyDb with
    course_reviews := [mkReview 1, mkReview 2],
    course_review_bodies := [("r1", "   ")],
    subject_rollups := [dirtyRollupS] }

/-- A store where subject `S` is dirty with 31 reviews `r1..r31` (all with
usable bodies `b1..b31`) and no cursor: 31 pending reviews against the cap
of 30. -/
def c1Db : Db :=
  { emptyDb with
    course_reviews := (List.range 31).map (fun i => mkReview (i + 1)),
    course_review_bodies := (List.range 31).map
      (fun i => (String.append "r" (toString (i + 1)),
                 String.append "b" (toString (i + 1)))),
    subject_rollups := [dirtyRollupS] }

/-- The summary text the concrete environment produces on `c1Db`. -/
def c1Out : String :=
  String.intercalate "|" ("" ::
    newBodiesOf c1Db.course_review_bodies
      (cappedIds (pendingIds (reviewsOf c1Db dirtyRollupS.subject_id)
        dirtyRollupS.last_processed_review_id)))

/-! ## Supporting lemmas: sorting, selection, keyed lookups -/

theorem insertLe_perm (le : α → α → Bool) (a : α) (l : List α) :
    List.Perm (insertLe le a l) (a :: l) := by
  induction l with
  | nil => exact List.Perm.refl _
  | cons b bs ih =>
    by_cases h : le a b
    · rw [insertLe, if_pos h]
    · rw [insertLe, if_neg h]
      exact (ih.cons b).trans (List.Perm.swap a b bs)

theorem sortListBy_perm (le : α → α → Bool) (l : List α) :
    List.Perm (sortListBy le l) l := by
  induction l with
  | nil => exact List.Perm.refl _
  | cons a as ih => exact (insertLe_perm le a _).trans (ih.cons a)

theorem selectDirty_mem {db : Db} {r : RollupRow}
    (h : r ∈ selectDirtyRollups db) :
    r ∈ db.subject_rollups ∧ r.is_dirty = true := by
  unfold selectDirtyRollups at h
  have h1 := List.mem_of_mem_take h
  have h2 := (sortListBy_perm _ _).mem_iff.mp h1
  have h3 := List.mem_filter.mp h2
  exact ⟨h3.1, h3.2⟩

theorem selectDirty_sids_nodup {db : Db}
    (h : (db.subject_rollups.map (fun x : RollupRow => x.subject_id)).Nodup) :
    ((selectDirtyRollups db).map (fun x : RollupRow => x.subject_id)).Nodup := by
  unfold selectDirtyRollups
  have hf : List.Sublist (db.subject_rollups.filter (·.is_dirty))
      db.subject_rollups := List.filter_sublist _
  have h1 := h.sublist (hf.map (fun x : RollupRow => x.subject_id))
  have h2 := (((sortListBy_perm
    (fun a b : RollupRow => decide (a.updated_at ≤ b.updated_at))
    (db.subject_rollups.filter (·.is_dirty))).map
      (fun x : RollupRow => x.subject_id)).nodup_iff).mpr h1
  exact h2.sublist
    ((List.take_sublist _ _).map (fun x : RollupRow => x.subject_id))

theorem find?_map_keyed {α : Type} (key : α → String) (f : α → α)
    (hf : ∀ x, key (f x) = key x) (k : String) :
    ∀ l : List α, (l.map f).find? (fun x => key x == k) =
      (l.find? (fun x => key x == k)).map f
  | [] => rfl
  | a :: t => by
    simp only [List.map_cons, List.find?]
    rw [hf a]
    cases h : (key a == k) with
    | true => rfl
    | false => exact find?_map_keyed key f hf k t

theorem find?_append_of_none {p : α → Bool} {l₁ l₂ : List α}
    (h : l₁.find? p = none) : (l₁ ++ l₂).find? p = l₂.find? p := by
  induction l₁ with
  | nil => rfl
  | cons a t ih =>
    simp only [List.find?] at h
    cases ha : p a with
    | true => rw [ha] at h; exact absurd h (by simp)
    | false =>
      rw [ha] at h
      rw [List.cons_append]
      simp only [List.find?, ha]
      exact ih h

theorem find?_append_of_some {p : α → Bool} {l₁ : List α} (l₂ : List α)
    {m : α} (h : l₁.find? p = some m) : (l₁ ++ l₂).find? p = some m := by
  induction l₁ with
  | nil => exact absurd h (by simp)
  | cons a t ih =>
    simp only [List.find?] at h
    rw [List.cons_append]
    simp only [List.find?]
    cases ha : p a with
    | true => rw [ha] at h; exact h
    | false => rw [ha] at h; exact ih h

theorem upsertRollupEmb_find_self (row : RollupEmbeddingRow)
    (l : List RollupEmbeddingRow) :
    (upsertRollupEmb row l).find? (fun m => m.subject_id == row.subject_id) =
      some row := by
  unfold upsertRollupEmb
  by_cases h : l.any (fun m => m.subject_id == row.subject_id) = true
  · rw [if_pos h]
    have hkey : ∀ m : RollupEmbeddingRow,
        (if m.subject_id == row.subject_id then row else m).subject_id =
          m.subject_id := by
      intro m
      by_cases hm : (m.subject_id == row.subject_id) = true
      · rw [if_pos hm]; exact (beq_iff_eq.mp hm).symm
      · rw [if_neg hm]
    rw [find?_map_keyed (fun m : RollupEmbeddingRow => m.subject_id) _ hkey]
    obtain ⟨x, hx, hpx⟩ := List.any_eq_true.mp h
    cases hf : l.find? (fun m => m.subject_id == row.subject_id) with
    | none =>
      rw [List.find?_eq_none] at hf
      exact absurd hpx (by simpa using hf x hx)
    | some m0 =>
      have hp := List.find?_some
        (p := fun m : RollupEmbeddingRow => m.subject_id == row.subject_id) hf
      simp only [Option.map_some']
      rw [if_pos (show (m0.subject_id == row.subject_id) = true from hp)]
  · rw [if_neg h]
    have hnone : l.find? (fun m => m.subject_id == row.subject_id) = none := by
      rw [List.find?_eq_none]
      intro x hx hpx
      exact h (List.any_eq_true.mpr ⟨x, hx, hpx⟩)
    rw [find?_append_of_none hnone]
    simp [List.find?]

theorem upsertRollupEmb_find_ne (row : RollupEmbeddingRow)
    (l : List RollupEmbeddingRow) (sid' : String)
    (h : sid' ≠ row.subject_id) :
    (upsertRollupEmb row l).find? (fun m => m.subject_id == sid') =
      l.find? (fun m => m.subject_id == sid') := by
  unfold upsertRollupEmb
  by_cases h2 : l.any (fun m => m.subject_id == row.subject_id) = true
  · rw [if_pos h2]
    have hkey : ∀ m : RollupEmbeddingRow,
        (if m.subject_id == row.subject_id then row else m).subject_id =
          m.subject_id := by
      intro m
      by_cases hm : (m.subject_id == row.subject_id) = true
      · rw [if_pos hm]; exact (beq_iff_eq.mp hm).symm
      · rw [if_neg hm]
    rw [find?_map_keyed (fun m : RollupEmbeddingRow => m.subject_id) _ hkey]
    cases hf : l.find? (fun m => m.subject_id == sid') with
    | none => rfl
    | some m0 =>
      have hp := List.find?_some
        (p := fun m : RollupEmbeddingRow => m.subject_id == sid') hf
      have hm0 := beq_iff_eq.mp hp
      simp only [Option.map_some']
      rw [if_neg]
      rw [hm0]
      simp only [beq_iff_eq]
      exact h
  · rw [if_neg h2]
    cases hf : l.find? (fun m => m.subject_id == sid') with
    | none =>
      rw [find?_append_of_none hf]
      simp only [List.find?]
      have : (row.subject_id == sid') = false := by
        rw [beq_eq_false_iff_ne]
        exact fun hc => h hc.symm
      rw [this]
    | some m0 => exact find?_append_of_some _ hf

theorem applySubjectStep_reviews (db : Db) (sid : String) (st : SubjectStep) :
    (applySubjectStep db sid st).course_reviews = db.course_reviews := rfl

theorem applySubjectStep_bodies (db : Db) (sid : String) (st : SubjectStep) :
    (applySubjectStep db sid st).course_review_bodies =
      db.course_review_bodies := rfl

theorem applySubjectStep_rollupOf_ne (db : Db) (sid : String)
    (st : SubjectStep) (sid' : String) (hst : st.newRollup.subject_id = sid)
    (h : sid' ≠ sid) :
    rollupOf (applySubjectStep db sid st) sid' = rollupOf db sid' := by
  unfold applySubjectStep rollupOf
  have hkey : ∀ x : RollupRow,
      (if x.subject_id == sid then st.newRollup else x).subject_id =
        x.subject_id := by
    intro x
    by_cases hx : (x.subject_id == sid) = true
    · rw [if_pos hx, hst]; exact (beq_iff_eq.mp hx).symm
    · rw [if_neg hx]
  rw [find?_map_keyed (fun x : RollupRow => x.subject_id) _ hkey]
  cases hf : db.subject_rollups.find? (fun x => x.subject_id == sid') with
  | none => rfl
  | some x0 =>
    have hp := List.find?_some
      (p := fun x : RollupRow => x.subject_id == sid') hf
    have hx0 := beq_iff_eq.mp hp
    simp only [Option.map_some']
    rw [if_neg]
    rw [hx0]
    simp only [beq_iff_eq]
    exact h

theorem applySubjectStep_rollupOf_eq (db : Db) (sid : String)
    (st : SubjectStep) (hst : st.newRollup.subject_id = sid)
    (hp : ∃ x ∈ db.subject_rollups, x.subject_id = sid) :
    rollupOf (applySubjectStep db sid st) sid = some st.newRollup := by
  unfold applySubjectStep rollupOf
  have hkey : ∀ x : RollupRow,
      (if x.subject_id == sid then st.newRollup else x).subject_id =
        x.subject_id := by
    intro x
    by_cases hx : (x.subject_id == sid) = true
    · rw [if_pos hx, hst]; exact (beq_iff_eq.mp hx).symm
    · rw [if_neg hx]
  rw [find?_map_keyed (fun x : RollupRow => x.subject_id) _ hkey]
  obtain ⟨x, hx, hpx⟩ := hp
  cases hf : db.subject_rollups.find? (fun x => x.subject_id == sid) with
  | none =>
    rw [List.find?_eq_none] at hf
    exact absurd hpx (by simpa using hf x hx)
  | some m0 =>
    have hps := List.find?_some
      (p := fun x : RollupRow => x.subject_id == sid) hf
    simp only [Option.map_some']
    rw [if_pos hps]

theorem applySubjectStep_embOf_ne (db : Db) (sid : String) (st : SubjectStep)
    (sid' : String)
    (hw : ∀ w, st.embWrite = some w → w.subject_id = sid)
    (h : sid' ≠ sid) :
    rollupEmbOf (applySubjectStep db sid st) sid' = rollupEmbOf db sid' := by
  unfold applySubjectStep rollupEmbOf
  cases hew : st.embWrite with
  | none => rfl
  | some w =>
    have hws := hw w hew
    exact upsertRollupEmb_find_ne w _ sid' (by rw [hws]; exact h)

theorem applySubjectStep_embOf_self (db : Db) (sid : String)
    (st : SubjectStep) (w : RollupEmbeddingRow) (hew : st.embWrite = some w)
    (hws : w.subject_id = sid) :
    rollupEmbOf (applySubjectStep db sid st) sid = some w := by
  unfold applySubjectStep rollupEmbOf
  rw [hew]
  rw [← hws]
  exact upsertRollupEmb_find_self w _

theorem applySubjectStep_pres (db : Db) (sid : String) (st : SubjectStep)
    (sid' : String) (hst : st.newRollup.subject_id = sid)
    (hp : ∃ x ∈ db.subject_rollups, x.subject_id = sid') :
    ∃ x ∈ (applySubjectStep db sid st).subject_rollups, x.subject_id = sid' := by
  obtain ⟨x, hx, hpx⟩ := hp
  refine ⟨if x.subject_id == sid then st.newRollup else x,
    List.mem_map_of_mem _ hx, ?_⟩
  by_cases hxs : (x.subject_id == sid) = true
  · rw [if_pos hxs, hst]
    rw [← beq_iff_eq.mp hxs]
    exact hpx
  · rw [if_neg hxs]
    exact hpx

theorem processSubjectCore_sid (env : Env) (rows : List ReviewRow)
    (bodies : List (String × String)) (embRow : Option RollupEmbeddingRow)
    (r : RollupRow) :
    (processSubjectCore env rows bodies embRow r).newRollup.subject_id =
        r.subject_id ∧
    (∀ w, (processSubjectCore env rows bodies embRow r).embWrite = some w →
        w.subject_id = r.subject_id) := by
  unfold processSubjectCore
  cases hl : rows.getLast? with
  | none => exact ⟨rfl, fun w hw => Option.noConfusion hw⟩
  | some lastRow =>
    dsimp only []
    cases hfs : finalSummaryOf env (jsTrim r.summary_1000)
        (newBodiesOf bodies
          (cappedIds (pendingIds rows r.last_processed_review_id))) with
    | error e => exact ⟨rfl, fun w hw => Option.noConfusion hw⟩
    | ok finalSummary =>
      dsimp only []
      repeat' split
      all_goals
        exact ⟨by first | rfl | (split <;> rfl),
          fun w hw => by
            first
              | exact Option.noConfusion hw
              | (cases hw; rfl)⟩

theorem reviewsOf_congr {db db' : Db}
    (h : db'.course_reviews = db.course_reviews) (sid : String) :
    reviewsOf db' sid = reviewsOf db sid := by
  unfold reviewsOf; rw [h]

theorem processSubject_congr (env : Env) (r : RollupRow) {db db' : Db}
    (h1 : db'.course_reviews = db.course_reviews)
    (h2 : db'.course_review_bodies = db.course_review_bodies)
    (h3 : rollupEmbOf db' r.subject_id = rollupEmbOf db r.subject_id) :
    processSubject env db' r = processSubject env db r := by
  unfold processSubject
  rw [h2, h3, reviewsOf_congr h1]

theorem applySubjectStep_emb_none (db : Db) (sid : String) (st : SubjectStep)
    (h : st.embWrite = none) :
    (applySubjectStep db sid st).subject_rollup_embeddings =
      db.subject_rollup_embeddings := by
  unfold applySubjectStep
  rw [h]

theorem rollFold_reviews (env : Env) :
    ∀ (sel : List RollupRow) (st : RollRunState),
      (sel.foldl (rollSubjectFold env) st).db.course_reviews =
          st.db.course_reviews ∧
      (sel.foldl (rollSubjectFold env) st).db.course_review_bodies =
          st.db.course_review_bodies
  | [], _ => ⟨rfl, rfl⟩
  | a :: tl, st => by
    rw [List.foldl_cons]
    have ih := rollFold_reviews env tl (rollSubjectFold env st a)
    exact ⟨ih.1.trans rfl, ih.2.trans rfl⟩

theorem rollFold_frame (env : Env) :
    ∀ (sel : List RollupRow) (st : RollRunState) (sid : String),
      (∀ r ∈ sel, r.subject_id ≠ sid) →
      rollupOf (sel.foldl (rollSubjectFold env) st).db sid =
          rollupOf st.db sid ∧
      rollupEmbOf (sel.foldl (rollSubjectFold env) st).db sid =
          rollupEmbOf st.db sid
  | [], _, _, _ => ⟨rfl, rfl⟩
  | a :: tl, st, sid, h => by
    rw [List.foldl_cons]
    have hne : sid ≠ a.subject_id :=
      fun hc => (h a (List.mem_cons_self a tl)) hc.symm
    have hsid := processSubjectCore_sid env (reviewsOf st.db a.subject_id)
      st.db.course_review_bodies (rollupEmbOf st.db a.subject_id) a
    have ih := rollFold_frame env tl (rollSubjectFold env st a) sid
      (fun r hr => h r (List.mem_cons_of_mem a hr))
    refine ⟨ih.1.trans ?_, ih.2.trans ?_⟩
    · exact applySubjectStep_rollupOf_ne st.db a.subject_id _ sid hsid.1 hne
    · exact applySubjectStep_embOf_ne st.db a.subject_id _ sid hsid.2 hne

/-- The bridge between per-subject processing and a full rollups run: the
final state of a selected subject's rollup row and rollup-embedding record is
exactly what `processSubject` computes against the initial store. -/
theorem rollFold_lookup (env : Env) (db0 : Db) :
    ∀ (sel : List RollupRow) (st : RollRunState),
      st.db.course_reviews = db0.course_reviews →
      st.db.course_review_bodies = db0.course_review_bodies →
      (sel.map (fun x : RollupRow => x.subject_id)).Nodup →
      (∀ r ∈ sel, rollupEmbOf st.db r.subject_id =
          rollupEmbOf db0 r.subject_id) →
      (∀ r ∈ sel, ∃ x ∈ st.db.subject_rollups,
          x.subject_id = r.subject_id) →
      ∀ r ∈ sel,
        rollupOf (sel.foldl (rollSubjectFold env) st).db r.subject_id =
          some (processSubject env db0 r).newRollup ∧
        rollupEmbOf (sel.foldl (rollSubjectFold env) st).db r.subject_id =
          (match (processSubject env db0 r).embWrite with
           | some w => some w
           | none => rollupEmbOf db0 r.subject_id) := by
  intro sel
  induction sel with
  | nil => intro st _ _ _ _ _ r hr; cases hr
  | cons a tl ih =>
    intro st hcr hcb hnd hemb hpres r hr
    rw [List.foldl_cons]
    have hND := List.nodup_cons.mp hnd
    have hstep_eq : processSubject env st.db a = processSubject env db0 a :=
      processSubject_congr env a hcr hcb (hemb a (List.mem_cons_self a tl))
    have hsid0 := processSubjectCore_sid env (reviewsOf db0 a.subject_id)
      db0.course_review_bodies (rollupEmbOf db0 a.subject_id) a
    have hsid : (processSubject env st.db a).newRollup.subject_id =
        a.subject_id := by
      rw [hstep_eq]; exact hsid0.1
    have htl_ne : ∀ r' ∈ tl, r'.subject_id ≠ a.subject_id := by
      intro r' hr' hc
      have hmem : r'.subject_id ∈ tl.map (fun x : RollupRow => x.subject_id) :=
        List.mem_map_of_mem _ hr'
      rw [hc] at hmem
      exact hND.1 hmem
    rcases List.mem_cons.mp hr with rfl | hr
    · -- the head subject: apply the step lemmas, then frame over the tail.
      have hframe := rollFold_frame env tl (rollSubjectFold env st r)
        r.subject_id htl_ne
      constructor
      · rw [hframe.1]
        have := applySubjectStep_rollupOf_eq st.db r.subject_id
          (processSubject env st.db r) hsid
          (hpres r (List.mem_cons_self r tl))
        rw [show (rollSubjectFold env st r).db =
          applySubjectStep st.db r.subject_id (processSubject env st.db r)
          from rfl]
        rw [this, hstep_eq]
      · rw [hframe.2]
        rw [show (rollSubjectFold env st r).db =
          applySubjectStep st.db r.subject_id (processSubject env st.db r)
          from rfl]
        cases hew : (processSubject env db0 r).embWrite with
        | none =>
          have hnone : (processSubject env st.db r).embWrite = none := by
            rw [hstep_eq]; exact hew
          have hkeep : rollupEmbOf (applySubjectStep st.db r.subject_id
              (processSubject env st.db r)) r.subject_id =
              rollupEmbOf st.db r.subject_id := by
            unfold rollupEmbOf
            rw [applySubjectStep_emb_none _ _ _ hnone]
          exact hkeep.trans (hemb r (List.mem_cons_self r tl))
        | some w =>
          have hsome : (processSubject env st.db r).embWrite = some w := by
            rw [hstep_eq]; exact hew
          exact applySubjectStep_embOf_self st.db r.subject_id _ w hsome
            (hsid0.2 w hew)
    · -- a tail subject: push the invariants through one step and recurse.
      have h1 : (rollSubjectFold env st a).db.course_reviews =
          db0.course_reviews := hcr
      have h2 : (rollSubjectFold env st a).db.course_review_bodies =
          db0.course_review_bodies := hcb
      have hemb' : ∀ r' ∈ tl,
          rollupEmbOf (rollSubjectFold env st a).db r'.subject_id =
            rollupEmbOf db0 r'.subject_id := by
        intro r' hr'
        have := applySubjectStep_embOf_ne st.db a.subject_id
          (processSubject env st.db a) r'.subject_id
          (by rw [hstep_eq]; exact hsid0.2) (htl_ne r' hr')
        exact this.trans (hemb r' (List.mem_cons_of_mem a hr'))
      have hpres' : ∀ r' ∈ tl,
          ∃ x ∈ (rollSubjectFold env st a).db.subject_rollups,
            x.subject_id = r'.subject_id := by
        intro r' hr'
        exact applySubjectStep_pres st.db a.subject_id
          (processSubject env st.db a) r'.subject_id hsid
          (hpres r' (List.mem_cons_of_mem a hr'))
      exact ih (rollSubjectFold env st a) h1 h2 hND.2 hemb' hpres' r hr

/-- Lookup form of the rollups run: a selected subject's final rollup row and
rollup-embedding record are those `processSubject` computes on the initial
store. -/
theorem runRollups_lookup (env : Env) (db : Db) (r : RollupRow)
    (hnd : (db.subject_rollups.map (fun x : RollupRow => x.subject_id)).Nodup)
    (hr : r ∈ selectDirtyRollups db) :
    rollupOf (runRollups env db).db r.subject_id =
      some (processSubject env db r).newRollup ∧
    rollupEmbOf (runRollups env db).db r.subject_id =
      (match (processSubject env db r).embWrite with
       | some w => some w
       | none => rollupEmbOf db r.subject_id) := by
  unfold runRollups
  refine rollFold_lookup env db _ _ rfl rfl (selectDirty_sids_nodup hnd)
    (fun _ _ => rfl) ?_ r hr
  intro r' hr'
  exact ⟨r', (selectDirty_mem hr').1, rfl⟩

/-- Step 3-B in isolation: a subject with no stored reviews gets the zeroed
rollup, no embedding write, and a success flag. -/
theorem processSubjectCore_zero (env : Env) (bodies : List (String × String))
    (embRow : Option RollupEmbeddingRow) (r : RollupRow) :
    processSubjectCore env [] bodies embRow r =
      { newRollup := zeroedRollup env r, embWrite := none, ok := true,
        keptDirty := false, statsUpdated := true, summaryUpdated := true,
        rollupEmbeddingUpdated := false, summaryCalls := [],
        summaryEmbedCalls := [] } := rfl

/-- Step 3-F-3 in isolation: when there are reviews but no usable new bodies,
the summary field is left as it was, the cursor advances to the newest
review, dirty is cleared, no summarization call happens, and the subject
succeeds (the rollup-embedding step is benign when the external embedding
call succeeds). -/
theorem processSubjectCore_noBodies (env : Env) (rows : List ReviewRow)
    (bodies : List (String × String)) (embRow : Option RollupEmbeddingRow)
    (r : RollupRow) (lastRow : ReviewRow)
    (hl : rows.getLast? = some lastRow)
    (hnb : newBodiesOf bodies
      (cappedIds (pendingIds rows r.last_processed_review_id)) = [])
    (hemb_ok : ∀ s, ∃ v, env.embedSummary s = Except.ok v) :
    (processSubjectCore env rows bodies embRow r).newRollup =
      { statsRow env rows r with
        last_processed_review_id := some lastRow.id, is_dirty := false,
        updated_at := env.now } ∧
    (processSubjectCore env rows bodies embRow r).ok = true ∧
    (processSubjectCore env rows bodies embRow r).summaryCalls = [] := by
  unfold processSubjectCore
  rw [hl]
  dsimp only []
  rw [hnb]
  cases embRow with
  | none =>
    simp only [finalSummaryOf, List.isEmpty_nil, eq_self_iff_true, if_true]
    split
    · exact ⟨rfl, rfl, rfl⟩
    · obtain ⟨v, hv⟩ := hemb_ok
        (normalizeSummaryForEmbedding (jsTrim r.summary_1000))
      rw [hv]
      exact ⟨rfl, rfl, rfl⟩
  | some c =>
    simp only [finalSummaryOf, List.isEmpty_nil, eq_self_iff_true, if_true]
    split
    · split
      · exact ⟨rfl, rfl, rfl⟩
      · obtain ⟨v, hv⟩ := hemb_ok
          (normalizeSummaryForEmbedding (jsTrim r.summary_1000))
        rw [hv]
        exact ⟨rfl, rfl, rfl⟩
    · exact ⟨rfl, rfl, rfl⟩

/-- Step 3-G's empty-summary special case in isolation: when the final
summary normalizes to the empty string and the stored hash is absent or
different, the subject upserts a rollup-embedding record with a null vector
and the hash of the empty string, and makes no embedding call for it. -/
theorem processSubjectCore_emptyNorm (env : Env) (rows : List ReviewRow)
    (bodies : List (String × String)) (embRow : Option RollupEmbeddingRow)
    (r : RollupRow) (lastRow : ReviewRow) (fs : String)
    (hl : rows.getLast? = some lastRow)
    (hfs : finalSummaryOf env (jsTrim r.summary_1000)
      (newBodiesOf bodies (cappedIds (pendingIds rows
        r.last_processed_review_id))) = Except.ok fs)
    (hempty : normalizeSummaryForEmbedding fs = "")
    (hneed : (match embRow with
              | none => True
              | some c => c.content_hash ≠ env.sha256Hex "")) :
    (processSubjectCore env rows bodies embRow r).embWrite =
      some { subject_id := r.subject_id, embedding := none,
             model := env.rollupEmbeddingModel,
             content_hash := env.sha256Hex "" } ∧
    (processSubjectCore env rows bodies embRow r).summaryEmbedCalls = [] := by
  unfold processSubjectCore
  rw [hl]
  dsimp only []
  rw [hfs]
  dsimp only []
  cases embRow with
  | none =>
    rw [hempty]
    exact ⟨rfl, rfl⟩
  | some c =>
    rw [hempty]
    have hb : (c.content_hash != env.sha256Hex "") = true :=
      bne_iff_ne.mpr hneed
    rw [if_pos hb]
    exact ⟨rfl, rfl⟩

/-- The cap of step 3-D under overflow: with more than
`MAX_NEW_REVIEWS_FOR_SUMMARY` pending ids, exactly the NEWEST
`MAX_NEW_REVIEWS_FOR_SUMMARY` are kept (`slice(-MAX)` drops the oldest). -/
theorem cappedIds_overflow (ids : List String)
    (h : ids.length > MAX_NEW_REVIEWS_FOR_SUMMARY) :
    cappedIds ids = ids.drop (ids.length - MAX_NEW_REVIEWS_FOR_SUMMARY) := by
  unfold cappedIds
  rw [if_pos h]

/-- Steps 3-F-1/3-F-2 in isolation: when there are usable new bodies and the
external summarization succeeds, the summarization is called once on exactly
those bodies, the returned text (trimmed) replaces the stored summary, the
cursor advances to the subject's newest review and dirty is cleared. -/
theorem processSubjectCore_withBodies (env : Env) (rows : List ReviewRow)
    (bodies : List (String × String)) (embRow : Option RollupEmbeddingRow)
    (r : RollupRow) (lastRow : ReviewRow) (out : String)
    (hl : rows.getLast? = some lastRow)
    (hnb : newBodiesOf bodies
      (cappedIds (pendingIds rows r.last_processed_review_id)) ≠ [])
    (hsum : env.summarize (jsTrim r.summary_1000)
      (newBodiesOf bodies
        (cappedIds (pendingIds rows r.last_processed_review_id))) =
      Except.ok out)
    (hemb_ok : ∀ s, ∃ v, env.embedSummary s = Except.ok v) :
    (processSubjectCore env rows bodies embRow r).summaryCalls =
      [(jsTrim r.summary_1000,
        newBodiesOf bodies
          (cappedIds (pendingIds rows r.last_processed_review_id)))] ∧
    (processSubjectCore env rows bodies embRow r).newRollup =
      { statsRow env rows r with
        summary_1000 := jsTrim out,
        last_processed_review_id := some lastRow.id, is_dirty := false,
        updated_at := env.now } ∧
    (processSubjectCore env rows bodies embRow r).ok = true := by
  have hie : ¬((newBodiesOf bodies
      (cappedIds (pendingIds rows r.last_processed_review_id))).isEmpty =
        true) := by
    intro hcontra
    exact hnb (List.isEmpty_iff.mp hcontra)
  have hfs : finalSummaryOf env (jsTrim r.summary_1000)
      (newBodiesOf bodies
        (cappedIds (pendingIds rows r.last_processed_review_id))) =
      Except.ok (jsTrim out) := by
    unfold finalSummaryOf
    rw [if_neg hie, hsum]
    rfl
  unfold processSubjectCore
  rw [hl]
  dsimp only []
  rw [hfs]
  dsimp only []
  rw [if_neg hie, if_neg hie]
  cases embRow with
  | none =>
    rw [if_pos rfl]
    split
    · exact ⟨rfl, rfl, rfl⟩
    · obtain ⟨v, hv⟩ := hemb_ok (normalizeSummaryForEmbedding (jsTrim out))
      rw [hv]
      exact ⟨rfl, rfl, rfl⟩
  | some c =>
    split
    · split
      · exact ⟨rfl, rfl, rfl⟩
      · obtain ⟨v, hv⟩ := hemb_ok (normalizeSummaryForEmbedding (jsTrim out))
        rw [hv]
        exact ⟨rfl, rfl, rfl⟩
    · exact ⟨rfl, rfl, rfl⟩

/-! ## Supporting lemmas: the embeddings run's job and embedding tables -/

theorem jobRow_replace_key (w : JobWrite) (env : Env) :
    ∀ j : JobRow,
      (if j.review_id == w.review_id then jobWriteRow env w
       else j).review_id = j.review_id := by
  intro j
  by_cases hj : (j.review_id == w.review_id) = true
  · rw [if_pos hj]
    exact (beq_iff_eq.mp hj).symm
  · rw [if_neg hj]

theorem jobOf_upsertJob (env : Env) (w : JobWrite) (jobs : List JobRow)
    (id : String) :
    jobOf (upsertJob env w jobs) id =
      if id = w.review_id then some (jobWriteRow env w) else jobOf jobs id := by
  unfold upsertJob jobOf
  by_cases h : jobs.any (fun j => j.review_id == w.review_id) = true
  · rw [if_pos h, find?_map_keyed (fun j : JobRow => j.review_id) _
      (jobRow_replace_key w env)]
    by_cases hid : id = w.review_id
    · rw [if_pos hid]
      obtain ⟨x, hx, hpx⟩ := List.any_eq_true.mp h
      cases hf : jobs.find? (fun j => j.review_id == id) with
      | none =>
        rw [List.find?_eq_none] at hf
        refine absurd ?_ (hf x hx)
        show (x.review_id == id) = true
        rw [hid]
        exact hpx
      | some j0 =>
        have hj0 := List.find?_some
          (p := fun j : JobRow => j.review_id == id) hf
        have hcond : (j0.review_id == w.review_id) = true := by
          rw [← hid]
          exact hj0
        simp only [Option.map_some']
        rw [if_pos hcond]
    · rw [if_neg hid]
      cases hf : jobs.find? (fun j => j.review_id == id) with
      | none => rfl
      | some j0 =>
        have hj0 := List.find?_some
          (p := fun j : JobRow => j.review_id == id) hf
        simp only [Option.map_some']
        have hcond : ¬((j0.review_id == w.review_id) = true) := by
          rw [beq_iff_eq.mp hj0]
          simp only [beq_iff_eq]
          exact hid
        rw [if_neg hcond]
  · rw [if_neg h]
    by_cases hid : id = w.review_id
    · rw [if_pos hid]
      have hnone : jobs.find? (fun j => j.review_id == id) = none := by
        rw [List.find?_eq_none]
        intro x hx hpx
        refine h (List.any_eq_true.mpr ⟨x, hx, ?_⟩)
        show (x.review_id == w.review_id) = true
        rw [← hid]
        exact hpx
      rw [find?_append_of_none hnone]
      have : ((jobWriteRow env w).review_id == id) = true := by
        simp only [jobWriteRow, beq_iff_eq]
        exact hid.symm
      simp [List.find?, this]
    · rw [if_neg hid]
      cases hf : jobs.find? (fun j => j.review_id == id) with
      | none =>
        rw [find?_append_of_none hf]
        have : ((jobWriteRow env w).review_id == id) = false := by
          simp only [jobWriteRow]
          rw [beq_eq_false_iff_ne]
          exact fun hc => hid (hc.symm)
        simp [List.find?, this]
      | some j0 => exact find?_append_of_some _ hf

theorem jobOf_upsertJobs (env : Env) (ws : List JobWrite)
    (hnd : (ws.map (fun w : JobWrite => w.review_id)).Nodup) :
    ∀ (jobs : List JobRow) (id : String),
      jobOf (upsertJobs env ws jobs) id =
        match ws.find? (fun w => w.review_id == id) with
        | some w => some (jobWriteRow env w)
        | none => jobOf jobs id := by
  induction ws with
  | nil => intro jobs id; rfl
  | cons w rest ih =>
    intro jobs id
    have hnd' := List.nodup_cons.mp hnd
    show jobOf (upsertJobs env rest (upsertJob env w jobs)) id = _
    by_cases hid : (w.review_id == id) = true
    · have hfind : (w :: rest).find? (fun w' => w'.review_id == id) = some w :=
        List.find?_cons_of_pos _ hid
      rw [hfind]
      have hrest : rest.find? (fun w' => w'.review_id == id) = none := by
        rw [List.find?_eq_none]
        intro w' hw' hc
        refine hnd'.1 ?_
        have h1 := beq_iff_eq.mp hid
        have h2 := beq_iff_eq.mp hc
        have heq : w.review_id = w'.review_id := by rw [h1, h2]
        show w.review_id ∈ rest.map (fun w : JobWrite => w.review_id)
        rw [heq]
        exact List.mem_map_of_mem _ hw'
      rw [ih hnd'.2 (upsertJob env w jobs) id, hrest]
      rw [jobOf_upsertJob]
      rw [if_pos (beq_iff_eq.mp hid).symm]
    · have hfind : (w :: rest).find? (fun w' => w'.review_id == id) =
          rest.find? (fun w' => w'.review_id == id) :=
        List.find?_cons_of_neg _ hid
      rw [hfind]
      rw [ih hnd'.2 (upsertJob env w jobs) id]
      cases hf : rest.find? (fun w' => w'.review_id == id) with
      | some w' => rfl
      | none =>
        rw [jobOf_upsertJob]
        rw [if_neg (fun hc => hid (beq_iff_eq.mpr hc.symm))]

theorem jobOf_lockJobs (env : Env) (ids : List String) (jobs : List JobRow)
    (id : String) :
    jobOf (lockJobs env ids jobs) id =
      (jobOf jobs id).map (fun j =>
        if ids.contains j.review_id &&
            (j.status == JobStatus.queued || j.status == JobStatus.failed) then
          { j with status := JobStatus.processing, locked_at := some env.now,
                   locked_by := some env.runner, updated_at := env.now }
        else j) := by
  unfold lockJobs jobOf
  refine find?_map_keyed (fun j : JobRow => j.review_id) _ ?_ id jobs
  intro j
  by_cases hc : (ids.contains j.review_id &&
      (j.status == JobStatus.queued || j.status == JobStatus.failed)) = true
  · rw [if_pos hc]
  · rw [if_neg hc]

theorem jobOf_markSkippedDone (env : Env) (ids : List String)
    (jobs : List JobRow) (id : String) :
    jobOf (markSkippedDone env ids jobs) id =
      (jobOf jobs id).map (fun j =>
        if ids.contains j.review_id then
          { j with status := JobStatus.done, last_error := none,
                   locked_at := none, locked_by := some env.runner,
                   updated_at := env.now }
        else j) := by
  unfold markSkippedDone jobOf
  refine find?_map_keyed (fun j : JobRow => j.review_id) _ ?_ id jobs
  intro j
  by_cases hc : (ids.contains j.review_id) = true
  · rw [if_pos hc]
  · rw [if_neg hc]

theorem reviewEmbOf_upsert (row : ReviewEmbRow) (embs : List ReviewEmbRow)
    (id : String) :
    reviewEmbOf (upsertReviewEmb row embs) id =
      if id = row.review_id then some row else reviewEmbOf embs id := by
  unfold upsertReviewEmb reviewEmbOf
  have hkey : ∀ m : ReviewEmbRow,
      (if m.review_id == row.review_id then row else m).review_id =
        m.review_id := by
    intro m
    by_cases hm : (m.review_id == row.review_id) = true
    · rw [if_pos hm]
      exact (beq_iff_eq.mp hm).symm
    · rw [if_neg hm]
  by_cases h : embs.any (fun m => m.review_id == row.review_id) = true
  · rw [if_pos h, find?_map_keyed (fun m : ReviewEmbRow => m.review_id) _ hkey]
    by_cases hid : id = row.review_id
    · rw [if_pos hid]
      obtain ⟨x, hx, hpx⟩ := List.any_eq_true.mp h
      cases hf : embs.find? (fun m => m.review_id == id) with
      | none =>
        rw [List.find?_eq_none] at hf
        refine absurd ?_ (hf x hx)
        show (x.review_id == id) = true
        rw [hid]
        exact hpx
      | some m0 =>
        have hm0 := List.find?_some
          (p := fun m : ReviewEmbRow => m.review_id == id) hf
        have hcond : (m0.review_id == row.review_id) = true := by
          rw [← hid]
          exact hm0
        simp only [Option.map_some']
        rw [if_pos hcond]
    · rw [if_neg hid]
      cases hf : embs.find? (fun m => m.review_id == id) with
      | none => rfl
      | some m0 =>
        have hm0 := List.find?_some
          (p := fun m : ReviewEmbRow => m.review_id == id) hf
        simp only [Option.map_some']
        have hcond : ¬((m0.review_id == row.review_id) = true) := by
          rw [beq_iff_eq.mp hm0]
          simp only [beq_iff_eq]
          exact hid
        rw [if_neg hcond]
  · rw [if_neg h]
    by_cases hid : id = row.review_id
    · rw [if_pos hid]
      have hnone : embs.find? (fun m => m.review_id == id) = none := by
        rw [List.find?_eq_none]
        intro x hx hpx
        refine h (List.any_eq_true.mpr ⟨x, hx, ?_⟩)
        show (x.review_id == row.review_id) = true
        rw [← hid]
        exact hpx
      rw [find?_append_of_none hnone]
      have : (row.review_id == id) = true := by
        simp only [beq_iff_eq]
        exact hid.symm
      simp [List.find?, this]
    · rw [if_neg hid]
      cases hf : embs.find? (fun m => m.review_id == id) with
      | none =>
        rw [find?_append_of_none hf]
        have : (row.review_id == id) = false := by
          rw [beq_eq_false_iff_ne]
          exact fun hc => hid hc.symm
        simp [List.find?, this]
      | some m0 => exact find?_append_of_some _ hf

theorem reviewEmbOf_upsertFold (rows : List ReviewEmbRow)
    (hnd : (rows.map (fun r : ReviewEmbRow => r.review_id)).Nodup) :
    ∀ (embs : List ReviewEmbRow) (id : String),
      reviewEmbOf (rows.foldl (fun acc r => upsertReviewEmb r acc) embs) id =
        match rows.find? (fun r => r.review_id == id) with
        | some r => some r
        | none => reviewEmbOf embs id := by
  induction rows with
  | nil => intro embs id; rfl
  | cons r rest ih =>
    intro embs id
    have hnd' := List.nodup_cons.mp hnd
    show reviewEmbOf
      (rest.foldl (fun acc r' => upsertReviewEmb r' acc)
        (upsertReviewEmb r embs)) id = _
    by_cases hid : (r.review_id == id) = true
    · have hfind : (r :: rest).find? (fun r' => r'.review_id == id) = some r :=
        List.find?_cons_of_pos _ hid
      rw [hfind]
      have hrest : rest.find? (fun r' => r'.review_id == id) = none := by
        rw [List.find?_eq_none]
        intro r' hr' hc
        refine hnd'.1 ?_
        have heq : r.review_id = r'.review_id := by
          rw [beq_iff_eq.mp hid, beq_iff_eq.mp hc]
        show r.review_id ∈ rest.map (fun r : ReviewEmbRow => r.review_id)
        rw [heq]
        exact List.mem_map_of_mem _ hr'
      rw [ih hnd'.2 (upsertReviewEmb r embs) id, hrest]
      rw [reviewEmbOf_upsert]
      rw [if_pos (beq_iff_eq.mp hid).symm]
    · have hfind : (r :: rest).find? (fun r' => r'.review_id == id) =
          rest.find? (fun r' => r'.review_id == id) :=
        List.find?_cons_of_neg _ hid
      rw [hfind]
      rw [ih hnd'.2 (upsertReviewEmb r embs) id]
      cases hf : rest.find? (fun r' => r'.review_id == id) with
      | some r' => rfl
      | none =>
        rw [reviewEmbOf_upsert]
        rw [if_neg (fun hc => hid (beq_iff_eq.mpr hc.symm))]

theorem mem_upsertJob {env : Env} {w : JobWrite} {jobs : List JobRow}
    {y : JobRow} (hy : y ∈ upsertJob env w jobs) :
    y = jobWriteRow env w ∨ (y ∈ jobs ∧ y.review_id ≠ w.review_id) := by
  unfold upsertJob at hy
  by_cases h : jobs.any (fun j => j.review_id == w.review_id) = true
  · rw [if_pos h] at hy
    obtain ⟨x, hx, hfx⟩ := List.mem_map.mp hy
    by_cases hc : (x.review_id == w.review_id) = true
    · rw [if_pos hc] at hfx
      exact Or.inl hfx.symm
    · rw [if_neg hc] at hfx
      refine Or.inr ⟨hfx ▸ hx, ?_⟩
      rw [← hfx]
      exact fun he => hc (beq_iff_eq.mpr he)
  · rw [if_neg h] at hy
    rcases List.mem_append.mp hy with hy | hy
    · refine Or.inr ⟨hy, fun he => ?_⟩
      exact h (List.any_eq_true.mpr ⟨y, hy, beq_iff_eq.mpr he⟩)
    · rcases List.mem_singleton.mp hy with rfl
      exact Or.inl rfl

theorem mem_upsertJobs {env : Env} {ws : List JobWrite} :
    ∀ {jobs : List JobRow} {y : JobRow}, y ∈ upsertJobs env ws jobs →
      (∃ w ∈ ws, y = jobWriteRow env w) ∨ y ∈ jobs := by
  induction ws with
  | nil => intro jobs y hy; exact Or.inr hy
  | cons w rest ih =>
    intro jobs y hy
    rcases ih hy with ⟨w', hw', he⟩ | hy2
    · exact Or.inl ⟨w', List.mem_cons_of_mem _ hw', he⟩
    · rcases mem_upsertJob hy2 with he | ⟨hy3, _⟩
      · exact Or.inl ⟨w, List.mem_cons_self w rest, he⟩
      · exact Or.inr hy3

theorem mem_upsertReviewEmb {row : ReviewEmbRow} {embs : List ReviewEmbRow}
    {y : ReviewEmbRow} (hy : y ∈ upsertReviewEmb row embs) :
    y = row ∨ y ∈ embs := by
  unfold upsertReviewEmb at hy
  by_cases h : embs.any (fun m => m.review_id == row.review_id) = true
  · rw [if_pos h] at hy
    obtain ⟨x, hx, hfx⟩ := List.mem_map.mp hy
    by_cases hc : (x.review_id == row.review_id) = true
    · rw [if_pos hc] at hfx
      exact Or.inl hfx.symm
    · rw [if_neg hc] at hfx
      exact Or.inr (hfx ▸ hx)
  · rw [if_neg h] at hy
    rcases List.mem_append.mp hy with hy | hy
    · exact Or.inr hy
    · exact Or.inl (List.mem_singleton.mp hy)

theorem mem_upsertReviewEmbFold {rows : List ReviewEmbRow} :
    ∀ {embs : List ReviewEmbRow} {y : ReviewEmbRow},
      y ∈ rows.foldl (fun acc r => upsertReviewEmb r acc) embs →
      y ∈ rows ∨ y ∈ embs := by
  induction rows with
  | nil => intro embs y hy; exact Or.inr hy
  | cons r rest ih =>
    intro embs y hy
    rcases ih hy with hy2 | hy2
    · exact Or.inl (List.mem_cons_of_mem _ hy2)
    · rcases mem_upsertReviewEmb hy2 with rfl | hy3
      · exact Or.inl (List.mem_cons_self _ _)
      · exact Or.inr hy3

theorem chunkFuel_join (k : Nat) (hk : 0 < k) :
    ∀ (fuel : Nat) (l : List α), l.length ≤ fuel →
      (chunkFuel k fuel l).join = l := by
  intro fuel
  induction fuel with
  | zero =>
    intro l hl
    have : l = [] := List.eq_nil_of_length_eq_zero (Nat.le_zero.mp hl)
    subst this
    rfl
  | succ n ih =>
    intro l hl
    cases l with
    | nil => rfl
    | cons a t =>
      show (a :: t).take k ++ (chunkFuel k n ((a :: t).drop k)).join = a :: t
      rw [ih ((a :: t).drop k) ?_]
      · exact List.take_append_drop k (a :: t)
      · rw [List.length_drop]
        have h1 : (a :: t).length ≤ n + 1 := hl
        omega

theorem chunkList_join (k : Nat) (hk : 0 < k) (l : List α) :
    (chunkList k l).join = l :=
  chunkFuel_join k hk l.length l (Nat.le_refl _)

theorem perm_shiftFail (A B C : List α) (a : α) :
    List.Perm (A ++ (B ++ a :: C)) (a :: (A ++ (B ++ C))) := by
  have h1 : A ++ (B ++ a :: C) = (A ++ B) ++ a :: C := by
    rw [List.append_assoc]
  have h2 : a :: (A ++ (B ++ C)) = a :: ((A ++ B) ++ C) := by
    rw [List.append_assoc]
  rw [h1, h2]
  exact List.perm_middle

theorem perm_shiftSkip (A B C : List α) (a : α) :
    List.Perm (A ++ (a :: B ++ C)) (a :: (A ++ (B ++ C))) := by
  show List.Perm (A ++ a :: (B ++ C)) _
  exact List.perm_middle

theorem classifyJobs_need (env : Env) (bodies : List (String × String))
    (embs : List ReviewEmbRow) :
    ∀ (input : List JobRow) (x : NeedItem),
      x ∈ (classifyJobs env bodies embs input).1 →
      ∃ j ∈ input, x.review_id = j.review_id ∧
        x.attempt_count = j.attempt_count ∧
        lookupBody bodies j.review_id = some x.body ∧
        x.hash = env.sha256Hex x.body
  | [], x, hx => absurd hx (by simp [classifyJobs])
  | j :: rest, x, hx => by
    have ih := classifyJobs_need env bodies embs rest
    unfold classifyJobs at hx
    cases hb : lookupBody bodies j.review_id with
    | none =>
      rw [hb] at hx
      obtain ⟨j', hj', hrest⟩ := ih x hx
      exact ⟨j', List.mem_cons_of_mem _ hj', hrest⟩
    | some body =>
      rw [hb] at hx
      dsimp only [] at hx
      by_cases hemp : ((jsTrim body).data.length = 0)
      · rw [if_pos hemp] at hx
        obtain ⟨j', hj', hrest⟩ := ih x hx
        exact ⟨j', List.mem_cons_of_mem _ hj', hrest⟩
      · rw [if_neg hemp] at hx
        cases hsh : storedHashOf embs j.review_id with
        | some existing =>
          rw [hsh] at hx
          dsimp only [] at hx
          by_cases hskip :
              (existing != "" && existing == env.sha256Hex body) = true
          · rw [if_pos hskip] at hx
            obtain ⟨j', hj', hrest⟩ := ih x hx
            exact ⟨j', List.mem_cons_of_mem _ hj', hrest⟩
          · rw [if_neg hskip] at hx
            rcases List.mem_cons.mp hx with rfl | hx
            · exact ⟨j, List.mem_cons_self j rest, rfl, rfl, hb, rfl⟩
            · obtain ⟨j', hj', hrest⟩ := ih x hx
              exact ⟨j', List.mem_cons_of_mem _ hj', hrest⟩
        | none =>
          rw [hsh] at hx
          rcases List.mem_cons.mp hx with rfl | hx
          · exact ⟨j, List.mem_cons_self j rest, rfl, rfl, hb, rfl⟩
          · obtain ⟨j', hj', hrest⟩ := ih x hx
            exact ⟨j', List.mem_cons_of_mem _ hj', hrest⟩

theorem classifyJobs_fail (env : Env) (bodies : List (String × String))
    (embs : List ReviewEmbRow) :
    ∀ (input : List JobRow) (f : FailItem),
      f ∈ (classifyJobs env bodies embs input).2.2 →
      ∃ j ∈ input, f.review_id = j.review_id ∧
        f.attempt_count = j.attempt_count ∧
        f.error = "missing body_main in course_review_bodies"
  | [], f, hf => absurd hf (by simp [classifyJobs])
  | j :: rest, f, hf => by
    have ih := classifyJobs_fail env bodies embs rest
    unfold classifyJobs at hf
    cases hb : lookupBody bodies j.review_id with
    | none =>
      rw [hb] at hf
      rcases List.mem_cons.mp hf with rfl | hf
      · exact ⟨j, List.mem_cons_self j rest, rfl, rfl, rfl⟩
      · obtain ⟨j', hj', hrest⟩ := ih f hf
        exact ⟨j', List.mem_cons_of_mem _ hj', hrest⟩
    | some body =>
      rw [hb] at hf
      dsimp only [] at hf
      by_cases hemp : ((jsTrim body).data.length = 0)
      · rw [if_pos hemp] at hf
        rcases List.mem_cons.mp hf with rfl | hf
        · exact ⟨j, List.mem_cons_self j rest, rfl, rfl, rfl⟩
        · obtain ⟨j', hj', hrest⟩ := ih f hf
          exact ⟨j', List.mem_cons_of_mem _ hj', hrest⟩
      · rw [if_neg hemp] at hf
        cases hsh : storedHashOf embs j.review_id with
        | some existing =>
          rw [hsh] at hf
          dsimp only [] at hf
          by_cases hskip :
              (existing != "" && existing == env.sha256Hex body) = true
          · rw [if_pos hskip] at hf
            obtain ⟨j', hj', hrest⟩ := ih f hf
            exact ⟨j', List.mem_cons_of_mem _ hj', hrest⟩
          · rw [if_neg hskip] at hf
            obtain ⟨j', hj', hrest⟩ := ih f hf
            exact ⟨j', List.mem_cons_of_mem _ hj', hrest⟩
        | none =>
          rw [hsh] at hf
          obtain ⟨j', hj', hrest⟩ := ih f hf
          exact ⟨j', List.mem_cons_of_mem _ hj', hrest⟩

theorem classifyJobs_skip (env : Env) (bodies : List (String × String))
    (embs : List ReviewEmbRow) :
    ∀ (input : List JobRow) (s : String),
      s ∈ (classifyJobs env bodies embs input).2.1 →
      ∃ j ∈ input, s = j.review_id
  | [], s, hs => absurd hs (by simp [classifyJobs])
  | j :: rest, s, hs => by
    have ih := classifyJobs_skip env bodies embs rest
    unfold classifyJobs at hs
    cases hb : lookupBody bodies j.review_id with
    | none =>
      rw [hb] at hs
      obtain ⟨j', hj', hrest⟩ := ih s hs
      exact ⟨j', List.mem_cons_of_mem _ hj', hrest⟩
    | some body =>
      rw [hb] at hs
      dsimp only [] at hs
      by_cases hemp : ((jsTrim body).data.length = 0)
      · rw [if_pos hemp] at hs
        obtain ⟨j', hj', hrest⟩ := ih s hs
        exact ⟨j', List.mem_cons_of_mem _ hj', hrest⟩
      · rw [if_neg hemp] at hs
        cases hsh : storedHashOf embs j.review_id with
        | some existing =>
          rw [hsh] at hs
          dsimp only [] at hs
          by_cases hskip :
              (existing != "" && existing == env.sha256Hex body) = true
          · rw [if_pos hskip] at hs
            rcases List.mem_cons.mp hs with rfl | hs
            · exact ⟨j, List.mem_cons_self j rest, rfl⟩
            · obtain ⟨j', hj', hrest⟩ := ih s hs
              exact ⟨j', List.mem_cons_of_mem _ hj', hrest⟩
          · rw [if_neg hskip] at hs
            obtain ⟨j', hj', hrest⟩ := ih s hs
            exact ⟨j', List.mem_cons_of_mem _ hj', hrest⟩
        | none =>
          rw [hsh] at hs
          obtain ⟨j', hj', hrest⟩ := ih s hs
          exact ⟨j', List.mem_cons_of_mem _ hj', hrest⟩

theorem classifyJobs_perm (env : Env) (bodies : List (String × String))
    (embs : List ReviewEmbRow) :
    ∀ (input : List JobRow),
      List.Perm
        (((classifyJobs env bodies embs input).1.map
            (fun x : NeedItem => x.review_id)) ++
          ((classifyJobs env bodies embs input).2.1 ++
            ((classifyJobs env bodies embs input).2.2.map
              (fun f : FailItem => f.review_id))))
        (input.map (fun j : JobRow => j.review_id))
  | [] => by simp [classifyJobs]
  | j :: rest => by
    have ih := classifyJobs_perm env bodies embs rest
    show List.Perm _ (j.review_id :: rest.map (fun j' : JobRow => j'.review_id))
    unfold classifyJobs
    cases hb : lookupBody bodies j.review_id with
    | none => exact (perm_shiftFail _ _ _ _).trans (ih.cons j.review_id)
    | some body =>
      dsimp only []
      by_cases hemp : ((jsTrim body).data.length = 0)
      · rw [if_pos hemp]
        exact (perm_shiftFail _ _ _ _).trans (ih.cons j.review_id)
      · rw [if_neg hemp]
        cases hsh : storedHashOf embs j.review_id with
        | some existing =>
          dsimp only []
          by_cases hskip :
              (existing != "" && existing == env.sha256Hex body) = true
          · rw [if_pos hskip]
            exact (perm_shiftSkip _ _ _ _).trans (ih.cons j.review_id)
          · rw [if_neg hskip]
            exact ih.cons j.review_id
        | none => exact ih.cons j.review_id

theorem selectJobs_mem {env : Env} {jobs : List JobRow} {j : JobRow}
    (h : j ∈ selectJobs env jobs) :
    j ∈ jobs ∧ jobSelectable env j = true := by
  unfold selectJobs at h
  have h1 := List.mem_of_mem_take h
  have h2 := (sortListBy_perm _ _).mem_iff.mp h1
  have h3 := List.mem_filter.mp h2
  exact ⟨h3.1, h3.2⟩

theorem selectJobs_ids_nodup {env : Env} {jobs : List JobRow}
    (hnd : (jobs.map (fun j : JobRow => j.review_id)).Nodup) :
    ((selectJobs env jobs).map (fun j : JobRow => j.review_id)).Nodup := by
  unfold selectJobs
  have hf : List.Sublist (jobs.filter (jobSelectable env)) jobs :=
    List.filter_sublist _
  have h1 := hnd.sublist (hf.map (fun j : JobRow => j.review_id))
  have h2 := (((sortListBy_perm
    (fun a b : JobRow => decide (a.updated_at ≤ b.updated_at))
    (jobs.filter (jobSelectable env))).map
      (fun j : JobRow => j.review_id)).nodup_iff).mpr h1
  exact h2.sublist ((List.take_sublist _ _).map (fun j : JobRow => j.review_id))

theorem nodup_jobRow_unique {jobs : List JobRow}
    (hnd : (jobs.map (fun j : JobRow => j.review_id)).Nodup) {j j' : JobRow}
    (hj : j ∈ jobs) (hj' : j' ∈ jobs) (heq : j.review_id = j'.review_id) :
    j = j' := by
  induction jobs with
  | nil => cases hj
  | cons a t ih =>
    have hnd' := List.nodup_cons.mp hnd
    rcases List.mem_cons.mp hj with h1 | h1
    · rcases List.mem_cons.mp hj' with h2 | h2
      · rw [h1, h2]
      · subst h1
        refine absurd ?_ hnd'.1
        show j.review_id ∈ t.map (fun x : JobRow => x.review_id)
        rw [heq]
        exact List.mem_map_of_mem _ h2
    · rcases List.mem_cons.mp hj' with h2 | h2
      · subst h2
        refine absurd ?_ hnd'.1
        show j'.review_id ∈ t.map (fun x : JobRow => x.review_id)
        rw [← heq]
        exact List.mem_map_of_mem _ h1
      · exact ih hnd'.2 h1 h2

theorem jobOf_mem {jobs : List JobRow}
    (hnd : (jobs.map (fun j : JobRow => j.review_id)).Nodup) {j : JobRow}
    (hj : j ∈ jobs) : jobOf jobs j.review_id = some j := by
  cases hf : jobOf jobs j.review_id with
  | none =>
    unfold jobOf at hf
    rw [List.find?_eq_none] at hf
    exact absurd (beq_iff_eq.mpr rfl) (hf j hj)
  | some j0 =>
    have hp := List.find?_some (p := fun x : JobRow => x.review_id == j.review_id) hf
    have hm := List.mem_of_find?_eq_some hf
    rw [nodup_jobRow_unique hnd hm hj (beq_iff_eq.mp hp)]

theorem jobOf_upsertJobs_ne (env : Env) :
    ∀ (ws : List JobWrite) (jobs : List JobRow) (id : String),
      (∀ w ∈ ws, w.review_id ≠ id) →
      jobOf (upsertJobs env ws jobs) id = jobOf jobs id
  | [], _, _, _ => rfl
  | w :: rest, jobs, id, h => by
    show jobOf (upsertJobs env rest (upsertJob env w jobs)) id = _
    rw [jobOf_upsertJobs_ne env rest _ id
      (fun w' hw' => h w' (List.mem_cons_of_mem _ hw'))]
    rw [jobOf_upsertJob]
    rw [if_neg (fun hc => h w (List.mem_cons_self _ _) hc.symm)]

theorem reviewEmbOf_upsertFold_ne :
    ∀ (rows : List ReviewEmbRow) (embs : List ReviewEmbRow) (id : String),
      (∀ r ∈ rows, r.review_id ≠ id) →
      reviewEmbOf (rows.foldl (fun acc r => upsertReviewEmb r acc) embs) id =
        reviewEmbOf embs id
  | [], _, _, _ => rfl
  | r :: rest, embs, id, h => by
    show reviewEmbOf
      (rest.foldl (fun acc r' => upsertReviewEmb r' acc)
        (upsertReviewEmb r embs)) id = _
    rw [reviewEmbOf_upsertFold_ne rest _ id
      (fun r' hr' => h r' (List.mem_cons_of_mem _ hr'))]
    rw [reviewEmbOf_upsert]
    rw [if_neg (fun hc => h r (List.mem_cons_self _ _) hc.symm)]

theorem find?_map_write (g : NeedItem → JobWrite)
    (hg : ∀ x, (g x).review_id = x.review_id) :
    ∀ (b : List NeedItem) (x : NeedItem),
      (b.map (fun x : NeedItem => x.review_id)).Nodup → x ∈ b →
      (b.map g).find? (fun w => w.review_id == x.review_id) = some (g x)
  | [], x, _, hx => absurd hx (by simp)
  | a :: t, x, hnd, hx => by
    have hnd' := List.nodup_cons.mp hnd
    rcases List.mem_cons.mp hx with rfl | hx
    · have hcond : ((g x).review_id == x.review_id) = true := by
        rw [hg x]
        exact beq_iff_eq.mpr rfl
      show ((g x :: t.map g).find? (fun w => w.review_id == x.review_id)) = _
      have : (g x :: t.map g).find? (fun w => w.review_id == x.review_id) =
          some (g x) := List.find?_cons_of_pos _ hcond
      exact this
    · have hne : a.review_id ≠ x.review_id := by
        intro hc
        refine hnd'.1 ?_
        show a.review_id ∈ t.map (fun x : NeedItem => x.review_id)
        rw [hc]
        exact List.mem_map_of_mem _ hx
      have hcond : ¬(((g a).review_id == x.review_id) = true) := by
        rw [hg a]
        simp only [beq_iff_eq]
        exact hne
      show ((g a :: t.map g).find? (fun w => w.review_id == x.review_id)) = _
      have hstep : (g a :: t.map g).find? (fun w => w.review_id == x.review_id) =
          (t.map g).find? (fun w => w.review_id == x.review_id) :=
        List.find?_cons_of_neg _ hcond
      rw [hstep]
      exact find?_map_write g hg t x hnd'.2 hx

theorem mapWrite_ids (g : NeedItem → JobWrite)
    (hg : ∀ x, (g x).review_id = x.review_id) (b : List NeedItem) :
    (b.map g).map (fun w : JobWrite => w.review_id) =
      b.map (fun x : NeedItem => x.review_id) := by
  rw [List.map_map]
  exact List.map_congr_left (fun x _ => hg x)

theorem doneWrite_id (x : NeedItem) : (doneWrite x).review_id = x.review_id :=
  rfl

theorem failWrite_id (msg : String) (x : NeedItem) :
    (failWrite msg x).review_id = x.review_id := rfl

theorem embBatchStep_jobOf_mem (env : Env) (st : EmbBatchState)
    (b : List NeedItem) (x : NeedItem)
    (hnd : (b.map (fun x : NeedItem => x.review_id)).Nodup) (hx : x ∈ b) :
    jobOf (embBatchStep env st b).jobs x.review_id =
      some (jobWriteRow env (batchJobWrite env b x)) := by
  unfold embBatchStep batchJobWrite
  dsimp only []
  cases hres : env.embedBatch (b.map (fun x : NeedItem => x.body)) with
  | ok vecs =>
    dsimp only []
    by_cases hlen : vecs.length = b.length
    · rw [if_pos hlen, if_pos hlen]
      show jobOf (upsertJobs env (b.map doneWrite) st.jobs) x.review_id = _
      rw [jobOf_upsertJobs env (b.map doneWrite)
        (by rw [mapWrite_ids doneWrite doneWrite_id]; exact hnd)]
      rw [find?_map_write doneWrite doneWrite_id b x hnd hx]
    · rw [if_neg hlen, if_neg hlen]
      show jobOf (upsertJobs env
        (b.map (failWrite (mismatchMsg vecs.length b.length))) st.jobs)
          x.review_id = _
      rw [jobOf_upsertJobs env _
        (by rw [mapWrite_ids _ (failWrite_id _)]; exact hnd)]
      rw [find?_map_write _ (failWrite_id _) b x hnd hx]
  | error msg =>
    show jobOf (upsertJobs env (b.map (failWrite msg)) st.jobs)
      x.review_id = _
    rw [jobOf_upsertJobs env _ (by rw [mapWrite_ids _ (failWrite_id _)]; exact hnd)]
    rw [find?_map_write _ (failWrite_id _) b x hnd hx]

theorem embBatchStep_jobs_ne (env : Env) (st : EmbBatchState)
    (b : List NeedItem) (id : String) (h : ∀ x ∈ b, x.review_id ≠ id) :
    jobOf (embBatchStep env st b).jobs id = jobOf st.jobs id := by
  unfold embBatchStep
  dsimp only []
  cases hres : env.embedBatch (b.map (fun x : NeedItem => x.body)) with
  | ok vecs =>
    dsimp only []
    by_cases hlen : vecs.length = b.length
    · rw [if_pos hlen]
      refine jobOf_upsertJobs_ne env (b.map doneWrite) st.jobs id ?_
      intro w hw
      obtain ⟨x, hxb, hxw⟩ := List.mem_map.mp hw
      rw [← hxw]
      exact h x hxb
    · rw [if_neg hlen]
      refine jobOf_upsertJobs_ne env _ st.jobs id ?_
      intro w hw
      obtain ⟨x, hxb, hxw⟩ := List.mem_map.mp hw
      rw [← hxw]
      exact h x hxb
  | error msg =>
    refine jobOf_upsertJobs_ne env _ st.jobs id ?_
    intro w hw
    obtain ⟨x, hxb, hxw⟩ := List.mem_map.mp hw
    rw [← hxw]
    exact h x hxb

theorem embBatchStep_embs_ne (env : Env) (st : EmbBatchState)
    (b : List NeedItem) (id : String) (h : ∀ x ∈ b, x.review_id ≠ id) :
    reviewEmbOf (embBatchStep env st b).embs id = reviewEmbOf st.embs id := by
  unfold embBatchStep
  dsimp only []
  cases hres : env.embedBatch (b.map (fun x : NeedItem => x.body)) with
  | ok vecs =>
    dsimp only []
    by_cases hlen : vecs.length = b.length
    · rw [if_pos hlen]
      refine reviewEmbOf_upsertFold_ne _ st.embs id ?_
      intro r hr
      obtain ⟨p, hp, hpr⟩ := List.mem_map.mp hr
      rw [← hpr]
      exact h p.1 (List.of_mem_zip hp).1
    · rw [if_neg hlen]
      rfl
  | error msg => rfl

theorem batchFold_frame (env : Env) :
    ∀ (batches : List (List NeedItem)) (st : EmbBatchState) (id : String),
      (∀ b ∈ batches, ∀ x ∈ b, x.review_id ≠ id) →
      jobOf (batches.foldl (embBatchStep env) st).jobs id = jobOf st.jobs id ∧
      reviewEmbOf (batches.foldl (embBatchStep env) st).embs id =
        reviewEmbOf st.embs id
  | [], _, _, _ => ⟨rfl, rfl⟩
  | b :: rest, st, id, h => by
    rw [List.foldl_cons]
    have ih := batchFold_frame env rest (embBatchStep env st b) id
      (fun b' hb' => h b' (List.mem_cons_of_mem _ hb'))
    have hb := h b (List.mem_cons_self _ _)
    exact ⟨ih.1.trans (embBatchStep_jobs_ne env st b id hb),
           ih.2.trans (embBatchStep_embs_ne env st b id hb)⟩

theorem batchFold_jobOf (env : Env) :
    ∀ (batches : List (List NeedItem)) (st : EmbBatchState)
      (b : List NeedItem) (x : NeedItem),
      b ∈ batches → x ∈ b →
      ((batches.join).map (fun x : NeedItem => x.review_id)).Nodup →
      jobOf ((batches.foldl (embBatchStep env) st).jobs) x.review_id =
        some (jobWriteRow env (batchJobWrite env b x))
  | [], _, _, _, hb, _, _ => absurd hb (by simp)
  | b0 :: rest, st, b, x, hb, hx, hnd => by
    rw [List.foldl_cons]
    have hnd2 : ((b0.map (fun x : NeedItem => x.review_id)) ++
        ((rest.join).map (fun x : NeedItem => x.review_id))).Nodup := by
      have : (b0 :: rest).join = b0 ++ rest.join := rfl
      rw [← List.map_append]
      rw [← this]
      exact hnd
    have hsplit := List.nodup_append.mp hnd2
    rcases List.mem_cons.mp hb with rfl | hb
    · have hstep := embBatchStep_jobOf_mem env st b x hsplit.1 hx
      have hframe := batchFold_frame env rest (embBatchStep env st b)
        x.review_id ?_
      · exact hframe.1.trans hstep
      · intro b' hb' x' hx' hc
        have hdis := hsplit.2.2
        refine hdis (List.mem_map_of_mem _ hx) ?_
        rw [← hc]
        refine List.mem_map_of_mem _ ?_
        exact (List.sublist_join_of_mem hb').subset hx'
    · have hnd3 : ((rest.join).map (fun x : NeedItem => x.review_id)).Nodup :=
        hsplit.2.1
      exact batchFold_jobOf env rest (embBatchStep env st b0) b x hb hx hnd3

theorem batchFold_embs_mem (env : Env) :
    ∀ (batches : List (List NeedItem)) (st : EmbBatchState)
      (y : ReviewEmbRow),
      y ∈ (batches.foldl (embBatchStep env) st).embs →
      (∃ x : NeedItem, (∃ b ∈ batches, x ∈ b) ∧
        y.review_id = x.review_id ∧ y.content_hash = some x.hash) ∨
      y ∈ st.embs
  | [], _, _, hy => Or.inr hy
  | b :: rest, st, y, hy => by
    rw [List.foldl_cons] at hy
    rcases batchFold_embs_mem env rest (embBatchStep env st b) y hy with
      ⟨x, ⟨b', hb', hx⟩, hfields⟩ | hy2
    · exact Or.inl ⟨x, ⟨b', List.mem_cons_of_mem _ hb', hx⟩, hfields⟩
    · -- y survived the tail: look at the head batch's step.
      unfold embBatchStep at hy2
      dsimp only [] at hy2
      rcases hres : env.embedBatch (b.map (fun x : NeedItem => x.body)) with
        vecs | msg
      · rw [hres] at hy2
        exact Or.inr hy2
      · rw [hres] at hy2
        dsimp only [] at hy2
        by_cases hlen : msg.length = b.length
        · rw [if_pos hlen] at hy2
          rcases mem_upsertReviewEmbFold hy2 with hy3 | hy3
          · obtain ⟨p, hp, hpr⟩ := List.mem_map.mp hy3
            refine Or.inl ⟨p.1, ⟨b, List.mem_cons_self _ _,
              (List.of_mem_zip hp).1⟩, ?_, ?_⟩
            · rw [← hpr]
            · rw [← hpr]
          · exact Or.inr hy3
        · rw [if_neg hlen] at hy2
          exact Or.inr hy2

theorem runEmbeddings_nonempty (env : Env) (db : Db)
    (hne : ¬((pickedOf env db).isEmpty = true)) :
    (runEmbeddings env db).db.embedding_jobs =
      ((chunkList EMBEDDING_BATCH_SIZE (needOf env db)).foldl
        (embBatchStep env) (embSt0 env db)).jobs ∧
    (runEmbeddings env db).db.course_review_embeddings =
      ((chunkList EMBEDDING_BATCH_SIZE (needOf env db)).foldl
        (embBatchStep env) (embSt0 env db)).embs ∧
    (runEmbeddings env db).embedCalls =
      ((chunkList EMBEDDING_BATCH_SIZE (needOf env db)).foldl
        (embBatchStep env) (embSt0 env db)).embedCalls := by
  unfold runEmbeddings
  dsimp only []
  have hne' : ¬((selectJobs env db.embedding_jobs).isEmpty = true) := hne
  rw [if_neg hne']
  exact ⟨rfl, rfl, rfl⟩

theorem partition_ids_nodup (env : Env) (db : Db)
    (hnd : (db.embedding_jobs.map (fun j : JobRow => j.review_id)).Nodup) :
    (((needOf env db).map (fun x : NeedItem => x.review_id)) ++
      ((skipOf env db) ++
        ((failOf env db).map (fun f : FailItem => f.review_id)))).Nodup := by
  have hperm := classifyJobs_perm env db.course_review_bodies
    db.course_review_embeddings (pickedOf env db)
  exact (hperm.nodup_iff).mpr (selectJobs_ids_nodup hnd)

theorem need_ids_nodup (env : Env) (db : Db)
    (hnd : (db.embedding_jobs.map (fun j : JobRow => j.review_id)).Nodup) :
    ((needOf env db).map (fun x : NeedItem => x.review_id)).Nodup :=
  (partition_ids_nodup env db hnd).sublist (List.sublist_append_left _ _)

/-- Per-need-item final state of the job table: exactly the write its own
sub-batch produced (done on success, failed with the error text on a
service failure or a mismatched vector count). -/
theorem runEmbeddings_jobOf_need (env : Env) (db : Db)
    (hnd : (db.embedding_jobs.map (fun j : JobRow => j.review_id)).Nodup)
    (b : List NeedItem) (x : NeedItem)
    (hb : b ∈ chunkList EMBEDDING_BATCH_SIZE (needOf env db)) (hx : x ∈ b) :
    jobOf (runEmbeddings env db).db.embedding_jobs x.review_id =
      some (jobWriteRow env (batchJobWrite env b x)) := by
  have hxneed : x ∈ needOf env db := by
    rw [← chunkList_join EMBEDDING_BATCH_SIZE (by decide) (needOf env db)]
    exact List.mem_join.mpr ⟨b, hb, hx⟩
  obtain ⟨j, hj, _⟩ := classifyJobs_need env db.course_review_bodies
    db.course_review_embeddings (pickedOf env db) x hxneed
  have hne : ¬((pickedOf env db).isEmpty = true) := by
    intro hc
    rw [List.isEmpty_iff.mp hc] at hj
    cases hj
  have heq := runEmbeddings_nonempty env db hne
  rw [heq.1]
  refine batchFold_jobOf env _ (embSt0 env db) b x hb hx ?_
  rw [chunkList_join EMBEDDING_BATCH_SIZE (by decide) (needOf env db)]
  exact need_ids_nodup env db hnd

theorem runEmbeddings_jobOf_unpicked (env : Env) (db : Db)
    (hnd : (db.embedding_jobs.map (fun j : JobRow => j.review_id)).Nodup)
    (j : JobRow) (hj : j ∈ db.embedding_jobs)
    (hnp : ∀ p ∈ pickedOf env db, p.review_id ≠ j.review_id) :
    jobOf (runEmbeddings env db).db.embedding_jobs j.review_id = some j := by
  by_cases hpe : (pickedOf env db).isEmpty = true
  · unfold runEmbeddings
    dsimp only []
    have hpe' : (selectJobs env db.embedding_jobs).isEmpty = true := hpe
    rw [if_pos hpe']
    exact jobOf_mem hnd hj
  · have heq := runEmbeddings_nonempty env db hpe
    rw [heq.1]
    have hneedne : ∀ b ∈ chunkList EMBEDDING_BATCH_SIZE (needOf env db),
        ∀ x ∈ b, x.review_id ≠ j.review_id := by
      intro b hb x hx
      have hxneed : x ∈ needOf env db := by
        rw [← chunkList_join EMBEDDING_BATCH_SIZE (by decide) (needOf env db)]
        exact List.mem_join.mpr ⟨b, hb, hx⟩
      obtain ⟨p, hp, hrest⟩ := classifyJobs_need env db.course_review_bodies
        db.course_review_embeddings (pickedOf env db) x hxneed
      rw [hrest.1]
      exact hnp p hp
    have hframe := batchFold_frame env _ (embSt0 env db) j.review_id hneedne
    rw [hframe.1]
    show jobOf (upsertJobs env _
      (markSkippedDone env (skipOf env db)
        (lockJobs env ((pickedOf env db).map (fun p : JobRow => p.review_id))
          db.embedding_jobs))) j.review_id = some j
    rw [jobOf_upsertJobs_ne env _ _ _ ?_]
    · rw [jobOf_markSkippedDone]
      rw [jobOf_lockJobs]
      rw [jobOf_mem hnd hj]
      have hcon1 : (((pickedOf env db).map
          (fun p : JobRow => p.review_id)).contains j.review_id) = false := by
        rw [← Bool.not_eq_true]
        intro hc
        obtain ⟨p, hp, hpe2⟩ := List.mem_map.mp (List.elem_iff.mp hc)
        exact hnp p hp hpe2
      have hcon2 : ((skipOf env db).contains j.review_id) = false := by
        rw [← Bool.not_eq_true]
        intro hc
        obtain ⟨p, hp, hpe2⟩ := classifyJobs_skip env db.course_review_bodies
          db.course_review_embeddings (pickedOf env db) _
          (List.elem_iff.mp hc)
        exact hnp p hp hpe2.symm
      have h1 : ¬(((((pickedOf env db).map
          (fun p : JobRow => p.review_id)).contains j.review_id) &&
          (j.status == JobStatus.queued || j.status == JobStatus.failed)) =
            true) := by
        rw [hcon1, Bool.false_and]
        exact fun hc => Bool.noConfusion hc
      have h2 : ¬(((skipOf env db).contains j.review_id) = true) := by
        rw [hcon2]
        exact fun hc => Bool.noConfusion hc
      dsimp only [Option.map]
      rw [if_neg h1, if_neg h2]
    · intro w hw
      obtain ⟨f, hf, hfw⟩ := List.mem_map.mp hw
      obtain ⟨p, hp, hrest⟩ := classifyJobs_fail env db.course_review_bodies
        db.course_review_embeddings (pickedOf env db) f hf
      rw [← hfw]
      show f.review_id ≠ j.review_id
      rw [hrest.1]
      exact hnp p hp

theorem find?_map_writeF (g : FailItem → JobWrite)
    (hg : ∀ x, (g x).review_id = x.review_id) :
    ∀ (b : List FailItem) (x : FailItem),
      (b.map (fun x : FailItem => x.review_id)).Nodup → x ∈ b →
      (b.map g).find? (fun w => w.review_id == x.review_id) = some (g x)
  | [], x, _, hx => absurd hx (by simp)
  | a :: t, x, hnd, hx => by
    have hnd' := List.nodup_cons.mp hnd
    rcases List.mem_cons.mp hx with rfl | hx
    · have hcond : ((g x).review_id == x.review_id) = true := by
        rw [hg x]
        exact beq_iff_eq.mpr rfl
      show ((g x :: t.map g).find? (fun w => w.review_id == x.review_id)) = _
      exact List.find?_cons_of_pos _ hcond
    · have hne : a.review_id ≠ x.review_id := by
        intro hc
        refine hnd'.1 ?_
        show a.review_id ∈ t.map (fun x : FailItem => x.review_id)
        rw [hc]
        exact List.mem_map_of_mem _ hx
      have hcond : ¬(((g a).review_id == x.review_id) = true) := by
        rw [hg a]
        simp only [beq_iff_eq]
        exact hne
      show ((g a :: t.map g).find? (fun w => w.review_id == x.review_id)) = _
      have hstep : (g a :: t.map g).find?
          (fun w => w.review_id == x.review_id) =
          (t.map g).find? (fun w => w.review_id == x.review_id) :=
        List.find?_cons_of_neg _ hcond
      rw [hstep]
      exact find?_map_writeF g hg t x hnd'.2 hx

theorem runEmbeddings_jobOf_fail (env : Env) (db : Db)
    (hnd : (db.embedding_jobs.map (fun j : JobRow => j.review_id)).Nodup)
    (f : FailItem) (hf : f ∈ failOf env db) :
    jobOf (runEmbeddings env db).db.embedding_jobs f.review_id =
      some (jobWriteRow env (failMissingWrite f)) := by
  obtain ⟨p, hp, hrest⟩ := classifyJobs_fail env db.course_review_bodies
    db.course_review_embeddings (pickedOf env db) f hf
  have hne : ¬((pickedOf env db).isEmpty = true) := by
    cases hl : pickedOf env db with
    | nil => rw [hl] at hp; cases hp
    | cons a t => intro hc; exact Bool.noConfusion hc
  have heq := runEmbeddings_nonempty env db hne
  rw [heq.1]
  have hpart := partition_ids_nodup env db hnd
  have hsplit := List.nodup_append.mp hpart
  have hfid : f.review_id ∈ (skipOf env db) ++
      ((failOf env db).map (fun x : FailItem => x.review_id)) :=
    List.mem_append.mpr (Or.inr (List.mem_map_of_mem _ hf))
  have hneedne : ∀ b ∈ chunkList EMBEDDING_BATCH_SIZE (needOf env db),
      ∀ x ∈ b, x.review_id ≠ f.review_id := by
    intro b hb x hx hc
    have hxneed : x ∈ needOf env db := by
      rw [← chunkList_join EMBEDDING_BATCH_SIZE (by decide) (needOf env db)]
      exact List.mem_join.mpr ⟨b, hb, hx⟩
    refine hsplit.2.2 (List.mem_map_of_mem _ hxneed) ?_
    rw [hc]
    exact hfid
  have hframe := batchFold_frame env _ (embSt0 env db) f.review_id hneedne
  rw [hframe.1]
  have hsplit2 := List.nodup_append.mp hsplit.2.1
  have hndF : ((failOf env db).map (fun x : FailItem => x.review_id)).Nodup :=
    hsplit2.2.1
  have hndws : (((failOf env db).map failMissingWrite).map
      (fun w : JobWrite => w.review_id)).Nodup := by
    rw [List.map_map]
    exact hndF
  show jobOf (upsertJobs env ((failOf env db).map failMissingWrite)
    (markSkippedDone env (skipOf env db)
      (lockJobs env ((pickedOf env db).map (fun j : JobRow => j.review_id))
        db.embedding_jobs))) f.review_id = _
  rw [jobOf_upsertJobs env ((failOf env db).map failMissingWrite) hndws
    (markSkippedDone env (skipOf env db)
      (lockJobs env ((pickedOf env db).map (fun j : JobRow => j.review_id))
        db.embedding_jobs)) f.review_id]
  rw [find?_map_writeF failMissingWrite (fun _ => rfl) (failOf env db) f
    hndF hf]

theorem runEmbeddings_jobOf_skip (env : Env) (db : Db)
    (hnd : (db.embedding_jobs.map (fun j : JobRow => j.review_id)).Nodup)
    (j : JobRow) (hj : j ∈ db.embedding_jobs)
    (hs : j.review_id ∈ skipOf env db) :
    jobOf (runEmbeddings env db).db.embedding_jobs j.review_id =
      some { j with status := JobStatus.done, last_error := none,
                    locked_at := none, locked_by := some env.runner,
                    updated_at := env.now } := by
  obtain ⟨p, hp, hpe⟩ := classifyJobs_skip env db.course_review_bodies
    db.course_review_embeddings (pickedOf env db) j.review_id hs
  have hpj : p = j :=
    nodup_jobRow_unique hnd (selectJobs_mem hp).1 hj hpe.symm
  have hjp : j ∈ pickedOf env db := hpj ▸ hp
  have hjsel : jobSelectable env j = true := hpj ▸ (selectJobs_mem hp).2
  have hne : ¬((pickedOf env db).isEmpty = true) := by
    cases hl : pickedOf env db with
    | nil => rw [hl] at hjp; cases hjp
    | cons a t => intro hc; exact Bool.noConfusion hc
  have heq := runEmbeddings_nonempty env db hne
  rw [heq.1]
  have hpart := partition_ids_nodup env db hnd
  have hsplit := List.nodup_append.mp hpart
  have hsplit2 := List.nodup_append.mp hsplit.2.1
  have hneedne : ∀ b ∈ chunkList EMBEDDING_BATCH_SIZE (needOf env db),
      ∀ x ∈ b, x.review_id ≠ j.review_id := by
    intro b hb x hx hc
    have hxneed : x ∈ needOf env db := by
      rw [← chunkList_join EMBEDDING_BATCH_SIZE (by decide) (needOf env db)]
      exact List.mem_join.mpr ⟨b, hb, hx⟩
    refine hsplit.2.2 (List.mem_map_of_mem _ hxneed) ?_
    rw [hc]
    exact List.mem_append.mpr (Or.inl hs)
  have hframe := batchFold_frame env _ (embSt0 env db) j.review_id hneedne
  rw [hframe.1]
  show jobOf (upsertJobs env ((failOf env db).map failMissingWrite)
    (markSkippedDone env (skipOf env db)
      (lockJobs env ((pickedOf env db).map (fun p : JobRow => p.review_id))
        db.embedding_jobs))) j.review_id = _
  rw [jobOf_upsertJobs_ne env _ _ _ ?_]
  · rw [jobOf_markSkippedDone]
    rw [jobOf_lockJobs]
    rw [jobOf_mem hnd hj]
    have hc1 : ((((pickedOf env db).map
        (fun p : JobRow => p.review_id)).contains j.review_id) &&
        (j.status == JobStatus.queued || j.status == JobStatus.failed)) =
          true := by
      have hA : (((pickedOf env db).map
          (fun p : JobRow => p.review_id)).contains j.review_id) = true :=
        List.elem_iff.mpr (List.mem_map_of_mem _ hjp)
      have hB : (j.status == JobStatus.queued ||
          j.status == JobStatus.failed) = true := by
        cases hq : (j.status == JobStatus.queued ||
            j.status == JobStatus.failed) with
        | true => rfl
        | false =>
          unfold jobSelectable at hjsel
          rw [hq, Bool.false_and] at hjsel
          exact absurd hjsel (fun hc => Bool.noConfusion hc)
      rw [hA, hB]
      rfl
    have hc2 : ((skipOf env db).contains j.review_id) = true :=
      List.elem_iff.mpr hs
    dsimp only [Option.map]
    rw [if_pos hc1, if_pos hc2]
  · intro w hw
    obtain ⟨f, hf, hfw⟩ := List.mem_map.mp hw
    rw [← hfw]
    show (failMissingWrite f).review_id ≠ j.review_id
    intro hc
    have hc' : f.review_id = j.review_id := hc
    have hmemf : f.review_id ∈
        (failOf env db).map (fun x : FailItem => x.review_id) :=
      List.mem_map_of_mem (fun x : FailItem => x.review_id) hf
    rw [hc'] at hmemf
    exact hsplit2.2.2 hs hmemf

theorem batchJobWrite_attempt (env : Env) (b : List NeedItem) (x : NeedItem) :
    (batchJobWrite env b x).attempt_count = x.attempt_count + 1 := by
  unfold batchJobWrite
  cases env.embedBatch (b.map (fun y : NeedItem => y.body)) with
  | error msg => rfl
  | ok vecs =>
    dsimp only []
    by_cases h : vecs.length = b.length
    · rw [if_pos h]
      rfl
    · rw [if_neg h]
      rfl

/-! ## C6 — per-batch failure isolation in the embeddings run -/

/-- C6: within one embeddings run, the fate of a `need` unit depends only on
the outcome of the one external call made for its own sub-batch: if the call
for that sub-batch fails, every unit of the sub-batch ends `failed` with the
error text recorded and `attempt_count` incremented; if the call returns a
vector count different from the sub-batch size, likewise with the mismatch
message; and if it succeeds with a matching count, the unit ends `done` —
regardless of what happens in any other sub-batch, so a failed sub-batch
never aborts the run and later sub-batches still reach `done`. -/
theorem C6_batch_failure_isolation (env : Env) (db : Db)
    (hnd : (db.embedding_jobs.map (fun j : JobRow => j.review_id)).Nodup)
    (b : List NeedItem) (x : NeedItem)
    (hb : b ∈ chunkList EMBEDDING_BATCH_SIZE (needOf env db)) (hx : x ∈ b) :
    (∀ msg, env.embedBatch (b.map (fun y : NeedItem => y.body)) =
        Except.error msg →
      jobOf (runEmbeddings env db).db.embedding_jobs x.review_id =
        some (jobWriteRow env (failWrite msg x))) ∧
    (∀ vecs, env.embedBatch (b.map (fun y : NeedItem => y.body)) =
        Except.ok vecs → ¬(vecs.length = b.length) →
      jobOf (runEmbeddings env db).db.embedding_jobs x.review_id =
        some (jobWriteRow env
          (failWrite (mismatchMsg vecs.length b.length) x))) ∧
    (∀ vecs, env.embedBatch (b.map (fun y : NeedItem => y.body)) =
        Except.ok vecs → vecs.length = b.length →
      jobOf (runEmbeddings env db).db.embedding_jobs x.review_id =
        some (jobWriteRow env (doneWrite x))) := by
  have h := runEmbeddings_jobOf_need env db hnd b x hb hx
  refine ⟨?_, ?_, ?_⟩
  · intro msg hmsg
    rw [h]
    unfold batchJobWrite
    rw [hmsg]
  · intro vecs hv hlen
    rw [h]
    unfold batchJobWrite
    rw [hv]
    dsimp only []
    rw [if_neg hlen]
  · intro vecs hv hlen
    rw [h]
    unfold batchJobWrite
    rw [hv]
    dsimp only []
    rw [if_pos hlen]

/-- Witness for C6: on a one-job store with an always-failing embedding
service, the run leaves the job `failed` with the error recorded and the
attempt counted. -/
theorem C6_witness :
    jobOf (runEmbeddings cEnvFail c6Db).db.embedding_jobs c6Need.review_id =
      some (jobWriteRow cEnvFail (failWrite "boom" c6Need)) :=
  (C6_batch_failure_isolation cEnvFail c6Db (by decide) [c6Need] c6Need
    (by decide) (by decide)).1 "boom" rfl

/-! ## C8 — attempt_count: +1 per processing attempt, never decreasing -/

/-- C8: for every job row present when an embeddings run starts (review ids
unique), the run leaves exactly one row with that id, whose `attempt_count`
never decreases; it equals the old count plus one exactly when the run
actually processed the unit (it was embedded, or failed for a missing body),
and is unchanged otherwise (unit not picked, or skipped as already
embedded). -/
theorem C8_attempt_count_monotone (env : Env) (db : Db)
    (hnd : (db.embedding_jobs.map (fun j : JobRow => j.review_id)).Nodup)
    (j : JobRow) (hj : j ∈ db.embedding_jobs) :
    ∃ j', jobOf (runEmbeddings env db).db.embedding_jobs j.review_id =
        some j' ∧
      j.attempt_count ≤ j'.attempt_count ∧
      (((∃ x ∈ needOf env db, x.review_id = j.review_id) ∨
        (∃ f ∈ failOf env db, f.review_id = j.review_id)) →
        j'.attempt_count = j.attempt_count + 1) ∧
      (¬((∃ x ∈ needOf env db, x.review_id = j.review_id) ∨
         (∃ f ∈ failOf env db, f.review_id = j.review_id)) →
        j'.attempt_count = j.attempt_count) := by
  by_cases hA : ∃ x ∈ needOf env db, x.review_id = j.review_id
  · obtain ⟨x, hxn, hxe⟩ := hA
    obtain ⟨p, hp, hrest⟩ := classifyJobs_need env db.course_review_bodies
      db.course_review_embeddings (pickedOf env db) x hxn
    have hpj : p = j := nodup_jobRow_unique hnd (selectJobs_mem hp).1 hj
      (by rw [← hrest.1, hxe])
    have hatt : x.attempt_count = j.attempt_count := by
      rw [hrest.2.1, hpj]
    have hxj : x ∈ (chunkList EMBEDDING_BATCH_SIZE (needOf env db)).join := by
      rw [chunkList_join EMBEDDING_BATCH_SIZE (by decide)]
      exact hxn
    obtain ⟨b, hb, hxb⟩ := List.mem_join.mp hxj
    have hrun := runEmbeddings_jobOf_need env db hnd b x hb hxb
    rw [hxe] at hrun
    have hw : (jobWriteRow env (batchJobWrite env b x)).attempt_count =
        x.attempt_count + 1 := batchJobWrite_attempt env b x
    refine ⟨jobWriteRow env (batchJobWrite env b x), hrun, ?_, ?_, ?_⟩
    · rw [hw, hatt]
      exact Nat.le_succ _
    · intro _
      rw [hw, hatt]
    · intro hno
      exact absurd (Or.inl ⟨x, hxn, hxe⟩) hno
  · by_cases hB : ∃ f ∈ failOf env db, f.review_id = j.review_id
    · obtain ⟨f, hfn, hfe⟩ := hB
      obtain ⟨p, hp, hrest⟩ := classifyJobs_fail env db.course_review_bodies
        db.course_review_embeddings (pickedOf env db) f hfn
      have hpj : p = j := nodup_jobRow_unique hnd (selectJobs_mem hp).1 hj
        (by rw [← hrest.1, hfe])
      have hatt : f.attempt_count = j.attempt_count := by
        rw [hrest.2.1, hpj]
      have hrun := runEmbeddings_jobOf_fail env db hnd f hfn
      rw [hfe] at hrun
      have hw : (jobWriteRow env (failMissingWrite f)).attempt_count =
          f.attempt_count + 1 := rfl
      refine ⟨jobWriteRow env (failMissingWrite f), hrun, ?_, ?_, ?_⟩
      · rw [hw, hatt]
        exact Nat.le_succ _
      · intro _
        rw [hw, hatt]
      · intro hno
        exact absurd (Or.inr ⟨f, hfn, hfe⟩) hno
    · by_cases hC : j.review_id ∈ skipOf env db
      · have hrun := runEmbeddings_jobOf_skip env db hnd j hj hC
        refine ⟨_, hrun, Nat.le_refl _, ?_, fun _ => rfl⟩
        intro hor
        exact absurd hor (not_or.mpr ⟨hA, hB⟩)
      · have hnp : ∀ p ∈ pickedOf env db, p.review_id ≠ j.review_id := by
          intro p hp hc
          have hperm := classifyJobs_perm env db.course_review_bodies
            db.course_review_embeddings (pickedOf env db)
          have hmem : j.review_id ∈
              (pickedOf env db).map (fun q : JobRow => q.review_id) := by
            rw [← hc]
            exact List.mem_map_of_mem _ hp
          have hmem2 := hperm.mem_iff.mpr hmem
          rcases List.mem_append.mp hmem2 with h1 | h23
          · obtain ⟨x, hx, hxe⟩ := List.mem_map.mp h1
            exact hA ⟨x, hx, hxe⟩
          · rcases List.mem_append.mp h23 with h2 | h3
            · exact hC h2
            · obtain ⟨f, hf, hfe⟩ := List.mem_map.mp h3
              exact hB ⟨f, hf, hfe⟩
        have hrun := runEmbeddings_jobOf_unpicked env db hnd j hj hnp
        exact ⟨j, hrun, Nat.le_refl _,
          fun hor => absurd hor (not_or.mpr ⟨hA, hB⟩), fun _ => rfl⟩

/-- Witness for C8 at a one-job store whose unit is embedded successfully:
the attempt count goes from 0 to 1. -/
theorem C8_witness :
    ∃ j', jobOf (runEmbeddings cEnv c6Db).db.embedding_jobs
        (mkQueuedJob "r1").review_id = some j' ∧
      (mkQueuedJob "r1").attempt_count ≤ j'.attempt_count ∧
      (((∃ x ∈ needOf cEnv c6Db,
          x.review_id = (mkQueuedJob "r1").review_id) ∨
        (∃ f ∈ failOf cEnv c6Db,
          f.review_id = (mkQueuedJob "r1").review_id)) →
        j'.attempt_count = (mkQueuedJob "r1").attempt_count + 1) ∧
      (¬((∃ x ∈ needOf cEnv c6Db,
            x.review_id = (mkQueuedJob "r1").review_id) ∨
         (∃ f ∈ failOf cEnv c6Db,
            f.review_id = (mkQueuedJob "r1").review_id)) →
        j'.attempt_count = (mkQueuedJob "r1").attempt_count) :=
  C8_attempt_count_monotone cEnv c6Db (by decide) (mkQueuedJob "r1")
    (by decide)

/-! ## C2 — stale-lock reclamation of `processing` items

The selection query (`src/app/api/batch/embeddings/run/route.ts` lines
111-120) filters `status IN ('queued','failed')` AND
`(locked_at IS NULL OR locked_at < staleBefore)`. A WorkItem left in
`processing` by a crashed run therefore never satisfies the filter, no
matter how old its lock is — contradicting the spec (§4.1, §8) and the
route's own comments (`LOCK_STALE_MINUTES`: "re-acquirable when the lock is
at least this old, for runs that died midway"). -/

/-- C2: a `processing` WorkItem whose lock timestamp is far older than the
staleness threshold is NOT selected by a new run — the selector returns the
empty batch even though the store holds only this reclaimable item, because
the status filter `status IN ('queued','failed')` excludes `processing`
outright. This contradicts the claim (and the route's own comments), so the
claim is recorded as a code bug. -/
theorem C2_stale_processing_not_selected :
    staleProcessingJob.status = JobStatus.processing ∧
    staleProcessingJob.locked_at = some 0 ∧
    (0 : Int) < staleBefore cEnv ∧
    selectJobs cEnv [staleProcessingJob] = [] := by
  refine ⟨rfl, rfl, by decide, ?_⟩
  rfl

/-! ## C10 — the write path validates before writing -/

/-- C10: a submission whose trimmed body is absent or shorter than 30
characters is answered with HTTP 400 and the store is returned untouched:
the validation happens before any store statement. -/
theorem C10_short_body_rejected_before_write (env : WriteEnv) (db : Db)
    (p : Payload)
    (h : p.body_main.map jsTrim = none ∨
         ∃ c, p.body_main.map jsTrim = some c ∧ c.data.length < 30) :
    ∃ m, postCourseReview env db p = (WriteResp.err 400 m, db) := by
  unfold postCourseReview
  dsimp only []
  split
  · exact ⟨_, rfl⟩
  · split
    · exact ⟨_, rfl⟩
    · rcases h with h | ⟨c, hc, hlen⟩
      · simp only [h]
        exact ⟨_, rfl⟩
      · simp only [hc]
        rw [if_pos hlen]
        exact ⟨_, rfl⟩

/-! ## C9 — success implies coexistence; failures after insert compensate -/

theorem getOrCreateUserId_reviews (env : WriteEnv) (db : Db) (l : String) :
    ((getOrCreateUserId env db l).2).course_reviews = db.course_reviews := by
  unfold getOrCreateUserId
  dsimp only []
  split <;> rfl

theorem getOrCreateUniversityId_reviews (env : WriteEnv) (db : Db)
    (n : String) :
    ((getOrCreateUniversityId env db n).2).course_reviews =
      db.course_reviews := by
  unfold getOrCreateUniversityId
  split <;> rfl

theorem getOrCreateSubjectId_reviews (env : WriteEnv) (db : Db)
    (u n : String) :
    ((getOrCreateSubjectId env db u n).2).course_reviews =
      db.course_reviews := by
  unfold getOrCreateSubjectId
  split <;> rfl

theorem upsertAffiliation_reviews (db : Db) (u v f : String)
    (d : Option String) :
    (upsertAffiliation db u v f d).course_reviews = db.course_reviews := by
  unfold upsertAffiliation
  split <;> rfl

theorem upsertQueuedJob_mem (env : WriteEnv) (db : Db) :
    (upsertQueuedJob env db).course_reviews = db.course_reviews ∧
    (upsertQueuedJob env db).subject_rollups = db.subject_rollups ∧
    ∃ jb ∈ (upsertQueuedJob env db).embedding_jobs,
      jb.review_id = env.freshReviewId ∧ jb.status = JobStatus.queued := by
  unfold upsertQueuedJob
  dsimp only []
  by_cases h : db.embedding_jobs.any
      (fun j => j.review_id == env.freshReviewId) = true
  · rw [if_pos h]
    refine ⟨rfl, rfl, ?_⟩
    obtain ⟨j0, hj0, hp⟩ := List.any_eq_true.mp h
    have hmem := List.mem_map_of_mem (fun j : JobRow =>
      if j.review_id == env.freshReviewId then
        { review_id := env.freshReviewId, status := JobStatus.queued,
          attempt_count := 0, locked_at := none, locked_by := none,
          updated_at := env.now, last_error := none }
      else j) hj0
    dsimp only [] at hmem
    rw [if_pos hp] at hmem
    exact ⟨_, hmem, rfl, rfl⟩
  · rw [if_neg h]
    exact ⟨rfl, rfl,
      ⟨{ review_id := env.freshReviewId, status := JobStatus.queued,
         attempt_count := 0, locked_at := none, locked_by := none,
         updated_at := env.now, last_error := none },
       List.mem_append.mpr (Or.inr (List.mem_cons_self _ _)), rfl, rfl⟩⟩

theorem upsertRollupDirty_mem (env : WriteEnv) (db : Db) (sid : String) :
    (upsertRollupDirty env db sid).course_reviews = db.course_reviews ∧
    (upsertRollupDirty env db sid).embedding_jobs = db.embedding_jobs ∧
    ∃ ru ∈ (upsertRollupDirty env db sid).subject_rollups,
      ru.subject_id = sid ∧ ru.is_dirty = true := by
  unfold upsertRollupDirty
  by_cases h : db.subject_rollups.any (fun x => x.subject_id == sid) = true
  · rw [if_pos h]
    refine ⟨rfl, rfl, ?_⟩
    obtain ⟨x0, hx0, hp⟩ := List.any_eq_true.mp h
    have hmem := List.mem_map_of_mem (fun x : RollupRow =>
      if x.subject_id == sid then { x with is_dirty := true } else x) hx0
    dsimp only [] at hmem
    rw [if_pos hp] at hmem
    exact ⟨_, hmem, beq_iff_eq.mp hp, rfl⟩
  · rw [if_neg h]
    refine ⟨rfl, rfl, ?_⟩
    exact ⟨{ subject_id := sid, review_count := 0, avg_credit_ease := none,
             avg_class_difficulty := none, avg_assignment_load := none,
             avg_attendance_strictness := none, avg_satisfaction := none,
             avg_recommendation := none, summary_1000 := "",
             last_processed_review_id := none, is_dirty := true,
             updated_at := env.now },
           List.mem_append.mpr (Or.inr (List.mem_cons_self _ _)), rfl, rfl⟩

theorem cascadeSuccess_spec (env : WriteEnv) (dbx : Db) (sid : String)
    (hex : ∃ row ∈ dbx.course_reviews,
      row.id = env.freshReviewId ∧ row.subject_id = sid) :
    ∃ row ∈ (upsertRollupDirty env (upsertQueuedJob env dbx)
        sid).course_reviews,
      row.id = env.freshReviewId ∧
      (∃ jb ∈ (upsertRollupDirty env (upsertQueuedJob env dbx)
          sid).embedding_jobs,
        jb.review_id = env.freshReviewId ∧ jb.status = JobStatus.queued) ∧
      (∃ ru ∈ (upsertRollupDirty env (upsertQueuedJob env dbx)
          sid).subject_rollups,
        ru.subject_id = row.subject_id ∧ ru.is_dirty = true) := by
  obtain ⟨row, hrow, hid, hsid⟩ := hex
  obtain ⟨hcr1, hsr1, hjb⟩ := upsertQueuedJob_mem env dbx
  obtain ⟨hcr2, hjb2, hru⟩ := upsertRollupDirty_mem env
    (upsertQueuedJob env dbx) sid
  refine ⟨row, ?_, hid, ?_, ?_⟩
  · rw [hcr2, hcr1]
    exact hrow
  · rw [hjb2]
    exact hjb
  · obtain ⟨ru, hrum, hrusid, hrud⟩ := hru
    refine ⟨ru, hrum, ?_, hrud⟩
    rw [hrusid, hsid]

theorem createReviewCascade_spec (env : WriteEnv) (db : Db) (p : Payload)
    (lid uname fac sname : String) (department : Option String)
    (tn : List String) (c : String)
    (hfresh : ∀ x ∈ db.course_reviews, x.id ≠ env.freshReviewId) :
    ((createReviewCascade env db p lid uname fac sname department tn c).1 =
        WriteResp.ok env.freshReviewId →
      ∃ row ∈ (createReviewCascade env db p lid uname fac sname department
          tn c).2.course_reviews,
        row.id = env.freshReviewId ∧
        (∃ jb ∈ (createReviewCascade env db p lid uname fac sname department
            tn c).2.embedding_jobs,
          jb.review_id = env.freshReviewId ∧
          jb.status = JobStatus.queued) ∧
        (∃ ru ∈ (createReviewCascade env db p lid uname fac sname department
            tn c).2.subject_rollups,
          ru.subject_id = row.subject_id ∧ ru.is_dirty = true)) ∧
    (¬((createReviewCascade env db p lid uname fac sname department tn
        c).1 = WriteResp.ok env.freshReviewId) →
      ∀ x ∈ (createReviewCascade env db p lid uname fac sname department
          tn c).2.course_reviews,
        x.id ≠ env.freshReviewId) := by
  unfold createReviewCascade
  dsimp only []
  split
  · refine ⟨fun h => WriteResp.noConfusion h, ?_⟩
    intro _ x hx hc
    simp only [getOrCreateUniversityId_reviews, getOrCreateUserId_reviews]
      at hx
    exact hfresh x hx hc
  · split
    · refine ⟨fun h => WriteResp.noConfusion h, ?_⟩
      intro _ x hx hc
      simp only [getOrCreateSubjectId_reviews, upsertAffiliation_reviews,
        getOrCreateUniversityId_reviews, getOrCreateUserId_reviews] at hx
      exact hfresh x hx hc
    · split
      · refine ⟨fun h => WriteResp.noConfusion h, ?_⟩
        intro _ x hx hc
        unfold deleteReview at hx
        dsimp only [] at hx
        exact bne_iff_ne.mp (List.mem_filter.mp hx).2 hc
      · split
        · refine ⟨fun h => WriteResp.noConfusion h, ?_⟩
          intro _ x hx hc
          unfold deleteReview at hx
          dsimp only [] at hx
          exact bne_iff_ne.mp (List.mem_filter.mp hx).2 hc
        · split
          · refine ⟨fun h => WriteResp.noConfusion h, ?_⟩
            intro _ x hx hc
            unfold deleteReview at hx
            dsimp only [] at hx
            exact bne_iff_ne.mp (List.mem_filter.mp hx).2 hc
          · refine ⟨?_, ?_⟩
            · intro _
              exact cascadeSuccess_spec env _ _
                ⟨_, List.mem_append.mpr (Or.inr (List.mem_cons_self _ _)),
                 rfl, rfl⟩
            · intro hne
              exact absurd rfl hne

/-- C9: on the write path (fresh review id not yet present), a successful
response implies the created review row coexists, in the returned store, with
an embedding job for that review in `queued` status and a rollup of the
review's subject with `is_dirty = true`; and any non-success response leaves
no review with the fresh id in the store — the failures after the insert
(body insert, job upsert, rollup upsert) each delete the review row in
compensation. -/
theorem C9_success_coexists_failures_compensate (env : WriteEnv) (db : Db)
    (p : Payload)
    (hfresh : ∀ x ∈ db.course_reviews, x.id ≠ env.freshReviewId) :
    ((postCourseReview env db p).1 = WriteResp.ok env.freshReviewId →
      ∃ row ∈ (postCourseReview env db p).2.course_reviews,
        row.id = env.freshReviewId ∧
        (∃ jb ∈ (postCourseReview env db p).2.embedding_jobs,
          jb.review_id = env.freshReviewId ∧
          jb.status = JobStatus.queued) ∧
        (∃ ru ∈ (postCourseReview env db p).2.subject_rollups,
          ru.subject_id = row.subject_id ∧ ru.is_dirty = true)) ∧
    (¬((postCourseReview env db p).1 = WriteResp.ok env.freshReviewId) →
      ∀ x ∈ (postCourseReview env db p).2.course_reviews,
        x.id ≠ env.freshReviewId) := by
  unfold postCourseReview
  dsimp only []
  split
  · exact ⟨fun h => WriteResp.noConfusion h, fun _ x hx hc => hfresh x hx hc⟩
  · split
    · exact ⟨fun h => WriteResp.noConfusion h,
        fun _ x hx hc => hfresh x hx hc⟩
    · split
      · exact ⟨fun h => WriteResp.noConfusion h,
          fun _ x hx hc => hfresh x hx hc⟩
      · split
        · exact ⟨fun h => WriteResp.noConfusion h,
            fun _ x hx hc => hfresh x hx hc⟩
        · exact createReviewCascade_spec env db p _ _ _ _ _ _ _ hfresh

/-- Witness for C9: on the empty store with an all-success write environment
and a valid payload, the write path's guarantees hold; in particular the
success branch applies. -/
theorem C9_witness :
    ((postCourseReview cWEnv emptyDb okPayload).1 =
        WriteResp.ok cWEnv.freshReviewId →
      ∃ row ∈ (postCourseReview cWEnv emptyDb okPayload).2.course_reviews,
        row.id = cWEnv.freshReviewId ∧
        (∃ jb ∈ (postCourseReview cWEnv emptyDb
            okPayload).2.embedding_jobs,
          jb.review_id = cWEnv.freshReviewId ∧
          jb.status = JobStatus.queued) ∧
        (∃ ru ∈ (postCourseReview cWEnv emptyDb
            okPayload).2.subject_rollups,
          ru.subject_id = row.subject_id ∧ ru.is_dirty = true)) ∧
    (¬((postCourseReview cWEnv emptyDb okPayload).1 =
        WriteResp.ok cWEnv.freshReviewId) →
      ∀ x ∈ (postCourseReview cWEnv emptyDb okPayload).2.course_reviews,
        x.id ≠ cWEnv.freshReviewId) :=
  C9_success_coexists_failures_compensate cWEnv emptyDb okPayload
    (by decide)

/-! ## C5 — zero-review dirty subject self-heals -/

/-- C5: a subject flagged dirty with zero stored reviews is, in one rollup
run, written back as the zeroed rollup (`review_count = 0`, all six averages
null, empty summary, null cursor, dirty cleared), its rollup-embedding record
is untouched (in particular none is created), and the subject is not treated
as an error (`ok`, no `kept_dirty`). -/
theorem C5_zero_reviews_selfheal (env : Env) (db : Db) (r : RollupRow)
    (hnd : (db.subject_rollups.map (fun x : RollupRow => x.subject_id)).Nodup)
    (hr : r ∈ selectDirtyRollups db)
    (hzero : ∀ x ∈ db.course_reviews, x.subject_id ≠ r.subject_id) :
    rollupOf (runRollups env db).db r.subject_id = some (zeroedRollup env r) ∧
    rollupEmbOf (runRollups env db).db r.subject_id =
      rollupEmbOf db r.subject_id ∧
    (processSubject env db r).ok = true ∧
    (processSubject env db r).keptDirty = false := by
  have hrows : reviewsOf db r.subject_id = [] := by
    unfold reviewsOf
    have hfil : db.course_reviews.filter
        (fun x => x.subject_id == r.subject_id) = [] := by
      rw [List.filter_eq_nil_iff]
      intro x hx
      simpa using hzero x hx
    rw [hfil]
    rfl
  have hstep : processSubject env db r =
      { newRollup := zeroedRollup env r, embWrite := none, ok := true,
        keptDirty := false, statsUpdated := true, summaryUpdated := true,
        rollupEmbeddingUpdated := false, summaryCalls := [],
        summaryEmbedCalls := [] } := by
    unfold processSubject
    rw [hrows]
    exact processSubjectCore_zero env db.course_review_bodies
      (rollupEmbOf db r.subject_id) r
  have hlk := runRollups_lookup env db r hnd hr
  refine ⟨?_, ?_, ?_, ?_⟩
  · rw [hlk.1, hstep]
  · rw [hlk.2, hstep]
  · rw [hstep]
  · rw [hstep]

/-- Witness for C5 at a concrete one-subject store. -/
theorem C5_witness :
    rollupOf (runRollups cEnv c5Db).db dirtyRollupS.subject_id =
      some (zeroedRollup cEnv dirtyRollupS) ∧
    rollupEmbOf (runRollups cEnv c5Db).db dirtyRollupS.subject_id =
      rollupEmbOf c5Db dirtyRollupS.subject_id ∧
    (processSubject cEnv c5Db dirtyRollupS).ok = true ∧
    (processSubject cEnv c5Db dirtyRollupS).keptDirty = false :=
  C5_zero_reviews_selfheal cEnv c5Db dirtyRollupS (by decide) (by decide)
    (by decide)

/-! ## C4 — no usable new bodies: summary untouched, bookkeeping advanced -/

/-- C4: a dirty subject with at least one review whose candidate new reviews
all have missing or whitespace-only bodies gets, in one rollup run, its
summary text left unchanged while the cursor advances to the subject's
current latest review and the dirty flag is cleared; no summarization call is
made. (The rollup-embedding step after the bookkeeping is assumed to succeed
when it has to call the external service.) -/
theorem C4_unusable_bodies_advance_bookkeeping (env : Env) (db : Db)
    (r : RollupRow) (lastRow : ReviewRow)
    (hnd : (db.subject_rollups.map (fun x : RollupRow => x.subject_id)).Nodup)
    (hr : r ∈ selectDirtyRollups db)
    (hl : (reviewsOf db r.subject_id).getLast? = some lastRow)
    (hbad : ∀ id ∈ cappedIds (pendingIds (reviewsOf db r.subject_id)
        r.last_processed_review_id),
      ((lookupBody db.course_review_bodies id).all
        (fun b => jsTrim b == "")) = true)
    (hemb_ok : ∀ s, ∃ v, env.embedSummary s = Except.ok v) :
    rollupOf (runRollups env db).db r.subject_id =
      some { statsRow env (reviewsOf db r.subject_id) r with
             last_processed_review_id := some lastRow.id, is_dirty := false,
             updated_at := env.now } ∧
    (statsRow env (reviewsOf db r.subject_id) r).summary_1000 =
      r.summary_1000 ∧
    (processSubject env db r).summaryCalls = [] := by
  have hnb : newBodiesOf db.course_review_bodies
      (cappedIds (pendingIds (reviewsOf db r.subject_id)
        r.last_processed_review_id)) = [] := by
    unfold newBodiesOf
    rw [List.map_eq_nil]
    rw [List.filter_eq_nil_iff]
    intro x hx
    obtain ⟨id, hid, hlookup⟩ := List.mem_filterMap.mp hx
    have hb := hbad id hid
    rw [hlookup] at hb
    have : jsTrim x = "" := beq_iff_eq.mp hb
    simp [this]
  have hstep := processSubjectCore_noBodies env (reviewsOf db r.subject_id)
    db.course_review_bodies (rollupEmbOf db r.subject_id) r lastRow hl hnb
    hemb_ok
  have hlk := runRollups_lookup env db r hnd hr
  refine ⟨?_, rfl, ?_⟩
  · rw [hlk.1]
    unfold processSubject
    rw [hstep.1]
  · unfold processSubject
    exact hstep.2.2

/-- Witness for C4 at a concrete store. -/
theorem C4_witness :
    rollupOf (runRollups cEnv c4Db).db dirtyRollupS.subject_id =
      some { statsRow cEnv (reviewsOf c4Db dirtyRollupS.subject_id)
               dirtyRollupS with
             last_processed_review_id := some (mkReview 2).id,
             is_dirty := false, updated_at := cEnv.now } ∧
    (statsRow cEnv (reviewsOf c4Db dirtyRollupS.subject_id)
        dirtyRollupS).summary_1000 = dirtyRollupS.summary_1000 ∧
    (processSubject cEnv c4Db dirtyRollupS).summaryCalls = [] :=
  C4_unusable_bodies_advance_bookkeeping cEnv c4Db dirtyRollupS (mkReview 2)
    (by decide) (by decide) (by decide) (by decide)
    (fun s => ⟨[(s.data.length : Int)], rfl⟩)

/-! ## C7 — empty summary gets a null-vector record, not skipped -/

/-- C7: for a processed subject whose final summary normalizes to the empty
string while its stored rollup-embedding hash differs or no record exists,
the run upserts a record with a null vector and the hash of the empty
string, and makes no embedding call for this subject — so the hash
comparison of the next run stays stable. -/
theorem C7_empty_summary_null_vector (env : Env) (db : Db) (r : RollupRow)
    (lastRow : ReviewRow) (fs : String)
    (hnd : (db.subject_rollups.map (fun x : RollupRow => x.subject_id)).Nodup)
    (hr : r ∈ selectDirtyRollups db)
    (hl : (reviewsOf db r.subject_id).getLast? = some lastRow)
    (hfs : finalSummaryOf env (jsTrim r.summary_1000)
      (newBodiesOf db.course_review_bodies
        (cappedIds (pendingIds (reviewsOf db r.subject_id)
          r.last_processed_review_id))) = Except.ok fs)
    (hempty : normalizeSummaryForEmbedding fs = "")
    (hneed : (match rollupEmbOf db r.subject_id with
              | none => True
              | some c => c.content_hash ≠ env.sha256Hex "")) :
    rollupEmbOf (runRollups env db).db r.subject_id =
      some { subject_id := r.subject_id, embedding := none,
             model := env.rollupEmbeddingModel,
             content_hash := env.sha256Hex "" } ∧
    (processSubject env db r).summaryEmbedCalls = [] := by
  have hstep := processSubjectCore_emptyNorm env (reviewsOf db r.subject_id)
    db.course_review_bodies (rollupEmbOf db r.subject_id) r lastRow fs hl hfs
    hempty hneed
  have hlk := runRollups_lookup env db r hnd hr
  constructor
  · rw [hlk.2]
    show (match (processSubject env db r).embWrite with
          | some w => some w
          | none => rollupEmbOf db r.subject_id) = _
    unfold processSubject
    rw [hstep.1]
  · unfold processSubject
    exact hstep.2

/-- Witness for C7 at a concrete store (the final summary of `S` stays
empty because its candidate bodies are unusable; no record exists yet). -/
theorem C7_witness :
    rollupEmbOf (runRollups cEnv c4Db).db dirtyRollupS.subject_id =
      some { subject_id := dirtyRollupS.subject_id, embedding := none,
             model := cEnv.rollupEmbeddingModel,
             content_hash := cEnv.sha256Hex "" } ∧
    (processSubject cEnv c4Db dirtyRollupS).summaryEmbedCalls = [] :=
  C7_empty_summary_null_vector cEnv c4Db dirtyRollupS (mkReview 2) ""
    (by decide) (by decide) (by decide) (by rfl) (by rfl) (by trivial)

/-! ## C1 — backlog handling: the cap keeps the NEWEST 30 and clears dirty

The claim says the run folds the oldest 30 pending reviews, advances the
cursor to the last folded review, and keeps `dirty = true` for a follow-up
run. The code (`newIds.slice(-MAX_NEW_REVIEWS_FOR_SUMMARY)`, lines 306-309,
and the summary write of lines 364-379) instead keeps the NEWEST 30 pending
ids, advances the cursor to the subject's latest review, and clears the
dirty flag — the skipped older reviews are never folded by any later run. -/

/-- Counterexample to C1 as stated: on `c1Db` the single rollup run makes one
summarization call whose 30 bodies START at `b2` — the oldest pending body
`b1` is never folded in — and afterwards the cursor is `r31` (not the 30th
pending review) and the dirty flag is FALSE (the claim requires it to remain
true so that a follow-up run could fold the remainder). -/
theorem C1_counterexample :
    ((runRollups cEnv c1Db).summaryCalls.map (fun c => c.2.length)) = [30] ∧
    ((runRollups cEnv c1Db).summaryCalls.map (fun c => c.2.head?)) =
      [some "b2"] ∧
    (∀ c ∈ (runRollups cEnv c1Db).summaryCalls, "b1" ∉ c.2) ∧
    (rollupOf (runRollups cEnv c1Db).db "S").map
      (fun x => (x.is_dirty, x.last_processed_review_id)) =
      some (false, some "r31") := by
  decide

/-- C1 (amended): for a dirty subject whose pending reviews exceed the cap
`MAX_NEW_REVIEWS_FOR_SUMMARY = 30`, one rollup run folds exactly the NEWEST
30 pending reviews (the capped id window is `drop (pending - 30)`), makes
one summarization call on exactly their bodies, advances the cursor to the
subject's latest review, and CLEARS the dirty flag — so the skipped older
pending reviews are not picked up by a follow-up run. -/
theorem C1_amended_newest30_dirty_cleared (env : Env) (db : Db)
    (r : RollupRow) (lastRow : ReviewRow) (out : String)
    (hnd : (db.subject_rollups.map (fun x : RollupRow => x.subject_id)).Nodup)
    (hr : r ∈ selectDirtyRollups db)
    (hl : (reviewsOf db r.subject_id).getLast? = some lastRow)
    (hover : (pendingIds (reviewsOf db r.subject_id)
      r.last_processed_review_id).length > MAX_NEW_REVIEWS_FOR_SUMMARY)
    (hnb : newBodiesOf db.course_review_bodies
      (cappedIds (pendingIds (reviewsOf db r.subject_id)
        r.last_processed_review_id)) ≠ [])
    (hsum : env.summarize (jsTrim r.summary_1000)
      (newBodiesOf db.course_review_bodies
        (cappedIds (pendingIds (reviewsOf db r.subject_id)
          r.last_processed_review_id))) = Except.ok out)
    (hemb_ok : ∀ s, ∃ v, env.embedSummary s = Except.ok v) :
    cappedIds (pendingIds (reviewsOf db r.subject_id)
        r.last_processed_review_id) =
      (pendingIds (reviewsOf db r.subject_id)
        r.last_processed_review_id).drop
        ((pendingIds (reviewsOf db r.subject_id)
          r.last_processed_review_id).length - MAX_NEW_REVIEWS_FOR_SUMMARY) ∧
    (processSubject env db r).summaryCalls =
      [(jsTrim r.summary_1000,
        newBodiesOf db.course_review_bodies
          (cappedIds (pendingIds (reviewsOf db r.subject_id)
            r.last_processed_review_id)))] ∧
    rollupOf (runRollups env db).db r.subject_id =
      some { statsRow env (reviewsOf db r.subject_id) r with
             summary_1000 := jsTrim out,
             last_processed_review_id := some lastRow.id, is_dirty := false,
             updated_at := env.now } := by
  have hstep := processSubjectCore_withBodies env (reviewsOf db r.subject_id)
    db.course_review_bodies (rollupEmbOf db r.subject_id) r lastRow out hl
    hnb hsum hemb_ok
  have hlk := runRollups_lookup env db r hnd hr
  refine ⟨cappedIds_overflow _ hover, ?_, ?_⟩
  · unfold processSubject
    exact hstep.1
  · rw [hlk.1]
    unfold processSubject
    rw [hstep.2.1]

/-- Witness for the amended C1 at the concrete 31-review store. -/
theorem C1_amended_witness :
    cappedIds (pendingIds (reviewsOf c1Db dirtyRollupS.subject_id)
        dirtyRollupS.last_processed_review_id) =
      (pendingIds (reviewsOf c1Db dirtyRollupS.subject_id)
        dirtyRollupS.last_processed_review_id).drop
        ((pendingIds (reviewsOf c1Db dirtyRollupS.subject_id)
          dirtyRollupS.last_processed_review_id).length -
            MAX_NEW_REVIEWS_FOR_SUMMARY) ∧
    (processSubject cEnv c1Db dirtyRollupS).summaryCalls =
      [(jsTrim dirtyRollupS.summary_1000,
        newBodiesOf c1Db.course_review_bodies
          (cappedIds (pendingIds (reviewsOf c1Db dirtyRollupS.subject_id)
            dirtyRollupS.last_processed_review_id)))] ∧
    rollupOf (runRollups cEnv c1Db).db dirtyRollupS.subject_id =
      some { statsRow cEnv (reviewsOf c1Db dirtyRollupS.subject_id)
               dirtyRollupS with
             summary_1000 := jsTrim c1Out,
             last_processed_review_id := some (mkReview 31).id,
             is_dirty := false, updated_at := cEnv.now } :=
  C1_amended_newest30_dirty_cleared cEnv c1Db dirtyRollupS (mkReview 31)
    c1Out (by decide) (by decide) (by decide) (by decide) (by decide)
    (by rfl) (fun s => ⟨[(s.data.length : Int)], rfl⟩)

/-- Witness for C10 at a concrete short-bodied payload. -/
theorem C10_witness :
    ∃ m, postCourseReview cWEnv emptyDb shortPayload =
      (WriteResp.err 400 m, emptyDb) :=
  C10_short_body_rejected_before_write cWEnv emptyDb shortPayload
    (Or.inr ⟨jsTrim "  too short  ", rfl, by decide⟩)

/-! ## C3 — pipeline idempotence: a second pass is a no-op -/

theorem dropWhile_head_false (p : α → Bool) (l : List α)
    (h : ∀ x, l.head? = some x → p x = false) : l.dropWhile p = l := by
  cases l with
  | nil => rfl
  | cons a t =>
    rw [List.dropWhile_cons, h a rfl]
    rw [if_neg (fun hc => Bool.noConfusion hc)]

theorem trim_head_false (p : α → Bool) (l : List α) :
    ∀ x, ((((l.dropWhile p).reverse.dropWhile p).reverse).head? = some x) →
      p x = false := by
  intro x hx
  rw [List.head?_reverse] at hx
  obtain ⟨w, hw⟩ := List.dropWhile_suffix (l := (l.dropWhile p).reverse) p
  have hlast : ((l.dropWhile p).reverse).getLast? = some x := by
    rw [← hw, List.getLast?_append, hx]
    rfl
  rw [List.getLast?_reverse] at hlast
  have H := List.head?_dropWhile_not p l
  rw [hlast] at H
  exact H

theorem jsTrim_idem (s : String) : jsTrim (jsTrim s) = jsTrim s := by
  unfold jsTrim
  dsimp only []
  congr 1
  rw [dropWhile_head_false Char.isWhitespace _
    (trim_head_false Char.isWhitespace s.data)]
  rw [List.reverse_reverse, List.dropWhile_idempotent]

theorem runEmbeddings_frame (env : Env) (db : Db) :
    (runEmbeddings env db).db.course_reviews = db.course_reviews ∧
    (runEmbeddings env db).db.course_review_bodies =
      db.course_review_bodies ∧
    (runEmbeddings env db).db.subject_rollups = db.subject_rollups ∧
    (runEmbeddings env db).db.subject_rollup_embeddings =
      db.subject_rollup_embeddings := by
  unfold runEmbeddings
  dsimp only []
  split
  · exact ⟨rfl, rfl, rfl, rfl⟩
  · exact ⟨rfl, rfl, rfl, rfl⟩

theorem selectJobs_all (env : Env) (jobs : List JobRow)
    (hq : ∀ j ∈ jobs, jobSelectable env j = true)
    (hcnt : jobs.length ≤ MAX_JOBS_PER_RUN) :
    ∀ j ∈ jobs, j ∈ selectJobs env jobs := by
  intro j hj
  unfold selectJobs
  rw [List.filter_eq_self.mpr hq]
  have hperm := sortListBy_perm
    (fun a b : JobRow => decide (a.updated_at ≤ b.updated_at)) jobs
  have hlen : (sortListBy
      (fun a b : JobRow => decide (a.updated_at ≤ b.updated_at))
        jobs).length ≤ MAX_JOBS_PER_RUN := by
    rw [hperm.length_eq]
    exact hcnt
  rw [List.take_of_length_le hlen]
  exact hperm.mem_iff.mpr hj

theorem classifyJobs_fail_body (env : Env) (bodies : List (String × String))
    (embs : List ReviewEmbRow) :
    ∀ (input : List JobRow) (f : FailItem),
      f ∈ (classifyJobs env bodies embs input).2.2 →
      ∃ j ∈ input, f.review_id = j.review_id ∧
        (lookupBody bodies j.review_id = none ∨
         ∃ b, lookupBody bodies j.review_id = some b ∧
           (jsTrim b).data.length = 0)
  | [], f, hf => absurd hf (by simp [classifyJobs])
  | j :: rest, f, hf => by
    have ih := classifyJobs_fail_body env bodies embs rest
    unfold classifyJobs at hf
    cases hb : lookupBody bodies j.review_id with
    | none =>
      rw [hb] at hf
      rcases List.mem_cons.mp hf with rfl | hf
      · exact ⟨j, List.mem_cons_self j rest, rfl, Or.inl hb⟩
      · obtain ⟨j', hj', hrest⟩ := ih f hf
        exact ⟨j', List.mem_cons_of_mem _ hj', hrest⟩
    | some body =>
      rw [hb] at hf
      dsimp only [] at hf
      by_cases hemp : ((jsTrim body).data.length = 0)
      · rw [if_pos hemp] at hf
        rcases List.mem_cons.mp hf with rfl | hf
        · exact ⟨j, List.mem_cons_self j rest, rfl, Or.inr ⟨body, hb, hemp⟩⟩
        · obtain ⟨j', hj', hrest⟩ := ih f hf
          exact ⟨j', List.mem_cons_of_mem _ hj', hrest⟩
      · rw [if_neg hemp] at hf
        cases hsh : storedHashOf embs j.review_id with
        | some existing =>
          rw [hsh] at hf
          dsimp only [] at hf
          by_cases hskip :
              (existing != "" && existing == env.sha256Hex body) = true
          · rw [if_pos hskip] at hf
            obtain ⟨j', hj', hrest⟩ := ih f hf
            exact ⟨j', List.mem_cons_of_mem _ hj', hrest⟩
          · rw [if_neg hskip] at hf
            obtain ⟨j', hj', hrest⟩ := ih f hf
            exact ⟨j', List.mem_cons_of_mem _ hj', hrest⟩
        | none =>
          rw [hsh] at hf
          obtain ⟨j', hj', hrest⟩ := ih f hf
          exact ⟨j', List.mem_cons_of_mem _ hj', hrest⟩

theorem failOf_nil (env : Env) (db : Db)
    (hbody : ∀ j ∈ db.embedding_jobs, ∃ b,
      lookupBody db.course_review_bodies j.review_id = some b ∧
      (jsTrim b).data.length ≠ 0) :
    failOf env db = [] := by
  cases hfo : failOf env db with
  | nil => rfl
  | cons f rest =>
    exfalso
    have hf : f ∈ failOf env db := by
      rw [hfo]
      exact List.mem_cons_self _ _
    obtain ⟨p, hp, hfe, hbad⟩ := classifyJobs_fail_body env
      db.course_review_bodies db.course_review_embeddings
      (pickedOf env db) f hf
    obtain ⟨b, hbl, hbne⟩ := hbody p (selectJobs_mem hp).1
    rcases hbad with hnone | ⟨b', hb', hb0⟩
    · rw [hbl] at hnone
      exact Option.noConfusion hnone
    · rw [hbl] at hb'
      exact hbne (Option.some.inj hb' ▸ hb0)

theorem upsertJob_ids (env : Env) (w : JobWrite) (jobs : List JobRow)
    (hpres : w.review_id ∈ jobs.map (fun j : JobRow => j.review_id)) :
    (upsertJob env w jobs).map (fun j : JobRow => j.review_id) =
      jobs.map (fun j : JobRow => j.review_id) := by
  unfold upsertJob
  obtain ⟨j0, hj0, hje⟩ := List.mem_map.mp hpres
  have hany : jobs.any (fun j => j.review_id == w.review_id) = true :=
    List.any_eq_true.mpr ⟨j0, hj0, beq_iff_eq.mpr hje⟩
  rw [if_pos hany, List.map_map]
  refine List.map_congr_left ?_
  intro x _
  show (if x.review_id == w.review_id then jobWriteRow env w
    else x).review_id = x.review_id
  by_cases hx : (x.review_id == w.review_id) = true
  · rw [if_pos hx]
    exact (beq_iff_eq.mp hx).symm
  · rw [if_neg hx]

theorem upsertJobs_ids (env : Env) :
    ∀ (ws : List JobWrite) (jobs : List JobRow),
      (∀ w ∈ ws, w.review_id ∈ jobs.map (fun j : JobRow => j.review_id)) →
      (upsertJobs env ws jobs).map (fun j : JobRow => j.review_id) =
        jobs.map (fun j : JobRow => j.review_id)
  | [], _, _ => rfl
  | w :: rest, jobs, h => by
    show ((upsertJobs env rest (upsertJob env w jobs)).map
      (fun j : JobRow => j.review_id)) = _
    have h1 := upsertJob_ids env w jobs (h w (List.mem_cons_self _ _))
    have h2 := upsertJobs_ids env rest (upsertJob env w jobs) ?_
    · rw [h2, h1]
    · intro w' hw'
      rw [h1]
      exact h w' (List.mem_cons_of_mem _ hw')

theorem lockJobs_ids (env : Env) (ids : List String) (jobs : List JobRow) :
    (lockJobs env ids jobs).map (fun j : JobRow => j.review_id) =
      jobs.map (fun j : JobRow => j.review_id) := by
  unfold lockJobs
  rw [List.map_map]
  refine List.map_congr_left ?_
  intro x _
  show (if ids.contains x.review_id &&
      (x.status == JobStatus.queued || x.status == JobStatus.failed) then
    { x with status := JobStatus.processing, locked_at := some env.now,
             locked_by := some env.runner, updated_at := env.now }
    else x).review_id = x.review_id
  split <;> rfl

theorem markSkippedDone_ids (env : Env) (ids : List String)
    (jobs : List JobRow) :
    (markSkippedDone env ids jobs).map (fun j : JobRow => j.review_id) =
      jobs.map (fun j : JobRow => j.review_id) := by
  unfold markSkippedDone
  rw [List.map_map]
  refine List.map_congr_left ?_
  intro x _
  show (if ids.contains x.review_id then
    { x with status := JobStatus.done, last_error := none, locked_at := none,
             locked_by := some env.runner, updated_at := env.now }
    else x).review_id = x.review_id
  split <;> rfl

theorem batchFold_ids (env : Env) :
    ∀ (batches : List (List NeedItem)) (st : EmbBatchState),
      (∀ b ∈ batches, ∀ x ∈ b, x.review_id ∈
        st.jobs.map (fun j : JobRow => j.review_id)) →
      (batches.foldl (embBatchStep env) st).jobs.map
          (fun j : JobRow => j.review_id) =
        st.jobs.map (fun j : JobRow => j.review_id)
  | [], _, _ => rfl
  | b :: rest, st, h => by
    rw [List.foldl_cons]
    have hstep : (embBatchStep env st b).jobs.map
        (fun j : JobRow => j.review_id) =
        st.jobs.map (fun j : JobRow => j.review_id) := by
      unfold embBatchStep
      dsimp only []
      cases hres : env.embedBatch (b.map (fun y : NeedItem => y.body)) with
      | ok vecs =>
        dsimp only []
        by_cases hlen : vecs.length = b.length
        · rw [if_pos hlen]
          refine upsertJobs_ids env _ _ ?_
          intro w hw
          obtain ⟨x, hx, hxw⟩ := List.mem_map.mp hw
          rw [← hxw]
          exact h b (List.mem_cons_self _ _) x hx
        · rw [if_neg hlen]
          unfold failBatch
          refine upsertJobs_ids env _ _ ?_
          intro w hw
          obtain ⟨x, hx, hxw⟩ := List.mem_map.mp hw
          rw [← hxw]
          exact h b (List.mem_cons_self _ _) x hx
      | error msg =>
        unfold failBatch
        refine upsertJobs_ids env _ _ ?_
        intro w hw
        obtain ⟨x, hx, hxw⟩ := List.mem_map.mp hw
        rw [← hxw]
        exact h b (List.mem_cons_self _ _) x hx
    have ih := batchFold_ids env rest (embBatchStep env st b) ?_
    · rw [ih, hstep]
    · intro b' hb' x hx
      rw [hstep]
      exact h b' (List.mem_cons_of_mem _ hb') x hx

theorem needOf_mem_ids (env : Env) (db : Db) (x : NeedItem)
    (hx : x ∈ needOf env db) :
    x.review_id ∈ db.embedding_jobs.map (fun j : JobRow => j.review_id) := by
  obtain ⟨p, hp, hrest⟩ := classifyJobs_need env db.course_review_bodies
    db.course_review_embeddings (pickedOf env db) x hx
  rw [hrest.1]
  exact List.mem_map_of_mem _ (selectJobs_mem hp).1

theorem runEmbeddings_ids (env : Env) (db : Db) :
    (runEmbeddings env db).db.embedding_jobs.map
        (fun j : JobRow => j.review_id) =
      db.embedding_jobs.map (fun j : JobRow => j.review_id) := by
  by_cases hpe : (pickedOf env db).isEmpty = true
  · unfold runEmbeddings
    dsimp only []
    have hpe' : (selectJobs env db.embedding_jobs).isEmpty = true := hpe
    rw [if_pos hpe']
  · rw [(runEmbeddings_nonempty env db hpe).1]
    have hst0 : (embSt0 env db).jobs.map (fun j : JobRow => j.review_id) =
        db.embedding_jobs.map (fun j : JobRow => j.review_id) := by
      show ((upsertJobs env ((failOf env db).map failMissingWrite)
        (markSkippedDone env (skipOf env db)
          (lockJobs env ((pickedOf env db).map
            (fun j : JobRow => j.review_id)) db.embedding_jobs))).map
              (fun j : JobRow => j.review_id)) = _
      rw [upsertJobs_ids env _ _ ?_, markSkippedDone_ids, lockJobs_ids]
      intro w hw
      obtain ⟨f, hf, hfw⟩ := List.mem_map.mp hw
      rw [markSkippedDone_ids, lockJobs_ids, ← hfw]
      obtain ⟨p, hp, hrest⟩ := classifyJobs_fail env db.course_review_bodies
        db.course_review_embeddings (pickedOf env db) f hf
      show f.review_id ∈ _
      rw [hrest.1]
      exact List.mem_map_of_mem _ (selectJobs_mem hp).1
    rw [batchFold_ids env _ _ ?_, hst0]
    intro b hb x hx
    rw [hst0]
    refine needOf_mem_ids env db x ?_
    rw [← chunkList_join EMBEDDING_BATCH_SIZE (by decide) (needOf env db)]
    exact List.mem_join.mpr ⟨b, hb, hx⟩

theorem runEmbeddings_all_done (env : Env) (db : Db)
    (hnd : (db.embedding_jobs.map (fun j : JobRow => j.review_id)).Nodup)
    (hq : ∀ j ∈ db.embedding_jobs, jobSelectable env j = true)
    (hcnt : db.embedding_jobs.length ≤ MAX_JOBS_PER_RUN)
    (hbody : ∀ j ∈ db.embedding_jobs, ∃ b,
      lookupBody db.course_review_bodies j.review_id = some b ∧
      (jsTrim b).data.length ≠ 0)
    (hembg : ∀ l, ∃ vecs, env.embedBatch l = Except.ok vecs ∧
      vecs.length = l.length) :
    ∀ x ∈ (runEmbeddings env db).db.embedding_jobs,
      x.status = JobStatus.done := by
  intro x hx
  have hids := runEmbeddings_ids env db
  have hndF : ((runEmbeddings env db).db.embedding_jobs.map
      (fun j : JobRow => j.review_id)).Nodup := by
    rw [hids]
    exact hnd
  have hfind := jobOf_mem hndF hx
  have hmemid : x.review_id ∈
      db.embedding_jobs.map (fun j : JobRow => j.review_id) := by
    rw [← hids]
    exact List.mem_map_of_mem _ hx
  obtain ⟨j, hj, hje0⟩ := List.mem_map.mp hmemid
  have hje : j.review_id = x.review_id := hje0
  have hjp : j ∈ pickedOf env db :=
    selectJobs_all env db.embedding_jobs hq hcnt j hj
  have hperm := classifyJobs_perm env db.course_review_bodies
    db.course_review_embeddings (pickedOf env db)
  have hjid : j.review_id ∈
      ((needOf env db).map (fun y : NeedItem => y.review_id)) ++
        ((skipOf env db) ++
          ((failOf env db).map (fun f : FailItem => f.review_id))) :=
    hperm.mem_iff.mpr (List.mem_map_of_mem _ hjp)
  rcases List.mem_append.mp hjid with h1 | h23
  · obtain ⟨y, hy, hye0⟩ := List.mem_map.mp h1
    have hye : y.review_id = j.review_id := hye0
    have hyj : y ∈ (chunkList EMBEDDING_BATCH_SIZE (needOf env db)).join := by
      rw [chunkList_join EMBEDDING_BATCH_SIZE (by decide)]
      exact hy
    obtain ⟨b, hb, hyb⟩ := List.mem_join.mp hyj
    have hrun := runEmbeddings_jobOf_need env db hnd b y hb hyb
    have hfind2 : jobOf (runEmbeddings env db).db.embedding_jobs
        y.review_id = some x := by
      rw [hye, hje]
      exact hfind
    rw [hrun] at hfind2
    have hxw := Option.some.inj hfind2
    rw [← hxw]
    obtain ⟨vecs, hv, hlen⟩ := hembg (b.map (fun z : NeedItem => z.body))
    have hl : vecs.length = b.length := by
      rw [hlen, List.length_map]
    show (jobWriteRow env (batchJobWrite env b y)).status = JobStatus.done
    unfold batchJobWrite
    rw [hv]
    dsimp only []
    rw [if_pos hl]
    rfl
  · rcases List.mem_append.mp h23 with h2 | h3
    · have hrun := runEmbeddings_jobOf_skip env db hnd j hj h2
      have hfind2 : jobOf (runEmbeddings env db).db.embedding_jobs
          j.review_id = some x := by
        rw [hje]
        exact hfind
      rw [hrun] at hfind2
      have hxw := Option.some.inj hfind2
      rw [← hxw]
    · exfalso
      rw [failOf_nil env db hbody] at h3
      simp at h3

theorem runEmbeddings_hashes (env : Env) (db : Db)
    (hre : db.course_review_embeddings = []) :
    ∀ y ∈ (runEmbeddings env db).db.course_review_embeddings, ∃ b,
      lookupBody db.course_review_bodies y.review_id = some b ∧
      y.content_hash = some (env.sha256Hex b) := by
  intro y hy
  by_cases hpe : (pickedOf env db).isEmpty = true
  · unfold runEmbeddings at hy
    dsimp only [] at hy
    have hpe' : (selectJobs env db.embedding_jobs).isEmpty = true := hpe
    rw [if_pos hpe'] at hy
    dsimp only [] at hy
    rw [hre] at hy
    cases hy
  · rw [(runEmbeddings_nonempty env db hpe).2.1] at hy
    rcases batchFold_embs_mem env _ (embSt0 env db) y hy with
      ⟨xn, ⟨b, hb, hxb⟩, hyid, hyhash⟩ | hy2
    · have hxneed : xn ∈ needOf env db := by
        rw [← chunkList_join EMBEDDING_BATCH_SIZE (by decide) (needOf env db)]
        exact List.mem_join.mpr ⟨b, hb, hxb⟩
      obtain ⟨p, hp, hrest⟩ := classifyJobs_need env db.course_review_bodies
        db.course_review_embeddings (pickedOf env db) xn hxneed
      refine ⟨xn.body, ?_, ?_⟩
      · rw [hyid, hrest.1]
        exact hrest.2.2.1
      · rw [hyhash, hrest.2.2.2]
    · have hy3 : y ∈ db.course_review_embeddings := hy2
      rw [hre] at hy3
      cases hy3

theorem runEmbeddings_noop (env : Env) (db : Db)
    (hdone : ∀ j ∈ db.embedding_jobs, j.status = JobStatus.done) :
    runEmbeddings env db =
      { db := db, picked := [], embedCalls := [], done := 0, skipped := 0,
        failed := 0 } := by
  have hsel : selectJobs env db.embedding_jobs = [] := by
    unfold selectJobs
    have hfil : db.embedding_jobs.filter (jobSelectable env) = [] := by
      rw [List.filter_eq_nil_iff]
      intro j hj hc
      unfold jobSelectable at hc
      rw [hdone j hj] at hc
      exact Bool.noConfusion hc
    rw [hfil]
    rfl
  unfold runEmbeddings
  dsimp only []
  rw [hsel]
  rfl

theorem processSubjectCore_clears_dirty (env : Env) (rows : List ReviewRow)
    (bodies : List (String × String)) (embRow : Option RollupEmbeddingRow)
    (r : RollupRow)
    (hsum : ∀ p bs, ∃ out, env.summarize p bs = Except.ok out)
    (hemb : ∀ s, ∃ v, env.embedSummary s = Except.ok v) :
    (processSubjectCore env rows bodies embRow r).newRollup.is_dirty =
      false := by
  unfold processSubjectCore
  cases hl : rows.getLast? with
  | none => rfl
  | some lastRow =>
    dsimp only []
    cases hfs : finalSummaryOf env (jsTrim r.summary_1000)
        (newBodiesOf bodies
          (cappedIds (pendingIds rows r.last_processed_review_id))) with
    | error e =>
      exfalso
      unfold finalSummaryOf at hfs
      by_cases hne2 : (newBodiesOf bodies
          (cappedIds (pendingIds rows
            r.last_processed_review_id))).isEmpty = true
      · rw [if_pos hne2] at hfs
        exact Except.noConfusion hfs
      · rw [if_neg hne2] at hfs
        obtain ⟨out, hout⟩ := hsum (jsTrim r.summary_1000)
          (newBodiesOf bodies
            (cappedIds (pendingIds rows r.last_processed_review_id)))
        rw [hout] at hfs
        exact Except.noConfusion hfs
    | ok finalSummary =>
      dsimp only []
      split
      · split
        · dsimp only []
          split <;> rfl
        · obtain ⟨v, hv⟩ := hemb (normalizeSummaryForEmbedding finalSummary)
          rw [hv]
          dsimp only []
          split <;> rfl
      · dsimp only []
        split <;> rfl

theorem processSubject_clears_dirty (env : Env) (db : Db) (r : RollupRow)
    (hsum : ∀ p bs, ∃ out, env.summarize p bs = Except.ok out)
    (hemb : ∀ s, ∃ v, env.embedSummary s = Except.ok v) :
    (processSubject env db r).newRollup.is_dirty = false :=
  processSubjectCore_clears_dirty env _ _ _ r hsum hemb

theorem selectDirty_congr {db db' : Db}
    (h : db'.subject_rollups = db.subject_rollups) :
    selectDirtyRollups db' = selectDirtyRollups db := by
  unfold selectDirtyRollups
  rw [h]

theorem selectDirty_all (db : Db)
    (hcnt : db.subject_rollups.length ≤ MAX_SUBJECTS_PER_RUN) :
    ∀ r ∈ db.subject_rollups, r.is_dirty = true →
      r ∈ selectDirtyRollups db := by
  intro r hr hd
  unfold selectDirtyRollups
  have hmf : r ∈ db.subject_rollups.filter (·.is_dirty) :=
    List.mem_filter.mpr ⟨hr, hd⟩
  have hperm := sortListBy_perm
    (fun a b : RollupRow => decide (a.updated_at ≤ b.updated_at))
    (db.subject_rollups.filter (·.is_dirty))
  have hlen : (sortListBy
      (fun a b : RollupRow => decide (a.updated_at ≤ b.updated_at))
      (db.subject_rollups.filter (·.is_dirty))).length ≤
        MAX_SUBJECTS_PER_RUN := by
    rw [hperm.length_eq]
    exact le_trans (List.length_filter_le _ _) hcnt
  rw [List.take_of_length_le hlen]
  exact hperm.mem_iff.mpr hmf

theorem nodup_rollupRow_unique {rolls : List RollupRow}
    (hnd : (rolls.map (fun x : RollupRow => x.subject_id)).Nodup)
    {r r' : RollupRow} (hr : r ∈ rolls) (hr' : r' ∈ rolls)
    (heq : r.subject_id = r'.subject_id) : r = r' := by
  induction rolls with
  | nil => cases hr
  | cons a t ih =>
    have hnd' := List.nodup_cons.mp hnd
    rcases List.mem_cons.mp hr with h1 | h1
    · rcases List.mem_cons.mp hr' with h2 | h2
      · rw [h1, h2]
      · subst h1
        refine absurd ?_ hnd'.1
        show r.subject_id ∈ t.map (fun x : RollupRow => x.subject_id)
        rw [heq]
        exact List.mem_map_of_mem _ h2
    · rcases List.mem_cons.mp hr' with h2 | h2
      · subst h2
        refine absurd ?_ hnd'.1
        show r'.subject_id ∈ t.map (fun x : RollupRow => x.subject_id)
        rw [← heq]
        exact List.mem_map_of_mem _ h1
      · exact ih hnd'.2 h1 h2

theorem rollupsFind_mem {rolls : List RollupRow}
    (hnd : (rolls.map (fun x : RollupRow => x.subject_id)).Nodup)
    {r : RollupRow} (hr : r ∈ rolls) :
    rolls.find? (fun y => y.subject_id == r.subject_id) = some r := by
  cases hf : rolls.find? (fun y => y.subject_id == r.subject_id) with
  | none =>
    rw [List.find?_eq_none] at hf
    exact absurd (beq_iff_eq.mpr rfl) (hf r hr)
  | some r0 =>
    have hp := List.find?_some
      (p := fun y : RollupRow => y.subject_id == r.subject_id) hf
    have hm := List.mem_of_find?_eq_some hf
    rw [nodup_rollupRow_unique hnd hm hr (beq_iff_eq.mp hp)]

theorem rollFold_sids (env : Env) :
    ∀ (sel : List RollupRow) (st : RollRunState),
      ((sel.foldl (rollSubjectFold env) st).db.subject_rollups.map
        (fun x : RollupRow => x.subject_id)) =
      st.db.subject_rollups.map (fun x : RollupRow => x.subject_id)
  | [], _ => rfl
  | a :: tl, st => by
    rw [List.foldl_cons]
    have ih := rollFold_sids env tl (rollSubjectFold env st a)
    rw [ih]
    show ((applySubjectStep st.db a.subject_id
      (processSubject env st.db a)).subject_rollups.map
        (fun x : RollupRow => x.subject_id)) = _
    unfold applySubjectStep
    dsimp only []
    rw [List.map_map]
    refine List.map_congr_left ?_
    intro x _
    show (if x.subject_id == a.subject_id then
      (processSubject env st.db a).newRollup else x).subject_id =
        x.subject_id
    by_cases hx : (x.subject_id == a.subject_id) = true
    · rw [if_pos hx]
      have hsid : (processSubject env st.db a).newRollup.subject_id =
          a.subject_id := (processSubjectCore_sid env _ _ _ a).1
      rw [hsid]
      exact (beq_iff_eq.mp hx).symm
    · rw [if_neg hx]

theorem rollFold_jobs (env : Env) :
    ∀ (sel : List RollupRow) (st : RollRunState),
      (sel.foldl (rollSubjectFold env) st).db.embedding_jobs =
        st.db.embedding_jobs ∧
      (sel.foldl (rollSubjectFold env) st).db.course_review_embeddings =
        st.db.course_review_embeddings
  | [], _ => ⟨rfl, rfl⟩
  | a :: tl, st => by
    rw [List.foldl_cons]
    have ih := rollFold_jobs env tl (rollSubjectFold env st a)
    exact ⟨ih.1.trans rfl, ih.2.trans rfl⟩

theorem runRollups_all_clean (env : Env) (db : Db)
    (hnd : (db.subject_rollups.map (fun x : RollupRow => x.subject_id)).Nodup)
    (hcnt : db.subject_rollups.length ≤ MAX_SUBJECTS_PER_RUN)
    (hsum : ∀ p bs, ∃ out, env.summarize p bs = Except.ok out)
    (hemb : ∀ s, ∃ v, env.embedSummary s = Except.ok v) :
    ∀ x ∈ (runRollups env db).db.subject_rollups, x.is_dirty = false := by
  intro x hx
  have hsids : ((runRollups env db).db.subject_rollups.map
      (fun y : RollupRow => y.subject_id)) =
      db.subject_rollups.map (fun y : RollupRow => y.subject_id) :=
    rollFold_sids env (selectDirtyRollups db) _
  have hndF : (((runRollups env db).db.subject_rollups.map
      (fun y : RollupRow => y.subject_id))).Nodup := by
    rw [hsids]
    exact hnd
  have hfind : (runRollups env db).db.subject_rollups.find?
      (fun y => y.subject_id == x.subject_id) = some x :=
    rollupsFind_mem hndF hx
  by_cases hpick : ∃ r ∈ selectDirtyRollups db, r.subject_id = x.subject_id
  · obtain ⟨r, hr, hre⟩ := hpick
    have hlk := (runRollups_lookup env db r hnd hr).1
    have hfind2 : rollupOf (runRollups env db).db r.subject_id = some x := by
      unfold rollupOf
      rw [hre]
      exact hfind
    rw [hlk] at hfind2
    have hxw := Option.some.inj hfind2
    rw [← hxw]
    exact processSubjectCore_clears_dirty env _ _ _ r hsum hemb
  · have hnp : ∀ r ∈ selectDirtyRollups db, r.subject_id ≠ x.subject_id :=
      fun r hr hc => hpick ⟨r, hr, hc⟩
    have hfr := rollFold_frame env (selectDirtyRollups db)
      { db := db, summaryCalls := [], summaryEmbedCalls := [],
        statsUpdated := 0, summariesUpdated := 0,
        rollupEmbeddingsUpdated := 0, keptDirty := 0 } x.subject_id hnp
    have h5 : rollupOf ((selectDirtyRollups db).foldl (rollSubjectFold env)
        { db := db, summaryCalls := [], summaryEmbedCalls := [],
          statsUpdated := 0, summariesUpdated := 0,
          rollupEmbeddingsUpdated := 0, keptDirty := 0 }).db x.subject_id =
        some x := hfind
    rw [hfr.1] at h5
    have hmem : x ∈ db.subject_rollups := by
      have h6 : db.subject_rollups.find?
          (fun y => y.subject_id == x.subject_id) = some x := h5
      exact List.mem_of_find?_eq_some h6
    cases hxd : x.is_dirty with
    | false => rfl
    | true =>
      exact (hnp x (selectDirty_all db hcnt x hmem hxd) rfl).elim

theorem upsertRollupEmb_mem {row : RollupEmbeddingRow}
    {l : List RollupEmbeddingRow} {m : RollupEmbeddingRow}
    (hm : m ∈ upsertRollupEmb row l) : m = row ∨ m ∈ l := by
  unfold upsertRollupEmb at hm
  by_cases h : l.any (fun y => y.subject_id == row.subject_id) = true
  · rw [if_pos h] at hm
    obtain ⟨y, hy, hym⟩ := List.mem_map.mp hm
    have hym' : (if (y.subject_id == row.subject_id) = true then row
      else y) = m := hym
    by_cases hys : (y.subject_id == row.subject_id) = true
    · rw [if_pos hys] at hym'
      exact Or.inl hym'.symm
    · rw [if_neg hys] at hym'
      rw [← hym']
      exact Or.inr hy
  · rw [if_neg h] at hm
    rcases List.mem_append.mp hm with h1 | h1
    · exact Or.inr h1
    · rcases List.mem_cons.mp h1 with h2 | h2
      · exact Or.inl h2
      · cases h2

theorem rollFold_embs_mem (env : Env) (db0 : Db) :
    ∀ (sel : List RollupRow) (st : RollRunState),
      st.db.course_reviews = db0.course_reviews →
      st.db.course_review_bodies = db0.course_review_bodies →
      (sel.map (fun x : RollupRow => x.subject_id)).Nodup →
      (∀ r ∈ sel, rollupEmbOf st.db r.subject_id =
        rollupEmbOf db0 r.subject_id) →
      ∀ m ∈ (sel.foldl (rollSubjectFold env)
          st).db.subject_rollup_embeddings,
        m ∈ st.db.subject_rollup_embeddings ∨
        ∃ r ∈ sel, (processSubject env db0 r).embWrite = some m
  | [], st, _, _, _, _, m, hm => Or.inl hm
  | a :: tl, st, hcr, hcb, hnd, hemb, m, hm => by
    rw [List.foldl_cons] at hm
    have hND := List.nodup_cons.mp hnd
    have hstep_eq : processSubject env st.db a = processSubject env db0 a :=
      processSubject_congr env a hcr hcb (hemb a (List.mem_cons_self a tl))
    have hsid0 := processSubjectCore_sid env (reviewsOf db0 a.subject_id)
      db0.course_review_bodies (rollupEmbOf db0 a.subject_id) a
    have htl_ne : ∀ r' ∈ tl, r'.subject_id ≠ a.subject_id := by
      intro r' hr' hc
      have hmem : r'.subject_id ∈
          tl.map (fun x : RollupRow => x.subject_id) :=
        List.mem_map_of_mem _ hr'
      rw [hc] at hmem
      exact hND.1 hmem
    have hemb' : ∀ r' ∈ tl,
        rollupEmbOf (rollSubjectFold env st a).db r'.subject_id =
          rollupEmbOf db0 r'.subject_id := by
      intro r' hr'
      have h7 := applySubjectStep_embOf_ne st.db a.subject_id
        (processSubject env st.db a) r'.subject_id
        (by rw [hstep_eq]; exact hsid0.2) (htl_ne r' hr')
      exact h7.trans (hemb r' (List.mem_cons_of_mem a hr'))
    have ihm := rollFold_embs_mem env db0 tl (rollSubjectFold env st a)
      hcr hcb hND.2 hemb' m hm
    rcases ihm with h1 | ⟨r, hr, hw⟩
    · have h8 : m ∈ (applySubjectStep st.db a.subject_id
          (processSubject env st.db a)).subject_rollup_embeddings := h1
      unfold applySubjectStep at h8
      dsimp only [] at h8
      cases hew : (processSubject env st.db a).embWrite with
      | none =>
        rw [hew] at h8
        exact Or.inl h8
      | some w =>
        rw [hew] at h8
        rcases upsertRollupEmb_mem h8 with h9 | h9
        · refine Or.inr ⟨a, List.mem_cons_self _ _, ?_⟩
          rw [← hstep_eq, hew, h9]
        · exact Or.inl h9
    · exact Or.inr ⟨r, List.mem_cons_of_mem _ hr, hw⟩

theorem processSubjectCore_embWrite_char (env : Env) (rows : List ReviewRow)
    (bodies : List (String × String)) (embRow : Option RollupEmbeddingRow)
    (r : RollupRow) :
    (processSubjectCore env rows bodies embRow r).embWrite = none ∨
    ∃ w, (processSubjectCore env rows bodies embRow r).embWrite = some w ∧
      w.content_hash = env.sha256Hex (normalizeSummaryForEmbedding
        (jsTrim (processSubjectCore env rows bodies embRow
          r).newRollup.summary_1000)) := by
  unfold processSubjectCore
  cases hl : rows.getLast? with
  | none => exact Or.inl rfl
  | some lastRow =>
    dsimp only []
    cases hfs : finalSummaryOf env (jsTrim r.summary_1000)
        (newBodiesOf bodies
          (cappedIds (pendingIds rows r.last_processed_review_id))) with
    | error e => exact Or.inl rfl
    | ok finalSummary =>
      dsimp only []
      by_cases hneed : ((match embRow with
        | none => true
        | some c => c.content_hash !=
            env.sha256Hex (normalizeSummaryForEmbedding finalSummary)) =
          true)
      · rw [if_pos hneed]
        by_cases hlen0 : ((normalizeSummaryForEmbedding
            finalSummary).data.length = 0)
        · rw [if_pos hlen0]
          refine Or.inr ⟨_, rfl, ?_⟩
          by_cases hnb : ((newBodiesOf bodies
              (cappedIds (pendingIds rows
                r.last_processed_review_id))).isEmpty = true)
          · rw [if_pos hnb]
            unfold finalSummaryOf at hfs
            rw [if_pos hnb] at hfs
            have hfse := Except.ok.inj hfs
            show env.sha256Hex (normalizeSummaryForEmbedding finalSummary) =
              env.sha256Hex (normalizeSummaryForEmbedding
                (jsTrim r.summary_1000))
            rw [← hfse]
          · rw [if_neg hnb]
            unfold finalSummaryOf at hfs
            rw [if_neg hnb] at hfs
            cases hso : env.summarize (jsTrim r.summary_1000)
                (newBodiesOf bodies
                  (cappedIds (pendingIds rows
                    r.last_processed_review_id))) with
            | error e2 =>
              rw [hso] at hfs
              exact Except.noConfusion hfs
            | ok out =>
              rw [hso] at hfs
              have hfse : jsTrim out = finalSummary := Except.ok.inj hfs
              show env.sha256Hex
                  (normalizeSummaryForEmbedding finalSummary) =
                env.sha256Hex (normalizeSummaryForEmbedding
                  (jsTrim finalSummary))
              rw [← hfse]
              unfold normalizeSummaryForEmbedding
              simp only [jsTrim_idem]
        · rw [if_neg hlen0]
          cases hes : env.embedSummary
              (normalizeSummaryForEmbedding finalSummary) with
          | error e3 => exact Or.inl rfl
          | ok vec =>
            dsimp only []
            refine Or.inr ⟨_, rfl, ?_⟩
            by_cases hnb : ((newBodiesOf bodies
                (cappedIds (pendingIds rows
                  r.last_processed_review_id))).isEmpty = true)
            · rw [if_pos hnb]
              unfold finalSummaryOf at hfs
              rw [if_pos hnb] at hfs
              have hfse := Except.ok.inj hfs
              show env.sha256Hex
                  (normalizeSummaryForEmbedding finalSummary) =
                env.sha256Hex (normalizeSummaryForEmbedding
                  (jsTrim r.summary_1000))
              rw [← hfse]
            · rw [if_neg hnb]
              unfold finalSummaryOf at hfs
              rw [if_neg hnb] at hfs
              cases hso : env.summarize (jsTrim r.summary_1000)
                  (newBodiesOf bodies
                    (cappedIds (pendingIds rows
                      r.last_processed_review_id))) with
              | error e2 =>
                rw [hso] at hfs
                exact Except.noConfusion hfs
              | ok out =>
                rw [hso] at hfs
                have hfse : jsTrim out = finalSummary := Except.ok.inj hfs
                show env.sha256Hex
                    (normalizeSummaryForEmbedding finalSummary) =
                  env.sha256Hex (normalizeSummaryForEmbedding
                    (jsTrim finalSummary))
                rw [← hfse]
                unfold normalizeSummaryForEmbedding
                simp only [jsTrim_idem]
      · rw [if_neg hneed]
        exact Or.inl rfl

theorem runRollups_noop (env : Env) (db : Db)
    (hclean : ∀ r ∈ db.subject_rollups, r.is_dirty = false) :
    runRollups env db =
      { db := db, summaryCalls := [], summaryEmbedCalls := [],
        statsUpdated := 0, summariesUpdated := 0,
        rollupEmbeddingsUpdated := 0, keptDirty := 0 } := by
  have hsel : selectDirtyRollups db = [] := by
    unfold selectDirtyRollups
    have hfil : db.subject_rollups.filter (·.is_dirty) = [] := by
      rw [List.filter_eq_nil_iff]
      intro r hr hc
      rw [hclean r hr] at hc
      exact Bool.noConfusion hc
    rw [hfil]
    rfl
  unfold runRollups
  rw [hsel]
  rfl

theorem runPipeline_noop (env : Env) (dbx : Db)
    (hdone : ∀ j ∈ dbx.embedding_jobs, j.status = JobStatus.done)
    (hclean : ∀ r ∈ dbx.subject_rollups, r.is_dirty = false) :
    runPipeline env dbx =
      { db := dbx, embedCalls := [], summaryCalls := [],
        summaryEmbedCalls := [] } := by
  have hE2 := runEmbeddings_noop env dbx hdone
  have hR2 := runRollups_noop env dbx hclean
  unfold runPipeline
  dsimp only []
  rw [hE2]
  dsimp only []
  rw [hR2]

/-- C3: with unique keys, no pre-existing embedding records, every job
claimable in one run with a usable body, every subject processable in one
run, and total external services, one pipeline pass converges: afterwards no
subject is dirty, every review-embedding hash is the recomputed hash of the
stored body text, every rollup-embedding hash is the recomputed hash of its
subject's stored (normalized) summary, and a second pipeline pass is exactly
a no-op — it returns the store unchanged and makes zero external
summarization or embedding calls. -/
theorem C3_second_pass_noop (env : Env) (db : Db)
    (hndJ : (db.embedding_jobs.map (fun j : JobRow => j.review_id)).Nodup)
    (hndR : (db.subject_rollups.map
      (fun x : RollupRow => x.subject_id)).Nodup)
    (hre : db.course_review_embeddings = [])
    (hse : db.subject_rollup_embeddings = [])
    (hq : ∀ j ∈ db.embedding_jobs, jobSelectable env j = true)
    (hcntJ : db.embedding_jobs.length ≤ MAX_JOBS_PER_RUN)
    (hbody : ∀ j ∈ db.embedding_jobs, ∃ b,
      lookupBody db.course_review_bodies j.review_id = some b ∧
      (jsTrim b).data.length ≠ 0)
    (hcntR : db.subject_rollups.length ≤ MAX_SUBJECTS_PER_RUN)
    (hembg : ∀ l, ∃ vecs, env.embedBatch l = Except.ok vecs ∧
      vecs.length = l.length)
    (hsum : ∀ p bs, ∃ out, env.summarize p bs = Except.ok out)
    (hemb : ∀ s, ∃ v, env.embedSummary s = Except.ok v) :
    (∀ x ∈ (runPipeline env db).db.subject_rollups, x.is_dirty = false) ∧
    (∀ y ∈ (runPipeline env db).db.course_review_embeddings, ∃ b,
      lookupBody (runPipeline env db).db.course_review_bodies y.review_id =
        some b ∧
      y.content_hash = some (env.sha256Hex b)) ∧
    (∀ m ∈ (runPipeline env db).db.subject_rollup_embeddings, ∃ rr,
      rollupOf (runPipeline env db).db m.subject_id = some rr ∧
      m.content_hash = env.sha256Hex (normalizeSummaryForEmbedding
        (jsTrim rr.summary_1000))) ∧
    runPipeline env (runPipeline env db).db =
      { db := (runPipeline env db).db, embedCalls := [],
        summaryCalls := [], summaryEmbedCalls := [] } := by
  have hEframe := runEmbeddings_frame env db
  have hdoneE := runEmbeddings_all_done env db hndJ hq hcntJ hbody hembg
  have hndR' : ((runEmbeddings env db).db.subject_rollups.map
      (fun x : RollupRow => x.subject_id)).Nodup := by
    rw [hEframe.2.2.1]
    exact hndR
  have hcntR' : (runEmbeddings env db).db.subject_rollups.length ≤
      MAX_SUBJECTS_PER_RUN := by
    rw [hEframe.2.2.1]
    exact hcntR
  have hcleanA : ∀ x ∈ (runPipeline env db).db.subject_rollups,
      x.is_dirty = false :=
    runRollups_all_clean env (runEmbeddings env db).db hndR' hcntR' hsum hemb
  have hRjobs := rollFold_jobs env
    (selectDirtyRollups (runEmbeddings env db).db)
    { db := (runEmbeddings env db).db, summaryCalls := [],
      summaryEmbedCalls := [], statsUpdated := 0, summariesUpdated := 0,
      rollupEmbeddingsUpdated := 0, keptDirty := 0 }
  have hRrev := rollFold_reviews env
    (selectDirtyRollups (runEmbeddings env db).db)
    { db := (runEmbeddings env db).db, summaryCalls := [],
      summaryEmbedCalls := [], statsUpdated := 0, summariesUpdated := 0,
      rollupEmbeddingsUpdated := 0, keptDirty := 0 }
  have hjobs1 : (runPipeline env db).db.embedding_jobs =
      (runEmbeddings env db).db.embedding_jobs := hRjobs.1
  have hembs1 : (runPipeline env db).db.course_review_embeddings =
      (runEmbeddings env db).db.course_review_embeddings := hRjobs.2
  have hbod1 : (runPipeline env db).db.course_review_bodies =
      (runEmbeddings env db).db.course_review_bodies := hRrev.2
  have hhashE := runEmbeddings_hashes env db hre
  have hB : ∀ y ∈ (runPipeline env db).db.course_review_embeddings, ∃ b,
      lookupBody (runPipeline env db).db.course_review_bodies y.review_id =
        some b ∧
      y.content_hash = some (env.sha256Hex b) := by
    intro y hy
    rw [hembs1] at hy
    obtain ⟨b, hbl, hbh⟩ := hhashE y hy
    refine ⟨b, ?_, hbh⟩
    rw [hbod1, hEframe.2.1]
    exact hbl
  have hC : ∀ m ∈ (runPipeline env db).db.subject_rollup_embeddings, ∃ rr,
      rollupOf (runPipeline env db).db m.subject_id = some rr ∧
      m.content_hash = env.sha256Hex (normalizeSummaryForEmbedding
        (jsTrim rr.summary_1000)) := by
    intro m hm
    have hm' : m ∈ ((selectDirtyRollups (runEmbeddings env db).db).foldl
        (rollSubjectFold env)
        { db := (runEmbeddings env db).db, summaryCalls := [],
          summaryEmbedCalls := [], statsUpdated := 0, summariesUpdated := 0,
          rollupEmbeddingsUpdated := 0,
          keptDirty := 0 }).db.subject_rollup_embeddings := hm
    rcases rollFold_embs_mem env (runEmbeddings env db).db
      (selectDirtyRollups (runEmbeddings env db).db) _ rfl rfl
      (selectDirty_sids_nodup hndR') (fun _ _ => rfl) m hm' with
      h1 | ⟨r, hr, hw⟩
    · have h2 : m ∈ db.subject_rollup_embeddings := by
        rw [← hEframe.2.2.2]
        exact h1
      rw [hse] at h2
      cases h2
    · rcases processSubjectCore_embWrite_char env
        (reviewsOf (runEmbeddings env db).db r.subject_id)
        (runEmbeddings env db).db.course_review_bodies
        (rollupEmbOf (runEmbeddings env db).db r.subject_id) r with
        hnone | ⟨w, hw', hhash⟩
      · have hw2 : (processSubject env (runEmbeddings env db).db
            r).embWrite = none := hnone
        rw [hw2] at hw
        exact Option.noConfusion hw
      · have hw2 : (processSubject env (runEmbeddings env db).db
            r).embWrite = some w := hw'
        rw [hw2] at hw
        have hmw := Option.some.inj hw
        have hsid := (processSubjectCore_sid env
          (reviewsOf (runEmbeddings env db).db r.subject_id)
          (runEmbeddings env db).db.course_review_bodies
          (rollupEmbOf (runEmbeddings env db).db r.subject_id) r).2 w hw'
        have hlk := (runRollups_lookup env (runEmbeddings env db).db r
          hndR' hr).1
        refine ⟨(processSubject env (runEmbeddings env db).db r).newRollup,
          ?_, ?_⟩
        · have hms : m.subject_id = r.subject_id := by
            rw [← hmw]
            exact hsid
          rw [hms]
          exact hlk
        · rw [← hmw]
          exact hhash
  have hdone1 : ∀ j ∈ (runPipeline env db).db.embedding_jobs,
      j.status = JobStatus.done := by
    intro j hj
    rw [hjobs1] at hj
    exact hdoneE j hj
  have hD : runPipeline env (runPipeline env db).db =
      { db := (runPipeline env db).db, embedCalls := [],
        summaryCalls := [], summaryEmbedCalls := [] } :=
    runPipeline_noop env (runPipeline env db).db hdone1 hcleanA
  exact ⟨hcleanA, hB, hC, hD⟩

/-- Witness for C3 at a concrete one-review, one-job, one-dirty-subject
store with well-behaved external services. -/
theorem C3_witness :
    (∀ x ∈ (runPipeline cEnv c3Db).db.subject_rollups,
      x.is_dirty = false) ∧
    (∀ y ∈ (runPipeline cEnv c3Db).db.course_review_embeddings, ∃ b,
      lookupBody (runPipeline cEnv c3Db).db.course_review_bodies
        y.review_id = some b ∧
      y.content_hash = some (cEnv.sha256Hex b)) ∧
    (∀ m ∈ (runPipeline cEnv c3Db).db.subject_rollup_embeddings, ∃ rr,
      rollupOf (runPipeline cEnv c3Db).db m.subject_id = some rr ∧
      m.content_hash = cEnv.sha256Hex (normalizeSummaryForEmbedding
        (jsTrim rr.summary_1000))) ∧
    runPipeline cEnv (runPipeline cEnv c3Db).db =
      { db := (runPipeline cEnv c3Db).db, embedCalls := [],
        summaryCalls := [], summaryEmbedCalls := [] } :=
  C3_second_pass_noop cEnv c3Db (by decide) (by decide) rfl rfl
    (by decide) (by decide) (by decide) (by decide)
    (fun l => ⟨_, rfl, by simp⟩)
    (fun p bs => ⟨String.intercalate "|" (p :: bs), rfl⟩)
    (fun s => ⟨[(s.data.length : Int)], rfl⟩)

end ReviewPage
